import Mathlib

/-!
Verification of the 5etools-to-postgres normalization and extraction core.

This file gives a shallow embedding, in Lean 4, of the pure data-transformation
functions of the repository (clean_items.py, validate_cleaned.py,
extract_names.py, extract_conditions.py) and proves or refutes the frozen
claims about them.

Modelling conventions:
Python JSON-like values are embedded as the inductive type Json below.
Python numbers are modelled as integers (Json.num carries an Int); the
repository's data and all claims under study involve integer arithmetic only.
Where a Python function accepts a float or a fractional numeric string
(for example float("1.5") inside normalize_weight), that region of the input
space is outside the integer model and is noted in a comment at the definition;
no theorem below depends on it.
Python dicts are embedded as insertion-ordered association lists (JObj);
assignment to an existing key replaces the value in place, assignment to a
fresh key appends, matching CPython dict semantics.
A Python function that can raise an exception is embedded with an Option
result: none means the call raises; some v means it returns v.
Python strings are embedded as Lean String / List Char (ASCII data; the
corpus texts relevant to the claims are ASCII).
-/

/- Json values: the shapes a decoded JSON field can take, mirroring Python's
None / bool / int / str / list / dict. JList and JObj are spelled out as
mutual inductives (rather than List nesting) so that every function below is
structurally recursive and kernel-evaluable. -/
mutual
/-- Json value: None, bool, int, str, list or dict. -/
inductive Json where
  | null : Json
  | bool (b : Bool) : Json
  | num (n : Int) : Json
  | str (s : String) : Json
  | arr (xs : JList) : Json
  | obj (kvs : JObj) : Json
deriving DecidableEq

/-- Json list (a Python list of Json values). -/
inductive JList where
  | nil : JList
  | cons (hd : Json) (tl : JList) : JList
deriving DecidableEq

/-- Json object: an insertion-ordered association list (a Python dict). -/
inductive JObj where
  | nil : JObj
  | cons (k : String) (v : Json) (tl : JObj) : JObj
deriving DecidableEq
end

/-- Convert a JList to a Lean list. -/
def JList.toList : JList → List Json
  | .nil => []
  | .cons h t => h :: JList.toList t

/-- Build a JList from a Lean list. -/
def JList.ofList : List Json → JList
  | [] => .nil
  | h :: t => .cons h (JList.ofList t)

/-- Convert a JObj to a Lean association list. -/
def JObj.toList : JObj → List (String × Json)
  | .nil => []
  | .cons k v t => (k, v) :: JObj.toList t

/-- Build a JObj from a Lean association list. -/
def JObj.ofList : List (String × Json) → JObj
  | [] => .nil
  | (k, v) :: t => .cons k v (JObj.ofList t)

/-- Python d[k] / d.get(k): value of the first occurrence of the key. -/
def JObj.lookup : JObj → String → Option Json
  | .nil, _ => none
  | .cons k v t, key => if k = key then some v else JObj.lookup t key

/-- Python (k in d): key membership. -/
def JObj.hasKey (o : JObj) (key : String) : Bool :=
  (o.lookup key).isSome

/-- Python d[k] = v: replace in place if the key exists, else append;
insertion order is preserved, matching CPython dicts. -/
def JObj.set : JObj → String → Json → JObj
  | .nil, key, v => .cons key v .nil
  | .cons k w t, key, v =>
      if k = key then .cons k v t else .cons k w (JObj.set t key v)

/-- Python (del d[k]): remove the key, preserving the order of the rest. -/
def JObj.del : JObj → String → JObj
  | .nil, _ => .nil
  | .cons k w t, key => if k = key then t else .cons k w (JObj.del t key)

/-- Python d.get(key): missing keys give None. -/
def jget (o : JObj) (key : String) : Json :=
  (o.lookup key).getD .null

/-- Python d.get(key, dflt). -/
def jgetD (o : JObj) (key : String) (dflt : Json) : Json :=
  (o.lookup key).getD dflt

/-- Python truthiness of a JSON-like value: None, False, 0, "", [] and
empty dicts are falsy, everything else truthy. -/
def jTruthy : Json → Bool
  | .null => false
  | .bool b => b
  | .num n => n != 0
  | .str s => s.length != 0
  | .arr .nil => false
  | .arr _ => true
  | .obj .nil => false
  | .obj _ => true

/-- Python type(v).__name__ for the modelled value shapes. -/
def typeName : Json → String
  | .null => "NoneType"
  | .bool _ => "bool"
  | .num _ => "int"
  | .str _ => "str"
  | .arr _ => "list"
  | .obj _ => "dict"

/-- Apostrophe character, spelled by code point. -/
def apoChar : Char := Char.ofNat 39

/-- Lowercase hex digit of a value below 16 (Python backslash-x escapes). -/
def hexDigit (n : Nat) : Char :=
  if n < 10 then Char.ofNat (48 + n) else Char.ofNat (87 + n)

/-- Escape of one character inside a Python repr string literal with quote
character q: backslash, the quote, newline, carriage return and tab get a
backslash escape, other ASCII control characters a backslash-x escape, and
printable characters stand for themselves (ASCII corpus). -/
def reprEscape (q c : Char) : List Char :=
  if c = '\\' then ['\\', '\\']
  else if c = q then ['\\', q]
  else if c = '\n' then ['\\', 'n']
  else if c = '\x0d' then ['\\', 'r']
  else if c = '\t' then ['\\', 't']
  else if c.toNat < 32 || 127 ≤ c.toNat then
    ['\\', 'x', hexDigit (c.toNat / 16 % 16), hexDigit (c.toNat % 16)]
  else [c]

/-- Quote character Python repr picks for a string: single quotes unless the
string holds a single quote and no double quote. -/
def reprQuote (s : String) : Char :=
  if s.data.contains apoChar && !(s.data.contains '"') then '"' else apoChar

/-- Python repr of a string (ASCII corpus). -/
def strRepr (s : String) : String :=
  let q := reprQuote s
  ⟨q :: s.data.flatMap (reprEscape q) ++ [q]⟩

mutual
/-- Python repr of a JSON-like value: None, True and False by name, numbers
in decimal, strings quoted and escaped, lists and dicts rendered
recursively with comma-space separators (dict keys are strings). -/
def pyRepr : Json → String
  | .null => "None"
  | .bool true => "True"
  | .bool false => "False"
  | .num n => toString n
  | .str s => strRepr s
  | .arr xs => "[" ++ jlRepr xs ++ "]"
  | .obj kvs => "\x7b" ++ joRepr kvs ++ "\x7d"

/-- Comma-separated element reprs of a list. -/
def jlRepr : JList → String
  | .nil => ""
  | .cons h .nil => pyRepr h
  | .cons h t => pyRepr h ++ ", " ++ jlRepr t

/-- Comma-separated key: value reprs of a dict. -/
def joRepr : JObj → String
  | .nil => ""
  | .cons k v .nil => strRepr k ++ ": " ++ pyRepr v
  | .cons k v t => strRepr k ++ ": " ++ pyRepr v ++ ", " ++ joRepr t
end

/-- Python str(v): a string stays itself, every other value is rendered as
its repr (str and repr agree on non-string values from json data). -/
def pyStr : Json → String
  | .str s => s
  | v => pyRepr v

/-- Whitespace characters recognised by Python's str.strip(), \s and int():
space, tab, newline, carriage return, form feed, vertical tab (ASCII set). -/
def pySpace (c : Char) : Bool :=
  c = ' ' || c = '\t' || c = '\n' || c = '\x0d' || c = '\x0c' || c = '\x0b'

/-- ASCII decimal digit test (Python str.isdigit over the ASCII corpus). -/
def pyDigit (c : Char) : Bool :=
  '0' ≤ c && c ≤ '9'

/-- Numeric value of a digit character. -/
def digitVal (c : Char) : Int :=
  Int.ofNat (c.toNat - '0'.toNat)

/-- Value of a nonempty digit string. -/
def digitsVal (l : List Char) : Int :=
  l.foldl (fun acc c => acc * 10 + digitVal c) 0

/-- Python int(s) on a string: optional surrounding whitespace, optional
sign, one or more digits; anything else raises ValueError (none). Underscore
digit separators and non-ASCII digits are outside the model. -/
def pyInt (s : String) : Option Int :=
  let l := (s.data.dropWhile pySpace).reverse.dropWhile pySpace |>.reverse
  match l with
  | '-' :: ds => if ds ≠ [] ∧ ds.all pyDigit then some (-(digitsVal ds)) else none
  | '+' :: ds => if ds ≠ [] ∧ ds.all pyDigit then some (digitsVal ds) else none
  | ds => if ds ≠ [] ∧ ds.all pyDigit then some (digitsVal ds) else none

/-- Python str.strip(): drop leading and trailing whitespace. -/
def pyStrip (s : String) : String :=
  ⟨(s.data.dropWhile pySpace).reverse.dropWhile pySpace |>.reverse⟩

/-- Python str.lower() over the ASCII corpus. -/
def pyLower (s : String) : String :=
  ⟨s.data.map Char.toLower⟩

/-- Python (c in s) for a single character. -/
def pyHasChar (s : String) (c : Char) : Bool :=
  s.data.contains c

/-- Python s.split(sep)[0]: the text before the first occurrence of the
separator character (equal to s itself when the separator is absent). -/
def pySplitHead (s : String) (sep : Char) : String :=
  ⟨s.data.takeWhile (· ≠ sep)⟩

/-- Python iteration (for x in v): lists yield their elements, strings yield
their characters as one-character strings, dicts yield their keys; iterating
a number, bool or None raises TypeError (none). Callers below test Python
truthiness first, so None and empty containers never reach this function. -/
def pyIter : Json → Option (List Json)
  | .arr xs => some xs.toList
  | .str s => some (s.data.map (fun c => Json.str (String.mk [c])))
  | .obj kvs => some ((kvs.toList).map (fun p => Json.str p.1))
  | _ => none

/-- Python (v * k) for a nonnegative literal multiplier, as it occurs in
normalize_value: numbers multiply (bools as 0/1), strings and lists
replicate, None and dicts raise TypeError (none). -/
def pyMulJson : Json → Nat → Option Json
  | .num n, k => some (.num (n * k))
  | .bool b, k => some (.num ((if b then (1 : Int) else 0) * k))
  | .str s, k => some (.str ⟨(List.replicate k s.data).flatten⟩)
  | .arr xs, k => some (.arr (JList.ofList (List.replicate k xs.toList).flatten))
  | _, _ => none

/-- Python (a + b) between the coin summands of normalize_value: numbers add
(bools as 0/1), strings and lists concatenate, every mixed or unsupported
pair raises TypeError (none). -/
def pyAddJson : Json → Json → Option Json
  | .num a, .num b => some (.num (a + b))
  | .num a, .bool b => some (.num (a + (if b then 1 else 0)))
  | .bool a, .num b => some (.num ((if a then 1 else 0) + b))
  | .bool a, .bool b => some (.num ((if a then 1 else 0) + (if b then 1 else 0)))
  | .str a, .str b => some (.str (a ++ b))
  | .arr a, .arr b => some (.arr (JList.ofList (a.toList ++ b.toList)))
  | _, _ => none

/-- Python int(v) applied to the finished coin sum: an int stays itself, a
bool becomes 0/1, a string is parsed (ValueError raises), lists and dicts
raise TypeError. -/
def pyIntCast : Json → Option Int
  | .num n => some n
  | .bool b => some (if b then 1 else 0)
  | .str s => pyInt s
  | _ => none

/-- Embedding of clean_items.normalize_value: convert a value field to copper
pieces. A mapping reads each coin with d.get(c, 0), multiplies sp, gp and pp
by their rates and evaluates int(cp + sp + gp + pp) under Python's dynamic
arithmetic: integer entries (bools as 0/1) give the exact coin sum, while
digit-string entries concatenate and go through int(); any mixed or
unsupported shape raises (none). Bare numbers above 100 are kept, others
multiplied by 100; None and unrecognised shapes give 0. Python bools pass
the isinstance((int, float)) test and behave as 0/1. -/
def normalize_value : Json → Option Int
  | .null => some 0
  | .obj kvs => do
      let sp ← pyMulJson (jgetD kvs "sp" (.num 0)) 10
      let gp ← pyMulJson (jgetD kvs "gp" (.num 0)) 100
      let pp ← pyMulJson (jgetD kvs "pp" (.num 0)) 1000
      let s1 ← pyAddJson (jgetD kvs "cp" (.num 0)) sp
      let s2 ← pyAddJson s1 gp
      let s3 ← pyAddJson s2 pp
      pyIntCast s3
  | .num n => some (if 100 < n then n else n * 100)
  | .bool b => let n : Int := if b then 1 else 0
               some (if 100 < n then n else n * 100)
  | _ => some 0

/-- Embedding of clean_items.normalize_weight: float(weight) with None
mapped to 0.0. float() of a list or dict raises TypeError (none); float() of
a non-numeric string raises ValueError (none). Strings holding integer
literals give their value; fractional literals such as "1.5" return floats in
Python and are outside the integer model (no theorem depends on them). -/
def normalize_weight : Json → Option Int
  | .null => some 0
  | .num n => some n
  | .bool b => some (if b then 1 else 0)
  | .str s => pyInt s
  | .arr _ => none
  | .obj _ => none

/-- Loop body of clean_items.normalize_property: strings are kept as
property codes; dicts contribute their uid and an optional note, where
Python's ('|' in uid) is a substring test for a string uid but a membership
test for a list or dict uid — a list or dict uid without '|' survives raw
and is appended as the property code, while one with '|' reaches uid.split
and raises AttributeError; a numeric, bool or None uid raises TypeError on
the membership test; a truthy note keyed by an unhashable (list or dict)
code raises TypeError. Non-string non-dict entries are skipped. -/
def propLoop : List Json → List Json → JObj → Option (List Json × JObj)
  | [], props, notes => some (props, notes)
  | .str s :: rest, props, notes => propLoop rest (props ++ [.str s]) notes
  | .obj d :: rest, props, notes =>
      (match jgetD d "uid" (.str "") with
       | .str uid =>
           let code := if pyHasChar uid '|' then pySplitHead uid '|' else uid
           let note := jget d "note"
           let notes' := if jTruthy note then notes.set code note else notes
           propLoop rest (props ++ [.str code]) notes'
       | .arr xs =>
           if (xs.toList).contains (.str "|") then none
           else if jTruthy (jget d "note") then none
           else propLoop rest (props ++ [.arr xs]) notes
       | .obj kvs =>
           if kvs.hasKey "|" then none
           else if jTruthy (jget d "note") then none
           else propLoop rest (props ++ [.obj kvs]) notes
       | _ => none)
  | _ :: rest, props, notes => propLoop rest props notes

/-- Embedding of clean_items.normalize_property: flatten the property array
into a code list plus a code-to-note map. Falsy inputs give ([], empty). -/
def normalize_property (property_data : Json) : Option (List Json × JObj) :=
  if jTruthy property_data then do
    let items ← pyIter property_data
    propLoop items [] .nil
  else some ([], .nil)

/-- Python s.split(sep) on a single-character separator. -/
def pySplitAll : List Char → Char → List (List Char)
  | [], _ => [[]]
  | c :: rest, sep =>
      let r := pySplitAll rest sep
      if c = sep then [] :: r
      else match r with
           | h :: t => (c :: h) :: t
           | [] => [[c]]

/-- Embedding of clean_items.normalize_range: parse a range field. Strings
of the form "N/M" are split and both parts fed to int() with no exception
handler, so a malformed part raises ValueError (none); slash-free strings are
fed to int() inside try/except and degrade to {normal: None, long: None};
every other shape gives {normal: None, long: None}. -/
def normalize_range (range_data : Json) : Option (Option Int × Option Int) :=
  if jTruthy range_data then
    match range_data with
    | .str s =>
        if pyHasChar s '/' then
          let parts := pySplitAll s.data '/'
          match pyInt (String.mk (parts.getD 0 [])), pyInt (String.mk (parts.getD 1 [])) with
          | some a, some b => some (some a, some b)
          | _, _ => none
        else
          match pyInt s with
          | some n => some (some n, none)
          | none => some (none, none)
    | _ => some (none, none)
  else some (none, none)

/-- One entry of the normalize_mastery comprehension: a string has its
source suffix stripped under the substring test; a list or dict entry
survives Python's ('|' in m) membership test and is kept raw when '|' is not
among its elements or keys, and raises AttributeError on m.split otherwise;
a numeric, bool or None entry raises TypeError on the membership test. -/
def masteryEntry : Json → Option Json
  | .str s => some (.str (if pyHasChar s '|' then pySplitHead s '|' else s))
  | .arr ys => if (ys.toList).contains (.str "|") then none else some (.arr ys)
  | .obj d => if d.hasKey "|" then none else some (.obj d)
  | _ => none

/-- Embedding of clean_items.normalize_mastery: strip the source suffix from
each mastery entry. Falsy and non-list inputs give []. -/
def normalize_mastery (mastery_data : Json) : Option (List Json) :=
  if jTruthy mastery_data then
    match mastery_data with
    | .arr xs => (xs.toList).mapM masteryEntry
    | _ => some []
  else some []

/-- The stringifying comprehension of clean_items.py line 409 applied to each
normalize_mastery result entry: a dict is rendered as str of its name value
(default ""), everything else as str of itself (the identity on strings). -/
def masteryRender : Json → String
  | .obj d => pyStr (jgetD d "name" (.str ""))
  | m => pyStr m

/-- Embedding of clean_items.normalize_reprinted_as: strings are kept, dict
entries contribute their truthy name value (whatever its shape), everything
else is skipped. -/
def normalize_reprinted_as (reprinted : Json) : Option (List Json) :=
  if jTruthy reprinted then do
    let items ← pyIter reprinted
    some (items.foldl (fun acc it =>
      match it with
      | .str s => acc ++ [Json.str s]
      | .obj d =>
          let name := jgetD d "name" (.str "")
          if jTruthy name then acc ++ [name] else acc
      | _ => acc) [])
  else some []

/-- Embedding of clean_items.normalize_srd_field: bools pass through, any
string counts as true, everything else is false. -/
def normalize_srd_field : Json → Bool
  | .bool b => b
  | .str _ => true
  | _ => false

mutual
/-- Embedding of clean_items.normalize_entries: flatten an entries value to
a list of plain strings. Falsy inputs give []; iterating a truthy number or
True raises TypeError (none); a truthy string yields its characters and a
truthy dict its keys (Python iteration semantics), all of which are strings
and are appended. -/
def normalize_entries : Json → Option (List String)
  | .null => some []
  | .bool false => some []
  | .bool true => none
  | .num n => if n = 0 then some [] else none
  | .str s => some (s.data.map (fun c => String.mk [c]))
  | .obj kvs => some ((kvs.toList).map Prod.fst)
  | .arr xs => neList xs

/-- List part of normalize_entries: concatenate the contribution of each
entry. -/
def neList : JList → Option (List String)
  | .nil => some []
  | .cons e rest => do
      let h ← neEntry e
      let t ← neList rest
      some (h ++ t)

/-- One entry of normalize_entries: strings are kept; dicts with an items
key contribute the string elements of that list (nothing when items is not a
list); dicts without items but with an entries key recurse; anything else
contributes nothing. -/
def neEntry : Json → Option (List String)
  | .str s => some [s]
  | .obj kvs =>
      (match kvs.lookup "items" with
       | some (.arr xs) =>
           some ((xs.toList).filterMap (fun i =>
             match i with
             | .str s => some s
             | _ => none))
       | some _ => some []
       | none => neFindEntries kvs)
  | _ => some []

/-- Recurse into the value of the entries key of a dict entry (the elif
branch of normalize_entries); a dict without that key contributes nothing. -/
def neFindEntries : JObj → Option (List String)
  | .nil => some []
  | .cons k v t => if k = "entries" then normalize_entries v else neFindEntries t
end

/-- Embedding of clean_items.normalize_pack_contents: every entry becomes
an {item, quantity} dict; bare strings get quantity 1; non-string non-dict
entries are skipped. -/
def normalize_pack_contents (contents : Json) : Option (List Json) :=
  if jTruthy contents then do
    let items ← pyIter contents
    some (items.foldl (fun acc it =>
      match it with
      | .str s => acc ++ [Json.obj (.cons "item" (.str s) (.cons "quantity" (.num 1) .nil))]
      | .obj d => acc ++ [Json.obj (.cons "item" (jgetD d "item" (.str ""))
                           (.cons "quantity" (jgetD d "quantity" (.num 1)) .nil))]
      | _ => acc) [])
  else some []

/-- Embedding of clean_items.normalize_strength: ints pass through (Python
bools pass the isinstance-int test and are returned unchanged), strings are
parsed with int() and degrade to 0, everything else gives 0. -/
def normalize_strength : Json → Json
  | .null => .num 0
  | .str s => match pyInt s with
              | some n => .num n
              | none => .num 0
  | .num n => .num n
  | .bool b => .bool b
  | _ => .num 0

/-- Embedding of clean_items.normalize_attunement: reqAttune becomes a dict
with required and description; None and unrecognised shapes give
{required: False, description: ""}, a bool keeps its value, a string means
required with the string as description. -/
def normalize_attunement : Json → Json
  | .null => .obj (.cons "required" (.bool false) (.cons "description" (.str "") .nil))
  | .bool b => .obj (.cons "required" (.bool b) (.cons "description" (.str "") .nil))
  | .str s => .obj (.cons "required" (.bool true) (.cons "description" (.str s) .nil))
  | _ => .obj (.cons "required" (.bool false) (.cons "description" (.str "") .nil))

/-- Embedding of clean_items.normalize_focus: True means ["any"], lists are
rendered elementwise with str(), everything else gives []. -/
def normalize_focus : Json → List String
  | .null => []
  | .bool false => []
  | .bool true => ["any"]
  | .arr xs => (xs.toList).map pyStr
  | _ => []

/-- Embedding of clean_items.normalize_resist: keep the string elements of a
list, everything else gives []. -/
def normalize_resist : Json → List String
  | .arr xs => (xs.toList).filterMap (fun r =>
      match r with
      | .str s => some s
      | _ => none)
  | _ => []

/-- Embedding of clean_items.normalize_recharge_amount: ints pass through
(bools unchanged, as with strength), dice strings like "1d6" contribute their
die count with fallback 1, plain numeric strings their value with fallback 1,
everything else 0. -/
def normalize_recharge_amount : Json → Json
  | .null => .num 0
  | .num n => .num n
  | .bool b => .bool b
  | .str s =>
      if pyHasChar s 'd' then
        match pyInt (pySplitHead s 'd') with
        | some n => .num n
        | none => .num 1
      else
        match pyInt s with
        | some n => .num n
        | none => .num 1
  | _ => .num 0

/-- Embedding of clean_items.normalize_charges: ints pass through (bools
unchanged), strings are parsed with fallback 0, everything else 0. -/
def normalize_charges : Json → Json
  | .null => .num 0
  | .num n => .num n
  | .bool b => .bool b
  | .str s => match pyInt s with
              | some n => .num n
              | none => .num 0
  | _ => .num 0

/-- Embedding of clean_items.normalize_attached_spells: a list is rendered
elementwise with str(); a dict contributes its spells list likewise;
everything else gives []. -/
def normalize_attached_spells : Json → List String
  | .null => []
  | .arr xs => (xs.toList).map pyStr
  | .obj d =>
      (match d.lookup "spells" with
       | some (.arr xs) => (xs.toList).map pyStr
       | _ => [])
  | _ => []

/-- Embedding of clean_items.normalize_float_field: total, never raises.
Numbers and bools pass the isinstance((int, float)) gate and go through
float(); strings go through float() under try/except ValueError and
non-numeric ones degrade to 0; every other shape (lists, dicts) fails both
isinstance gates, so float() is never called and the fallthrough returns
0.0. Fractional string literals are outside the integer model. -/
def normalize_float_field : Json → Option Int
  | .null => some 0
  | .num n => some n
  | .bool b => some (if b then 1 else 0)
  | .str s => some ((pyInt s).getD 0)
  | .arr _ => some 0
  | .obj _ => some 0

/-- Helper for a list of Json strings. -/
def strList (ss : List String) : JList :=
  JList.ofList (ss.map Json.str)

/-- Range sub-value of the cleaned record: normal stays None when absent,
long is forced to 0 when absent (clean_item lines 400-404). -/
def rangeObj (rg : Option Int × Option Int) : Json :=
  .obj (.cons "normal" (match rg.1 with | some n => .num n | none => .null)
        (.cons "long" (.num (rg.2.getD 0)) .nil))

/-- containerCapacity weight/volume normalization of clean_item: a list is
normalized elementwise, a bare value becomes a one-element list. -/
def floatsOf (v : Json) : Option (List Int) :=
  match v with
  | .arr xs => (xs.toList).mapM normalize_float_field
  | w => do
      let x ← normalize_float_field w
      some [x]

/-- Unconditional field rewrite of clean_item: read the field from the raw
record, normalize, write into the cleaned record. -/
def alwaysSet (item c : JObj) (key : String) (f : Json → Option Json) : Option JObj := do
  let v ← f (jget item key)
  pure (c.set key v)

/-- Conditional field rewrite of clean_item: only records carrying the field
have it normalized and rewritten. -/
def condSet (item c : JObj) (key : String) (f : Json → Option Json) : Option JObj :=
  if item.hasKey key then alwaysSet item c key f else pure c

/-- Value step of clean_item: always rewrites the value field. -/
def stepValue (item c : JObj) : Option JObj :=
  alwaysSet item c "value" (fun j => (normalize_value j).map Json.num)

/-- Weight step of clean_item: always rewrites the weight field. -/
def stepWeight (item c : JObj) : Option JObj :=
  alwaysSet item c "weight" (fun j => (normalize_weight j).map Json.num)

/-- Property step of clean_item: always rewrites property, and writes
property_notes only when the collected note map is nonempty. -/
def stepProperty (item c : JObj) : Option JObj := do
  let pn ← normalize_property (jget item "property")
  let c := c.set "property" (.arr (JList.ofList pn.1))
  pure (if pn.2 ≠ JObj.nil then c.set "property_notes" (.obj pn.2) else c)

/-- Rarity step of clean_item: a missing or falsy rarity becomes "none". -/
def stepRarity (_item c : JObj) : Option JObj :=
  pure (if ¬ c.hasKey "rarity" ∨ ¬ jTruthy (jget c "rarity") then
          c.set "rarity" (.str "none")
        else c)

/-- Range step of clean_item: when the raw record carries a range field, it
is normalized and a missing long distance is forced to 0. -/
def stepRange (item c : JObj) : Option JObj :=
  condSet item c "range" (fun j => (normalize_range j).map rangeObj)

/-- Mastery step of clean_item: normalize_mastery followed by the
stringifying comprehension of line 409 (masteryRender on each entry). -/
def stepMastery (item c : JObj) : Option JObj :=
  condSet item c "mastery"
    (fun j => (normalize_mastery j).map (fun ms => .arr (strList (ms.map masteryRender))))

/-- Type step of clean_item: strip a source suffix from a string type. -/
def stepType (_item c : JObj) : Option JObj :=
  pure (match c.lookup "type" with
  | some (.str s) =>
      if pyHasChar s '|' then c.set "type" (.str (pySplitHead s '|')) else c
  | _ => c)

/-- AmmoType step of clean_item: strip a source suffix from a string
ammoType. -/
def stepAmmoType (_item c : JObj) : Option JObj :=
  pure (match c.lookup "ammoType" with
  | some (.str s) =>
      if pyHasChar s '|' then c.set "ammoType" (.str (pySplitHead s '|')) else c
  | _ => c)

/-- ReprintedAs step of clean_item. -/
def stepReprinted (item c : JObj) : Option JObj :=
  condSet item c "reprintedAs" (fun j => (normalize_reprinted_as j).map (fun rs => .arr (JList.ofList rs)))

/-- Srd step of clean_item. -/
def stepSrd (item c : JObj) : Option JObj :=
  condSet item c "srd" (fun j => some (.bool (normalize_srd_field j)))

/-- Srd52 step of clean_item. -/
def stepSrd52 (item c : JObj) : Option JObj :=
  condSet item c "srd52" (fun j => some (.bool (normalize_srd_field j)))

/-- Entries step of clean_item. -/
def stepEntries (item c : JObj) : Option JObj :=
  condSet item c "entries" (fun j => (normalize_entries j).map (fun es => .arr (strList es)))

/-- PackContents step of clean_item. -/
def stepPack (item c : JObj) : Option JObj :=
  condSet item c "packContents" (fun j => (normalize_pack_contents j).map (fun pc => .arr (JList.ofList pc)))

/-- Strength step of clean_item. -/
def stepStrength (item c : JObj) : Option JObj :=
  condSet item c "strength" (fun j => some (normalize_strength j))

/-- ReqAttune step of clean_item. -/
def stepReqAttune (item c : JObj) : Option JObj :=
  condSet item c "reqAttune" (fun j => some (normalize_attunement j))

/-- Focus step of clean_item. -/
def stepFocus (item c : JObj) : Option JObj :=
  condSet item c "focus" (fun j => some (.arr (strList (normalize_focus j))))

/-- Resist step of clean_item. -/
def stepResist (item c : JObj) : Option JObj :=
  condSet item c "resist" (fun j => some (.arr (strList (normalize_resist j))))

/-- RechargeAmount step of clean_item. -/
def stepRecharge (item c : JObj) : Option JObj :=
  condSet item c "rechargeAmount" (fun j => some (normalize_recharge_amount j))

/-- Charges step of clean_item. -/
def stepCharges (item c : JObj) : Option JObj :=
  condSet item c "charges" (fun j => some (normalize_charges j))

/-- AttachedSpells step of clean_item. -/
def stepAttached (item c : JObj) : Option JObj :=
  condSet item c "attachedSpells" (fun j => some (.arr (strList (normalize_attached_spells j))))

/-- VehSpeed step of clean_item. -/
def stepVehSpeed (item c : JObj) : Option JObj :=
  condSet item c "vehSpeed" (fun j => (normalize_float_field j).map Json.num)

/-- CapCargo step of clean_item. -/
def stepCapCargo (item c : JObj) : Option JObj :=
  condSet item c "capCargo" (fun j => (normalize_float_field j).map Json.num)

/-- AdditionalEntries step of clean_item. -/
def stepAddEntries (item c : JObj) : Option JObj :=
  condSet item c "additionalEntries" (fun j => (normalize_entries j).map (fun es => .arr (strList es)))

/-- Weight/volume entry rewrite of the containerCapacity step: the entry is
read from the raw capacity dict (src) and written into the capacity dict
being built (tgt); the two dicts agree outside the already-written entry. -/
def capEntryNorm (src tgt : JObj) (key : String) : Option JObj :=
  if src.hasKey key then do
    let wl ← floatsOf (jget src key)
    pure (tgt.set key (.arr (JList.ofList (wl.map Json.num))))
  else pure tgt

/-- ContainerCapacity step of clean_item: when the capacity value is a dict,
its weight and volume entries are normalized to lists of floats in place. -/
def stepContainerCap (item c : JObj) : Option JObj :=
  if item.hasKey "containerCapacity" then
    match jget item "containerCapacity" with
    | .obj cap => do
        let cap1 ← capEntryNorm cap cap "weight"
        let cap2 ← capEntryNorm cap cap1 "volume"
        pure (c.set "containerCapacity" (.obj cap2))
    | _ => pure c
  else pure c

/-- BarDimensions step of clean_item: normalize the h entry in place. -/
def stepBarDim (item c : JObj) : Option JObj :=
  if item.hasKey "barDimensions" then
    match jget item "barDimensions" with
    | .obj bd =>
        if bd.hasKey "h" then do
          let hv ← normalize_float_field (jget bd "h")
          pure (c.set "barDimensions" (.obj (bd.set "h" (.num hv))))
        else pure c
    | _ => pure c
  else pure c

/-- Copy-removal step of clean_item: the _copy metadata field is deleted. -/
def stepDelCopy (_item c : JObj) : Option JObj :=
  pure (if c.hasKey "_copy" then c.del "_copy" else c)

/-- Embedding of clean_items.clean_item: clean a single item record. The
record is copied and each field rewritten by its rule, in source order;
value, weight, property and rarity are always processed, the remaining
fields only when present. A raised exception anywhere gives none. -/
def clean_item (item : JObj) : Option JObj :=
  stepValue item item >>= stepWeight item >>= stepProperty item >>=
  stepRarity item >>= stepRange item >>= stepMastery item >>=
  stepType item >>= stepAmmoType item >>= stepReprinted item >>=
  stepSrd item >>= stepSrd52 item >>= stepEntries item >>=
  stepPack item >>= stepStrength item >>= stepReqAttune item >>=
  stepFocus item >>= stepResist item >>= stepRecharge item >>=
  stepCharges item >>= stepAttached item >>= stepVehSpeed item >>=
  stepCapCargo item >>= stepAddEntries item >>= stepContainerCap item >>=
  stepBarDim item >>= stepDelCopy item

mutual
/-- Embedding of validate_cleaned.check_record_types: the stream of
(field path, runtime type name) observations recorded into field_types.
Dicts record every entry and recurse into dict and list values; a nonempty
list records the type of its first 10 elements at path "path[]" and does not
descend into them; scalars record nothing. -/
def check_record_types : Json → String → List (String × String)
  | .obj kvs, path => crtObj kvs path
  | .arr .nil, _ => []
  | .arr xs, path => ((xs.toList).take 10).map (fun it => (path ++ "[]", typeName it))
  | _, _ => []

/-- Dict part of check_record_types: each key records its value's type at
the extended path, then recurses when the value is a dict or list. -/
def crtObj : JObj → String → List (String × String)
  | .nil, _ => []
  | .cons k v t, path =>
      let np := if path = "" then k else path ++ "." ++ k
      ((np, typeName v) ::
        (match v with
         | .obj _ => check_record_types v np
         | .arr _ => check_record_types v np
         | _ => [])) ++ crtObj t path
end

/-- All observations that check_type_consistency collects over a dataset. -/
def obsOf (data : List Json) : List (String × String) :=
  data.flatMap (fun r => check_record_types r "")

/-- Distinct type names observed at a path (the keys of its Counter). -/
def typesAt (obs : List (String × String)) (p : String) : List String :=
  ((obs.filter (fun o => o.1 = p)).map Prod.snd).dedup

/-- Field paths reported as polymorphic: more than one distinct type. -/
def polyPaths (obs : List (String × String)) : List String :=
  ((obs.map Prod.fst).dedup).filter (fun p => 1 < (typesAt obs p).length)

/-- Embedding of the is_valid flag of validate_cleaned.check_type_consistency:
true exactly when no observed field path has more than one runtime type. -/
def check_type_consistency_is_valid (data : List Json) : Bool :=
  (polyPaths (obsOf data)).isEmpty

mutual
/-- Follows the claim's words, for comparison with the implementation: the
full set of (field path, runtime shape) observations of a value, with every
list element observed (no 10-element sampling) and with recursion continuing
inside list elements. -/
def specAllShapes : Json → String → List (String × String)
  | .obj kvs, path => sasObj kvs path
  | .arr xs, path => sasList xs (path ++ "[]")
  | _, _ => []

/-- Dict part of specAllShapes. -/
def sasObj : JObj → String → List (String × String)
  | .nil, _ => []
  | .cons k v t, path =>
      let np := if path = "" then k else path ++ "." ++ k
      ((np, typeName v) :: specAllShapes v np) ++ sasObj t path

/-- List part of specAllShapes: every element is observed and entered. -/
def sasList : JList → String → List (String × String)
  | .nil, _ => []
  | .cons h t, ep => ((ep, typeName h) :: specAllShapes h ep) ++ sasList t ep
end

/-- Spec-side observations over a whole dataset. -/
def specObsOf (data : List Json) : List (String × String) :=
  data.flatMap (fun r => specAllShapes r "")

/-- Name-decomposition result of extract_names.parse_item_name: absent
components are explicit (None). -/
structure NameParts where
  base_name : String
  variant_name : Option String
  container_type : Option String
  default_quantity : Option Int
  bonus_display : Option String
deriving DecidableEq

/-- Scanner state for the markup-stripping regex sub: outside any candidate
tag, just after a lone open brace, or inside a candidate tag started by an
open brace and an at sign (accumulated content reversed, never containing a
close brace). -/
inductive StripState where
  | outside : StripState
  | seenBrace : StripState
  | pending (content : List Char) : StripState
deriving DecidableEq

/-- Character-level engine of extract_names.strip_markup, equivalent to
re.sub of the tag pattern (open brace, at sign, one or more non-close-brace
characters, close brace) with the empty string: leftmost matches are removed
whole; an immediately-closed pair (open brace, at sign, close brace) does not
match and is kept; an unterminated candidate at end of input is kept. -/
def stripAux : List Char → StripState → List Char
  | [], .outside => []
  | [], .seenBrace => ['{']
  | [], .pending content => '{' :: '@' :: content.reverse
  | c :: rest, .outside =>
      if c = '{' then stripAux rest .seenBrace else c :: stripAux rest .outside
  | c :: rest, .seenBrace =>
      if c = '@' then stripAux rest (.pending [])
      else if c = '{' then '{' :: stripAux rest .seenBrace
      else '{' :: c :: stripAux rest .outside
  | c :: rest, .pending content =>
      if c = '}' then
        if content = [] then '{' :: '@' :: '}' :: stripAux rest .outside
        else stripAux rest .outside
      else stripAux rest (.pending (c :: content))

/-- Embedding of extract_names.strip_markup: remove every inline tag, then
strip surrounding whitespace. -/
def strip_markup (s : String) : String :=
  pyStrip (String.mk (stripAux s.data .outside))

/-- Embedding of the leading-bonus match of parse_item_name (a plus sign,
one or more digits, one or more whitespace characters, then a nonempty
remainder anchored by a dollar). The dot of the remainder group does not
match a newline (no DOTALL), and the dollar matches at the end of the text
or just before a final newline, so a newline-free remainder is captured
whole, a remainder ending in one newline is captured without it, and any
other interior newline defeats the match entirely. When everything after
the whitespace run is empty (or only a final newline remains) the regex
backtracks and captures the last capturable whitespace character. -/
def leadingBonus (l : List Char) : Option (List Char × List Char) :=
  match l with
  | '+' :: rest =>
      let ds := rest.takeWhile pyDigit
      if ds.isEmpty then none
      else
        let r2 := rest.drop ds.length
        let sp := r2.takeWhile pySpace
        if sp.isEmpty then none
        else
          let t := r2.drop sp.length
          if !t.isEmpty then
            let core := if t.getLastD ' ' = '\n' then t.dropLast else t
            if core.isEmpty ∨ '\n' ∈ core then none
            else some ('+' :: ds, core)
          else
            if sp.getLastD ' ' ≠ '\n' then
              if 2 ≤ sp.length then some ('+' :: ds, [sp.getLastD ' '])
              else none
            else
              if 3 ≤ sp.length ∧ sp.dropLast.getLastD ' ' ≠ '\n' then
                some ('+' :: ds, [sp.dropLast.getLastD ' '])
              else none
  | _ => none

/-- One attempted boundary of the trailing-parenthetical match: pre holds
the reversed group-1 candidate, suf the rest of the name. The regex consumes
optional whitespace, an open parenthesis, a nonempty group 2 running to a
close parenthesis at the dollar. The dot of group 2 does not match a
newline (no DOTALL), and the dollar matches at the end of the text or just
before a final newline, so the close parenthesis is the final character (or
the one before a final newline) and everything between must be
newline-free. -/
def parenTry (pre suf : List Char) : Option (List Char × List Char) :=
  match suf.dropWhile pySpace with
  | '(' :: inner =>
      let core := if inner.getLastD ' ' = '\n' then inner.dropLast else inner
      if 2 ≤ core.length ∧ core.getLastD ' ' = ')' ∧ '\n' ∉ core.dropLast then
        some (pre.reverse, core.dropLast)
      else none
  | _ => none

/-- Scan of the lazy group-1 boundary of the trailing-parenthetical pattern
of parse_item_name: boundaries are tried left to right (shortest nonempty
group 1 first), matching the lazy quantifier. Group 1 is built from dots,
which do not match a newline, so the scan stops dead at the first newline:
later boundaries would need the newline inside group 1. -/
def parenFind : List Char → List Char → Option (List Char × List Char)
  | _, [] => none
  | pre, c :: suf =>
      match parenTry pre (c :: suf) with
      | some r => some r
      | none => if c = '\n' then none else parenFind (c :: pre) suf

/-- Trailing-parenthetical match of an already-cleaned name: group 1 must
hold at least one character, so the scan starts after the first one, which
itself must not be a newline. -/
def parenMatch (l : List Char) : Option (List Char × List Char) :=
  match l with
  | [] => none
  | c :: rest => if c = '\n' then none else parenFind [c] rest

/-- Python str.isdigit on the parenthetical content (ASCII corpus). -/
def pyIsDigit (s : String) : Bool :=
  !s.data.isEmpty && s.data.all pyDigit

/-- Test for the bonus pattern: a plus sign followed by one or more digits
and nothing else. -/
def isPlusDigits (s : String) : Bool :=
  match s.data with
  | '+' :: ds => !ds.isEmpty && ds.all pyDigit
  | _ => false

/-- Fixed container-keyword set of parse_item_name. -/
def containers : List String :=
  ["vial", "flask", "bottle", "pouch", "bag", "jar", "jug"]

/-- Embedding of extract_names.parse_item_name: strip markup, remove a
leading bonus, then classify a single trailing parenthetical group in
priority order (integer, then bonus, then container keyword, then free-text
variant). Total: every input yields a full decomposition. -/
def parse_item_name (name : String) : NameParts :=
  let clean0 := (strip_markup name).data
  let bp := leadingBonus clean0
  let bonus : Option String := bp.map (fun p => String.mk p.1)
  let clean1 : List Char := (bp.map Prod.snd).getD clean0
  match parenMatch clean1 with
  | some (g1, g2) =>
      let base := pyStrip (String.mk g1)
      let inner := pyStrip (String.mk g2)
      if pyIsDigit inner then
        { base_name := base, variant_name := none, container_type := none,
          default_quantity := some (digitsVal inner.data), bonus_display := bonus }
      else if isPlusDigits inner then
        { base_name := base, variant_name := none, container_type := none,
          default_quantity := none, bonus_display := some inner }
      else if containers.contains (pyLower inner) then
        { base_name := base, variant_name := none, container_type := some (pyLower inner),
          default_quantity := none, bonus_display := bonus }
      else
        { base_name := base, variant_name := some inner, container_type := none,
          default_quantity := none, bonus_display := bonus }
  | none =>
      { base_name := String.mk clean1, variant_name := none, container_type := none,
        default_quantity := none, bonus_display := bonus }

/-- Monster-name decomposition of extract_names.parse_monster_name. -/
structure MonsterNameParts where
  base_name : String
  variant_name : Option String
  variant_notes : Option String
deriving DecidableEq

/-- Embedding of extract_names.parse_monster_name: strip markup, then split
off a single trailing parenthetical as the variant name; variant_notes is
never populated. -/
def parse_monster_name (name : String) : MonsterNameParts :=
  let clean := (strip_markup name).data
  match parenMatch clean with
  | some (g1, g2) =>
      { base_name := pyStrip (String.mk g1), variant_name := some (pyStrip (String.mk g2)),
        variant_notes := none }
  | none =>
      { base_name := String.mk clean, variant_name := none, variant_notes := none }

/-- Substring test (Python in-operator on strings). -/
def containsSub (needle : List Char) : List Char → Bool
  | [] => needle.isEmpty
  | c :: rest => needle.isPrefixOf (c :: rest) || containsSub needle rest

/-- The fixed immunity keyword list of extract_conditions
(is_immunity_or_resistance lines 119-126); the third entry is
"can" + apostrophe + "t be". -/
def immunity_keywords : List String :=
  ["immune to", "immunity to", "can" ++ String.mk [apoChar] ++ "t be", "cannot be",
   "advantage on saving throws against", "advantage on saves against"]

/-- Embedding of extract_conditions.is_immunity_or_resistance: lowercase the
up-to-100 characters before the tag and test each keyword for substring
membership. -/
def is_immunity_or_resistance (text : List Char) (condition_pos : Nat) : Bool :=
  let start := condition_pos - 100
  let before := ((text.drop start).take (condition_pos - start)).map Char.toLower
  immunity_keywords.any (fun kw => containsSub kw.data before)

/-- ASCII word character of the regex word-boundary class. -/
def wordChar (c : Char) : Bool :=
  ('a' ≤ c && c ≤ 'z') || ('A' ≤ c && c ≤ 'Z') || pyDigit c || c = '_'

/-- Tagged DC form at the head of the text: open brace, at sign, "dc",
space, digits, close brace; gives the digit value. -/
def dcTagAt : List Char → Option Int
  | '{' :: '@' :: 'd' :: 'c' :: ' ' :: rest =>
      let ds := rest.takeWhile pyDigit
      if !ds.isEmpty && (rest.drop ds.length).head? = some '}' then
        some (digitsVal ds)
      else none
  | _ => none

/-- First match of the tagged DC pattern in a text (re.search scans
positions left to right). -/
def searchTaggedDC : List Char → Option Int
  | [] => none
  | c :: rest =>
      match dcTagAt (c :: rest) with
      | some n => some n
      | none => searchTaggedDC rest

/-- Plain textual DC form at the head of the text with the given previous
character, honouring both word boundaries: "DC", space, digits, with a
non-word character (or an edge) on each side. The trailing boundary only
holds after the full digit run, since any shorter split ends on a digit. -/
def dcPlainAt (prev : Option Char) : List Char → Option Int
  | 'D' :: 'C' :: ' ' :: rest =>
      if (match prev with | some p => !wordChar p | none => true) then
        let ds := rest.takeWhile pyDigit
        if !ds.isEmpty && (match (rest.drop ds.length).head? with
                           | some c => !wordChar c
                           | none => true) then
          some (digitsVal ds)
        else none
      else none
  | _ => none

/-- First match of the plain DC pattern, tracking the previous character for
the leading word boundary. -/
def searchPlainDC : Option Char → List Char → Option Int
  | _, [] => none
  | prev, c :: rest =>
      match dcPlainAt prev (c :: rest) with
      | some n => some n
      | none => searchPlainDC (some c) rest

/-- Embedding of extract_conditions.extract_dc: the first tagged DC form if
any, else the first plain "DC n" form, else None. -/
def extract_dc (text : List Char) : Option Int :=
  match searchTaggedDC text with
  | some n => some n
  | none => searchPlainDC none text

/-- The six standard ability names, in the order the extractor scans them. -/
def abilityNames : List String :=
  ["Strength", "Dexterity", "Constitution", "Intelligence", "Wisdom", "Charisma"]

/-- Ability-save pattern at the head of a lowercased text with the given
previous character: word boundary, the ability name, whitespace, "sav"
followed by "ing throw" or "e", then a word boundary. The alternation
backtracks, so both alternatives are tried against the trailing boundary. -/
def abilityAt (ab : List Char) (prev : Option Char) (l : List Char) : Bool :=
  (match prev with | some p => !wordChar p | none => true) &&
  ab.isPrefixOf l &&
  (let rest := l.drop ab.length
   let sp := rest.takeWhile pySpace
   !sp.isEmpty &&
   (let r2 := rest.drop sp.length
    ("sav".data).isPrefixOf r2 &&
    (let r3 := r2.drop 3
     (("ing throw".data).isPrefixOf r3 &&
        (match (r3.drop 9).head? with | some c => !wordChar c | none => true)) ||
     (r3.head? = some 'e' &&
        (match (r3.drop 1).head? with | some c => !wordChar c | none => true)))))

/-- Case-insensitive search for the ability-save pattern of one ability. -/
def abilitySearch (ab : List Char) : Option Char → List Char → Bool
  | _, [] => false
  | prev, c :: rest =>
      abilityAt ab prev (c :: rest) || abilitySearch ab (some c) rest

/-- Embedding of extract_conditions.extract_save_ability: the first of the
six ability names whose save pattern occurs in the text (case-insensitive:
text and pattern are lowercased). -/
def extract_save_ability (text : List Char) : Option String :=
  let low := text.map Char.toLower
  (abilityNames.filter (fun ab => abilitySearch (pyLower ab).data none low)).head?

/-- Duration units of the "for n unit" pattern, tried in alternation
order. -/
def durUnits : List (List Char) :=
  ["round".data, "minute".data, "hour".data, "day".data]

/-- First unit of the alternation that is a prefix of the text, with its
length. -/
def unitPrefix (l : List Char) : Option Nat :=
  (durUnits.filter (fun u => u.isPrefixOf l)).head?.map List.length

/-- Captured group of the "for n unit(s)" duration pattern at the head of
the text: digits, whitespace, a unit, and a greedy optional "s". -/
def durForAt (l : List Char) : Option (List Char) :=
  if ("for ".data).isPrefixOf l then
    let rest := l.drop 4
    let ds := rest.takeWhile pyDigit
    if ds.isEmpty then none
    else
      let r2 := rest.drop ds.length
      let sp := r2.takeWhile pySpace
      if sp.isEmpty then none
      else
        let r3 := r2.drop sp.length
        match unitPrefix r3 with
        | some m =>
            let r4 := r3.drop m
            let ext := if r4.head? = some 's' then m + 1 else m
            some (ds ++ sp ++ r3.take ext)
        | none => none
  else none

/-- First match of the "for n unit" duration pattern. -/
def searchDurFor : List Char → Option (List Char)
  | [] => none
  | c :: rest =>
      match durForAt (c :: rest) with
      | some g => some g
      | none => searchDurFor rest

/-- Duration terminator characters of the "until" pattern. -/
def durStop (c : Char) : Bool :=
  c = '.' || c = ';' || c = ','

/-- Captured group of the "until clause" pattern at the head of the text:
at least one character up to the first terminator or the end of the text. -/
def durUntilAt (l : List Char) : Option (List Char) :=
  if ("until ".data).isPrefixOf l then
    let grp := (l.drop 6).takeWhile (fun c => !durStop c)
    if grp.isEmpty then none else some grp
  else none

/-- First match of the "until clause" duration pattern. -/
def searchDurUntil : List Char → Option (List Char)
  | [] => none
  | c :: rest =>
      match durUntilAt (c :: rest) with
      | some g => some g
      | none => searchDurUntil rest

/-- Embedding of extract_conditions.extract_duration: the "for n unit" group
if present, else a stripped "until" clause when shorter than 80 characters,
else None. -/
def extract_duration (text : List Char) : Option String :=
  match searchDurFor text with
  | some g => some (String.mk g)
  | none =>
      match searchDurUntil text with
      | some g =>
          let d := pyStrip (String.mk g)
          if d.length < 80 then some d else none
      | none => none

/-- One parsed occurrence of the condition-tag grammar. -/
structure CondMatch where
  start : Nat
  stop : Nat
  name : String
  source : Option String
deriving DecidableEq

/-- Condition tag at the head of the text: the literal "(open brace)
(at sign)condition ", a nonempty name free of pipes and close braces, an
optional pipe-separated nonempty source free of close braces, and a close
brace. Gives both groups and the matched length. -/
def condTagAt (l : List Char) : Option (String × Option String × Nat) :=
  if ("\x7b@condition ".data).isPrefixOf l then
    let r := l.drop 12
    let g1 := r.takeWhile (fun c => c ≠ '}' ∧ c ≠ '|')
    if g1.isEmpty then none
    else
      let r2 := r.drop g1.length
      match r2.head? with
      | some '}' => some (String.mk g1, none, 12 + g1.length + 1)
      | some '|' =>
          let g2 := (r2.drop 1).takeWhile (· ≠ '}')
          if !g2.isEmpty && (r2.drop (1 + g2.length)).head? = some '}' then
            some (String.mk g1, some (String.mk g2), 12 + g1.length + 1 + g2.length + 1)
          else none
      | _ => none
  else none

/-- Scanner for re.finditer over the condition-tag pattern: positions are
tried left to right and scanning resumes after each match (non-overlapping
matches). The fuel argument only bounds the recursion and is always large
enough at the entry point. -/
def findCondAux : Nat → Nat → List Char → List CondMatch
  | 0, _, _ => []
  | _, _, [] => []
  | fuel + 1, pos, c :: rest =>
      match condTagAt (c :: rest) with
      | some (g1, g2, len) =>
          { start := pos, stop := pos + len, name := g1, source := g2 } ::
            findCondAux fuel (pos + len) ((c :: rest).drop len)
      | none => findCondAux fuel (pos + 1) rest

/-- All condition-tag matches of a text, with their spans. -/
def findCondTags (l : List Char) : List CondMatch :=
  findCondAux (l.length + 1) 0 l

/-- One emitted condition reference (the dict built by
extract_conditions_from_text). -/
structure CondRef where
  condition : String
  condition_source : Option String
  inflicts : Bool
  save_dc : Option Int
  save_ability : Option String
  duration_text : Option String
  full_text : String
deriving DecidableEq

/-- Context window of a tag: up to 200 characters before the match start and
200 after the match end. -/
def condWindow (text : List Char) (s e : Nat) : List Char :=
  let a := s - 200
  let b := min text.length (e + 200)
  (text.drop a).take (b - a)

/-- Record built for one condition-tag match: the name is stripped and
lowercased, the source stripped, the polarity read from the 100 characters
before the match, and DC, ability and duration from the 200-character
window. -/
def condRecord (text : List Char) (m : CondMatch) : CondRef :=
  let ctx := condWindow text m.start m.stop
  { condition := pyLower (pyStrip m.name)
  , condition_source := m.source.map pyStrip
  , inflicts := ! is_immunity_or_resistance text m.start
  , save_dc := extract_dc ctx
  , save_ability := extract_save_ability ctx
  , duration_text := extract_duration ctx
  , full_text := String.mk text }

/-- Embedding of extract_conditions.extract_conditions_from_text. -/
def extract_conditions_from_text (text : String) : List CondRef :=
  (findCondTags text.data).map (condRecord text.data)

mutual
/-- Embedding of extract_conditions.extract_from_entries: collect the plain
strings of an entries value; dict entries contribute the recursive texts of
their entries key and then of their items key. -/
def extract_from_entries : Json → List String
  | .str s => [s]
  | .arr xs => efeList xs
  | _ => []

/-- List part of extract_from_entries. -/
def efeList : JList → List String
  | .nil => []
  | .cons e rest => efeEntry e ++ efeList rest

/-- One entry of extract_from_entries: a string is kept, a dict contributes
its entries texts then its items texts. -/
def efeEntry : Json → List String
  | .str s => [s]
  | .obj kvs => efeKey "entries" kvs ++ efeKey "items" kvs
  | _ => []

/-- Recursive texts of the value of one key of a dict entry. -/
def efeKey : String → JObj → List String
  | _, .nil => []
  | key, .cons k v t => if k = key then extract_from_entries v else efeKey key t
end

/-- One emitted item condition fact (subject fields plus the reference). -/
structure ItemFact where
  item_name : Json
  source : Json
  context : String
  context_name : Option Json
  ref : CondRef
deriving DecidableEq

/-- Embedding of extract_conditions.extract_item_conditions: for each item,
every text of its entries is scanned and each reference is emitted with the
item's own name and source (defaulting to "Unknown"). -/
def extract_item_conditions (items : List JObj) : List ItemFact :=
  items.flatMap (fun item =>
    match item.lookup "entries" with
    | some e =>
        (extract_from_entries e).flatMap (fun txt =>
          (extract_conditions_from_text txt).map (fun cond =>
            { item_name := jgetD item "name" (.str "Unknown")
            , source := jgetD item "source" (.str "Unknown")
            , context := "entries"
            , context_name := none
            , ref := cond }))
    | none => [])

/-- One emitted monster condition fact. -/
structure MonsterFact where
  monster_name : Json
  source : Json
  context : String
  context_name : Json
  ref : CondRef
deriving DecidableEq

/-- Facts of one ability block of a monster: a non-dict ability makes
Python raise AttributeError at ability.get (none). -/
def monsterAbilityFacts (mname msrc : Json) (context_type : String) (ab : Json) :
    Option (List MonsterFact) :=
  match ab with
  | .obj abd =>
      some (match abd.lookup "entries" with
        | some e =>
            (extract_from_entries e).flatMap (fun txt =>
              (extract_conditions_from_text txt).map (fun cond =>
                { monster_name := mname, source := msrc, context := context_type
                , context_name := jgetD abd "name" (.str "Unknown"), ref := cond }))
        | none => [])
  | _ => none

/-- Facts of one (field, context) pair of a monster: the field value is
iterated with Python semantics (a non-iterable raises). -/
def monsterFieldFacts (m : JObj) (mname msrc : Json) (field_name context_type : String) :
    Option (List MonsterFact) :=
  if m.hasKey field_name then do
    let abilities ← pyIter (jget m field_name)
    let ls ← abilities.mapM (monsterAbilityFacts mname msrc context_type)
    pure ls.flatten
  else pure []

/-- Embedding of extract_conditions.extract_monster_conditions: the five
ability fields are scanned in order; each reference is emitted with the
monster's own name and source (defaulting to "Unknown"). An exception
anywhere aborts the whole extraction (none). -/
def extract_monster_conditions (monsters : List JObj) : Option (List MonsterFact) := do
  let ls ← monsters.mapM (fun m => do
    let mname := jgetD m "name" (.str "Unknown")
    let msrc := jgetD m "source" (.str "Unknown")
    let l1 ← monsterFieldFacts m mname msrc "trait" "trait"
    let l2 ← monsterFieldFacts m mname msrc "action" "action"
    let l3 ← monsterFieldFacts m mname msrc "bonus" "bonus action"
    let l4 ← monsterFieldFacts m mname msrc "reaction" "reaction"
    let l5 ← monsterFieldFacts m mname msrc "legendary" "legendary action"
    pure (l1 ++ l2 ++ l3 ++ l4 ++ l5))
  pure ls.flatten

/-- Coin amount the specification ascribes to a mapping entry: its integer
value when present, else 0. -/
def specCoin (kvs : JObj) (c : String) : Int :=
  match kvs.lookup c with
  | some (.num k) => k
  | _ => 0

/-- Shape facts that hold of every record clean_item emits from a raw record
satisfying the amended idempotence hypotheses; the second pass rewrites every
field of such a record to itself. -/
structure CanonicalItem (y : JObj) : Prop where
  val : ∃ n, y.lookup "value" = some (.num n) ∧ (n = 0 ∨ 100 < n)
  wt : ∃ m, y.lookup "weight" = some (.num m)
  prop : ∃ ps, y.lookup "property" = some (.arr (strList ps))
  rar : ∃ r, y.lookup "rarity" = some r ∧ jTruthy r = true
  req : y.hasKey "reqAttune" = false
  rng : y.hasKey "range" = false
  copyAbsent : y.hasKey "_copy" = false
  mast : ∀ v, y.lookup "mastery" = some v →
    ∃ ms, v = .arr (strList ms) ∧ ∀ s ∈ ms, pyHasChar s '|' = false
  typ : ∀ s, y.lookup "type" = some (.str s) → pyHasChar s '|' = false
  ammo : ∀ s, y.lookup "ammoType" = some (.str s) → pyHasChar s '|' = false
  repr : ∀ v, y.lookup "reprintedAs" = some v → ∃ ss, v = .arr (strList ss)
  srd : ∀ v, y.lookup "srd" = some v → ∃ b, v = .bool b
  srd52 : ∀ v, y.lookup "srd52" = some v → ∃ b, v = .bool b
  ent : ∀ v, y.lookup "entries" = some v → ∃ es, v = .arr (strList es)
  addent : ∀ v, y.lookup "additionalEntries" = some v → ∃ es, v = .arr (strList es)
  pack : ∀ v, y.lookup "packContents" = some v →
    ∃ l, v = .arr (JList.ofList l) ∧
      ∀ j ∈ l, ∃ iv qv, j = .obj (.cons "item" iv (.cons "quantity" qv .nil))
  strg : ∀ v, y.lookup "strength" = some v → (∃ n, v = .num n) ∨ (∃ b, v = .bool b)
  rech : ∀ v, y.lookup "rechargeAmount" = some v → (∃ n, v = .num n) ∨ (∃ b, v = .bool b)
  chg : ∀ v, y.lookup "charges" = some v → (∃ n, v = .num n) ∨ (∃ b, v = .bool b)
  foc : ∀ v, y.lookup "focus" = some v → ∃ ss, v = .arr (strList ss)
  res : ∀ v, y.lookup "resist" = some v → ∃ ss, v = .arr (strList ss)
  att : ∀ v, y.lookup "attachedSpells" = some v → ∃ ss, v = .arr (strList ss)
  veh : ∀ v, y.lookup "vehSpeed" = some v → ∃ n, v = .num n
  cargo : ∀ v, y.lookup "capCargo" = some v → ∃ n, v = .num n
  ccap : ∀ cap, y.lookup "containerCapacity" = some (.obj cap) →
    (∀ w, cap.lookup "weight" = some w → ∃ ns : List Int, w = .arr (JList.ofList (ns.map Json.num))) ∧
    (∀ w, cap.lookup "volume" = some w → ∃ ns : List Int, w = .arr (JList.ofList (ns.map Json.num)))
  bar : ∀ bd, y.lookup "barDimensions" = some (.obj bd) →
    ∀ hv, bd.lookup "h" = some hv → ∃ n, hv = .num n

/-- Previous-character function of a scan that starts with initial previous
character p0: position 0 sees p0, position i+1 sees the character at i. -/
def prevAt (p0 : Option Char) (l : List Char) : Nat → Option Char
  | 0 => p0
  | i + 1 => l.get? i

/-- The tagged DC pattern first matches at position i with value n. -/
def taggedDCFirst (l : List Char) (n : Int) : Prop :=
  ∃ i, dcTagAt (l.drop i) = some n ∧ ∀ j, j < i → dcTagAt (l.drop j) = none

/-- The tagged DC pattern matches nowhere. -/
def noTaggedDC (l : List Char) : Prop :=
  ∀ i, dcTagAt (l.drop i) = none

/-- The plain DC pattern first matches at position i with value n. -/
def plainDCFirst (l : List Char) (n : Int) : Prop :=
  ∃ i, dcPlainAt (prevAt none l i) (l.drop i) = some n ∧
    ∀ j, j < i → dcPlainAt (prevAt none l j) (l.drop j) = none

/-- The plain DC pattern matches nowhere. -/
def noPlainDC (l : List Char) : Prop :=
  ∀ i, dcPlainAt (prevAt none l i) (l.drop i) = none

/-- Raw record of the reqAttune idempotence counterexample. -/
def reqAttuneItem : JObj := .cons "reqAttune" (.bool true) .nil

/-- Raw record of the amended-idempotence witness (the specification's
end-to-end example item). -/
def daggerItem : JObj :=
  .cons "name" (.str "Dagger of Venom")
    (.cons "value" (.obj (.cons "gp" (.num 5) .nil))
      (.cons "property" (.arr (.cons (.str "F")
        (.cons (.obj (.cons "uid" (.str "T|XPHB") (.cons "note" (.str "thrown") .nil)))
          .nil))) .nil))

/-- Cleaned form of the witness record. -/
def daggerCleaned : JObj :=
  .cons "name" (.str "Dagger of Venom")
    (.cons "value" (.num 500)
      (.cons "property" (.arr (.cons (.str "F") (.cons (.str "T") .nil)))
        (.cons "weight" (.num 0)
          (.cons "property_notes" (.obj (.cons "T" (.str "thrown") .nil))
            (.cons "rarity" (.str "none") .nil)))))

/-- Raw record of the range counterexample: a carried range field "30". -/
def rangeItem30 : JObj :=
  .cons "name" (.str "Shortbow") (.cons "range" (.str "30") .nil)

/-- Raw record with range "30/120". -/
def rangeItem30120 : JObj :=
  .cons "name" (.str "Shortbow") (.cons "range" (.str "30/120") .nil)

/-- Dataset of the type-uniformity counterexample: one record whose field a
holds a list of ten ints followed by one string. -/
def mixedListData : List Json :=
  [Json.obj (.cons "a" (.arr (JList.ofList
    (List.replicate 10 (Json.num 0) ++ [Json.str "x"]))) .nil)]

/-- Item corpus of the orphan-fact witness. -/
def sampleItems : List JObj :=
  [.cons "name" (.str "Dagger of Venom")
    (.cons "source" (.str "DMG")
      (.cons "entries" (.arr (.cons
        (.str "the target becomes \x7b@condition poisoned|XPHB\x7d") .nil)) .nil))]

/-- Monster corpus of the orphan-fact witness. -/
def sampleMonsters : List JObj :=
  [.cons "name" (.str "Goblin")
    (.cons "source" (.str "MM")
      (.cons "action" (.arr (.cons (.obj
        (.cons "name" (.str "Bite")
          (.cons "entries" (.arr (.cons
            (.str "the target has the \x7b@condition prone|XPHB\x7d condition") .nil)) .nil)))
        .nil)) .nil))]

/-- The single fact extract_item_conditions emits from the item corpus of
the orphan-fact witness. -/
def sampleItemFact : ItemFact :=
  { item_name := .str "Dagger of Venom"
  , source := .str "DMG"
  , context := "entries"
  , context_name := none
  , ref :=
    { condition := "poisoned"
    , condition_source := some "XPHB"
    , inflicts := true
    , save_dc := none
    , save_ability := none
    , duration_text := none
    , full_text := "the target becomes \x7b@condition poisoned|XPHB\x7d" } }

theorem JList.toList_ofList (l : List Json) : (JList.ofList l).toList = l := by
  induction l with
  | nil => rfl
  | cons h t ih => simp [JList.ofList, JList.toList, ih]

theorem strList_toList (ss : List String) : (strList ss).toList = ss.map Json.str := by
  simp [strList, JList.toList_ofList]

theorem JObj.lookup_set_eq : ∀ (m : JObj) (k : String) (v : Json),
    (m.set k v).lookup k = some v
  | .nil, k, v => by simp [JObj.set, JObj.lookup]
  | .cons k' w t, k, v => by
      by_cases h : k' = k <;>
        simp [JObj.set, JObj.lookup, h, JObj.lookup_set_eq t k v]

theorem JObj.lookup_set_ne : ∀ (m : JObj) (k k' : String) (v : Json), k' ≠ k →
    (m.set k v).lookup k' = m.lookup k'
  | .nil, k, k', v, h => by simp [JObj.set, JObj.lookup, Ne.symm h]
  | .cons k0 w t, k, k', v, h => by
      by_cases h0 : k0 = k
      · subst h0
        simp [JObj.set, JObj.lookup, Ne.symm h]
      · simp [JObj.set, JObj.lookup, h0, JObj.lookup_set_ne t k k' v h]

theorem JObj.set_self : ∀ (m : JObj) (k : String) (v : Json), m.lookup k = some v →
    m.set k v = m
  | .nil, k, v, h => by simp [JObj.lookup] at h
  | .cons k0 w t, k, v, h => by
      by_cases h0 : k0 = k
      · subst h0
        simp [JObj.lookup] at h
        simp [JObj.set, h]
      · simp [JObj.lookup, h0] at h
        simp [JObj.set, h0, JObj.set_self t k v h]

theorem JObj.lookup_del_ne : ∀ (m : JObj) (k k' : String), k' ≠ k →
    (m.del k).lookup k' = m.lookup k'
  | .nil, k, k', h => by simp [JObj.del]
  | .cons k0 w t, k, k', h => by
      by_cases h0 : k0 = k
      · subst h0
        simp [JObj.del, JObj.lookup, Ne.symm h]
      · simp [JObj.del, JObj.lookup, h0, JObj.lookup_del_ne t k k' h]

theorem JObj.hasKey_eq_false_iff (m : JObj) (k : String) :
    m.hasKey k = false ↔ m.lookup k = none := by
  unfold JObj.hasKey
  cases m.lookup k <;> simp

theorem takeWhile_not_contains : ∀ (l : List Char) (c : Char),
    ((l.takeWhile (· ≠ c)).contains c) = false
  | [], _ => rfl
  | x :: xs, c => by
      by_cases h : x = c
      · simp [List.takeWhile_cons, h]
      · simp [List.takeWhile_cons, h, List.contains_cons]
        exact ⟨fun hc => h hc.symm, by simpa using takeWhile_not_contains xs c⟩

theorem pySplitHead_no_sep (s : String) (c : Char) :
    pyHasChar (pySplitHead s c) c = false := by
  simp only [pyHasChar, pySplitHead]
  exact takeWhile_not_contains s.data c

theorem normalize_value_num_fix (n : Int) (h : n = 0 ∨ 100 < n) :
    normalize_value (.num n) = some n := by
  rcases h with h | h
  · subst h
    rfl
  · simp [normalize_value, h]

theorem propLoop_strs : ∀ (ss : List String) (acc : List Json) (notes : JObj),
    propLoop (ss.map Json.str) acc notes = some (acc ++ ss.map Json.str, notes)
  | [], acc, notes => by simp [List.map, propLoop]
  | s :: rest, acc, notes => by
      simp [List.map, propLoop, propLoop_strs rest (acc ++ [Json.str s]) notes]

theorem normalize_property_strs : ∀ (ps : List String),
    normalize_property (.arr (strList ps)) = some (ps.map Json.str, .nil)
  | [] => rfl
  | p :: ps => by
      have ht : jTruthy (.arr (strList (p :: ps))) = true := rfl
      unfold normalize_property
      rw [if_pos ht]
      show (Option.bind (pyIter (.arr (strList (p :: ps)))) (fun items => propLoop items [] .nil)) = _
      simp only [pyIter, Option.some_bind, strList_toList]
      simpa using propLoop_strs (p :: ps) [] .nil

theorem propLoop_str_out : ∀ (items acc : List Json) (notes : JObj) (pn : List Json × JObj),
    propLoop items acc notes = some pn →
    (∀ d, Json.obj d ∈ items → ∃ u, jgetD d "uid" (.str "") = .str u) →
    (∀ e ∈ acc, ∃ s, e = .str s) →
    ∀ e ∈ pn.1, ∃ s, e = .str s
  | [], acc, notes, pn, h, _, hacc => by
      have he := Option.some.inj h
      intro e hee
      rw [← he] at hee
      exact hacc e hee
  | .str s :: rest, acc, notes, pn, h, hd, hacc => by
      refine propLoop_str_out rest (acc ++ [.str s]) notes pn ?_
        (fun d hdm => hd d (List.mem_cons_of_mem _ hdm))
        (by
          intro e hee
          rcases List.mem_append.mp hee with hee | hee
          · exact hacc e hee
          · simp only [List.mem_singleton] at hee
            exact ⟨s, hee⟩)
      exact h
  | .obj d0 :: rest, acc, notes, pn, h, hd, hacc => by
      rcases hd d0 (List.mem_cons_self _ _) with ⟨u, hu⟩
      unfold propLoop at h
      rw [hu] at h
      exact propLoop_str_out rest _ _ pn h
        (fun d hdm => hd d (List.mem_cons_of_mem _ hdm))
        (by
          intro e hee
          rcases List.mem_append.mp hee with hee | hee
          · exact hacc e hee
          · simp only [List.mem_singleton] at hee
            exact ⟨_, hee⟩)
  | .null :: rest, acc, notes, pn, h, hd, hacc => by
      refine propLoop_str_out rest acc notes pn ?_
        (fun d hdm => hd d (List.mem_cons_of_mem _ hdm)) hacc
      exact h
  | .bool b :: rest, acc, notes, pn, h, hd, hacc => by
      refine propLoop_str_out rest acc notes pn ?_
        (fun d hdm => hd d (List.mem_cons_of_mem _ hdm)) hacc
      exact h
  | .num n :: rest, acc, notes, pn, h, hd, hacc => by
      refine propLoop_str_out rest acc notes pn ?_
        (fun d hdm => hd d (List.mem_cons_of_mem _ hdm)) hacc
      exact h
  | .arr xs :: rest, acc, notes, pn, h, hd, hacc => by
      refine propLoop_str_out rest acc notes pn ?_
        (fun d hdm => hd d (List.mem_cons_of_mem _ hdm)) hacc
      exact h

theorem normalize_property_str_out (j : Json) (pn : List Json × JObj)
    (h : normalize_property j = some pn)
    (hu : ∀ xs, j = .arr xs → ∀ d, Json.obj d ∈ xs.toList →
      ∃ u, jgetD d "uid" (.str "") = .str u) :
    ∀ e ∈ pn.1, ∃ s, e = .str s := by
  unfold normalize_property at h
  by_cases ht : jTruthy j = true
  · rw [if_pos ht] at h
    rcases Option.bind_eq_some.mp h with ⟨items, hit, h2⟩
    match j, hit, hu with
    | .arr xs, hit, hu =>
        have hi : xs.toList = items := Option.some.inj hit
        refine propLoop_str_out items [] .nil pn h2 ?_ (by intro e hee; simp at hee)
        intro d hdm
        exact hu xs rfl d (by rw [hi]; exact hdm)
    | .str s, hit, _ =>
        have hi : (s.data.map (fun c => Json.str (String.mk [c]))) = items :=
          Option.some.inj hit
        refine propLoop_str_out items [] .nil pn h2 ?_ (by intro e hee; simp at hee)
        intro d hdm
        rw [← hi] at hdm
        rcases List.mem_map.mp hdm with ⟨c, -, hc⟩
        exact Json.noConfusion hc
    | .obj kvs, hit, _ =>
        have hi : ((kvs.toList).map (fun p => Json.str p.1)) = items :=
          Option.some.inj hit
        refine propLoop_str_out items [] .nil pn h2 ?_ (by intro e hee; simp at hee)
        intro d hdm
        rw [← hi] at hdm
        rcases List.mem_map.mp hdm with ⟨p, -, hc⟩
        exact Json.noConfusion hc
    | .bool b, hit, _ => exact Option.noConfusion hit
    | .num n, hit, _ => exact Option.noConfusion hit
    | .null, hit, _ => exact Option.noConfusion hit
  · simp only [Bool.not_eq_true] at ht
    rw [if_neg (by simp [ht])] at h
    have he := Option.some.inj h
    intro e hee
    rw [← he] at hee
    simp at hee

theorem masteryRender_comp_str : masteryRender ∘ Json.str = id :=
  funext fun _ => rfl

theorem mastery_mapM_strs : ∀ (ms : List String), (∀ s ∈ ms, pyHasChar s '|' = false) →
    List.mapM masteryEntry (ms.map Json.str) = some (ms.map Json.str)
  | [], _ => rfl
  | s :: rest, h => by
      have hs : pyHasChar s '|' = false := h s (by simp)
      have hr := mastery_mapM_strs rest (fun x hx => h x (by simp [hx]))
      rw [List.map_cons, List.mapM_cons, hr]
      simp [masteryEntry, hs]

theorem normalize_mastery_strs (ms : List String)
    (h : ∀ s ∈ ms, pyHasChar s '|' = false) :
    normalize_mastery (.arr (strList ms)) = some (ms.map Json.str) := by
  cases ms with
  | nil => rfl
  | cons m rest =>
      have ht : jTruthy (.arr (strList (m :: rest))) = true := rfl
      unfold normalize_mastery
      rw [if_pos ht]
      show List.mapM masteryEntry ((strList (m :: rest)).toList) = _
      rw [strList_toList]
      exact mastery_mapM_strs (m :: rest) h

theorem mastery_mapM_str_in : ∀ (l : List Json) (ms : List Json),
    (∀ e ∈ l, ∃ s, e = .str s) →
    List.mapM masteryEntry l = some ms →
    ∃ ss : List String, ms = ss.map Json.str ∧ ∀ s ∈ ss, pyHasChar s '|' = false
  | [], ms, _, h => by
      rw [List.mapM_nil] at h
      have he := Option.some.inj h
      exact ⟨[], by simp [← he], by simp⟩
  | e0 :: rest, ms, hstr, h => by
      rcases hstr e0 (by simp) with ⟨s, rfl⟩
      rw [List.mapM_cons] at h
      rcases Option.bind_eq_some.mp h with ⟨y, hy, h2⟩
      rcases Option.bind_eq_some.mp h2 with ⟨ys, hys, h3⟩
      have h3' := Option.some.inj h3
      rcases mastery_mapM_str_in rest ys (fun e he => hstr e (by simp [he])) hys with
        ⟨ss, hss, hnp⟩
      have hy' : y = .str (if pyHasChar s '|' then pySplitHead s '|' else s) :=
        (Option.some.inj hy).symm
      refine ⟨(if pyHasChar s '|' then pySplitHead s '|' else s) :: ss, ?_, ?_⟩
      · rw [← h3', hy', hss]
        rfl
      · intro t htm
        rcases List.mem_cons.mp htm with rfl | htm'
        · by_cases hp : pyHasChar s '|' = true
          · simp [hp, pySplitHead_no_sep]
          · simp only [Bool.not_eq_true] at hp
            simp [hp]
        · exact hnp t htm'

theorem normalize_mastery_str_in (j : Json) (ms : List Json)
    (h : normalize_mastery j = some ms)
    (hstr : ∀ xs, j = .arr xs → ∀ e ∈ xs.toList, ∃ s, e = .str s) :
    ∃ ss : List String, ms = ss.map Json.str ∧ ∀ s ∈ ss, pyHasChar s '|' = false := by
  unfold normalize_mastery at h
  by_cases ht : jTruthy j = true
  · rw [if_pos ht] at h
    match j, h, hstr with
    | .arr xs, h, hstr => exact mastery_mapM_str_in xs.toList ms (hstr xs rfl) h
    | .bool b, h, _ => exact ⟨[], by simp [← Option.some.inj h], by simp⟩
    | .num n, h, _ => exact ⟨[], by simp [← Option.some.inj h], by simp⟩
    | .str s, h, _ => exact ⟨[], by simp [← Option.some.inj h], by simp⟩
    | .obj kvs, h, _ => exact ⟨[], by simp [← Option.some.inj h], by simp⟩
    | .null, h, _ => exact ⟨[], by simp [← Option.some.inj h], by simp⟩
  · simp only [Bool.not_eq_true] at ht
    rw [if_neg (by simp [ht])] at h
    exact ⟨[], by simp [← Option.some.inj h], by simp⟩

theorem fold_str_append (f : List Json → Json → List Json)
    (hf : ∀ acc s, f acc (Json.str s) = acc ++ [Json.str s]) :
    ∀ (ss : List String) (acc : List Json), (ss.map Json.str).foldl f acc = acc ++ ss.map Json.str
  | [], acc => by simp
  | s :: rest, acc => by
      simp only [List.map_cons, List.foldl_cons, hf]
      rw [fold_str_append f hf rest (acc ++ [Json.str s])]
      simp

theorem normalize_reprinted_strs : ∀ (ss : List String),
    normalize_reprinted_as (.arr (strList ss)) = some (ss.map Json.str)
  | [] => rfl
  | s :: ss => by
      have ht : jTruthy (.arr (strList (s :: ss))) = true := rfl
      unfold normalize_reprinted_as
      rw [if_pos ht]
      show (Option.bind (pyIter (.arr (strList (s :: ss)))) _) = _
      simp only [pyIter, Option.some_bind, strList_toList]
      rw [fold_str_append _ (fun _ _ => rfl) (s :: ss) []]
      simp

theorem all_str_exists_map : ∀ (rs : List Json), (∀ j ∈ rs, ∃ s, j = .str s) →
    ∃ ss : List String, rs = ss.map Json.str
  | [], _ => ⟨[], rfl⟩
  | j :: rest, h => by
      rcases h j (by simp) with ⟨s, hs⟩
      rcases all_str_exists_map rest (fun x hx => h x (by simp [hx])) with ⟨ss, hss⟩
      exact ⟨s :: ss, by simp [hs, hss]⟩

theorem neList_strs : ∀ (es : List String), neList (strList es) = some es
  | [] => rfl
  | e :: es => by
      show neList (.cons (.str e) (strList es)) = some (e :: es)
      rw [neList]
      simp [neEntry, neList_strs es]

theorem normalize_entries_strs (es : List String) :
    normalize_entries (.arr (strList es)) = some es := by
  rw [normalize_entries]
  exact neList_strs es

theorem pack_entry_rebuild (iv qv : Json) :
    (Json.obj (.cons "item" (jgetD (.cons "item" iv (.cons "quantity" qv .nil)) "item" (.str ""))
      (.cons "quantity" (jgetD (.cons "item" iv (.cons "quantity" qv .nil)) "quantity" (.num 1)) .nil)))
    = Json.obj (.cons "item" iv (.cons "quantity" qv .nil)) := by
  simp [jgetD, JObj.lookup]

theorem pack_fold_fixed : ∀ (l acc : List Json),
    (∀ j ∈ l, ∃ iv qv, j = .obj (.cons "item" iv (.cons "quantity" qv .nil))) →
    l.foldl (fun acc it =>
      match it with
      | .str s => acc ++ [Json.obj (.cons "item" (.str s) (.cons "quantity" (.num 1) .nil))]
      | .obj d => acc ++ [Json.obj (.cons "item" (jgetD d "item" (.str ""))
                           (.cons "quantity" (jgetD d "quantity" (.num 1)) .nil))]
      | _ => acc) acc = acc ++ l
  | [], acc, _ => by simp
  | j :: rest, acc, h => by
      rcases h j (by simp) with ⟨iv, qv, hj⟩
      subst hj
      simp only [List.foldl_cons]
      rw [pack_fold_fixed rest (acc ++ [_]) (fun x hx => h x (by simp [hx]))]
      rw [pack_entry_rebuild]
      simp

theorem normalize_pack_objs : ∀ (l : List Json),
    (∀ j ∈ l, ∃ iv qv, j = .obj (.cons "item" iv (.cons "quantity" qv .nil))) →
    normalize_pack_contents (.arr (JList.ofList l)) = some l
  | [], _ => rfl
  | j :: rest, h => by
      have ht : jTruthy (.arr (JList.ofList (j :: rest))) = true := rfl
      unfold normalize_pack_contents
      rw [if_pos ht]
      show (Option.bind (pyIter (.arr (JList.ofList (j :: rest)))) _) = _
      simp only [pyIter, Option.some_bind, JList.toList_ofList]
      rw [pack_fold_fixed (j :: rest) [] h]
      simp

theorem pack_fold_shape : ∀ (items acc : List Json),
    (∀ j ∈ acc, ∃ iv qv, j = .obj (.cons "item" iv (.cons "quantity" qv .nil))) →
    ∀ j ∈ items.foldl (fun acc it =>
      match it with
      | .str s => acc ++ [Json.obj (.cons "item" (.str s) (.cons "quantity" (.num 1) .nil))]
      | .obj d => acc ++ [Json.obj (.cons "item" (jgetD d "item" (.str ""))
                           (.cons "quantity" (jgetD d "quantity" (.num 1)) .nil))]
      | _ => acc) acc,
      ∃ iv qv, j = .obj (.cons "item" iv (.cons "quantity" qv .nil))
  | [], acc, hacc => by simpa using hacc
  | i :: rest, acc, hacc => by
      simp only [List.foldl_cons]
      match i with
      | .str s =>
          exact pack_fold_shape rest _ (by
            intro j hj
            rcases List.mem_append.mp hj with hj | hj
            · exact hacc j hj
            · simp at hj
              exact ⟨.str s, .num 1, hj⟩)
      | .obj d =>
          exact pack_fold_shape rest _ (by
            intro j hj
            rcases List.mem_append.mp hj with hj | hj
            · exact hacc j hj
            · simp at hj
              exact ⟨_, _, hj⟩)
      | .null => exact pack_fold_shape rest _ hacc
      | .bool b => exact pack_fold_shape rest _ hacc
      | .num n => exact pack_fold_shape rest _ hacc
      | .arr xs => exact pack_fold_shape rest _ hacc

theorem normalize_pack_shape (j : Json) (l : List Json)
    (h : normalize_pack_contents j = some l) :
    ∀ x ∈ l, ∃ iv qv, x = .obj (.cons "item" iv (.cons "quantity" qv .nil)) := by
  unfold normalize_pack_contents at h
  by_cases ht : jTruthy j = true
  · rw [if_pos ht] at h
    rcases Option.bind_eq_some.mp h with ⟨items, hit, h2⟩
    simp only [Option.some.injEq] at h2
    subst h2
    exact pack_fold_shape items [] (by simp)
  · simp only [Bool.not_eq_true] at ht
    rw [if_neg (by simp [ht])] at h
    cases h
    intro x hx
    simp at hx

theorem normalize_strength_shape (j : Json) :
    (∃ n, normalize_strength j = .num n) ∨ (∃ b, normalize_strength j = .bool b) := by
  match j with
  | .null => exact Or.inl ⟨0, rfl⟩
  | .bool b => exact Or.inr ⟨b, rfl⟩
  | .num n => exact Or.inl ⟨n, rfl⟩
  | .arr xs => exact Or.inl ⟨0, rfl⟩
  | .obj kvs => exact Or.inl ⟨0, rfl⟩
  | .str s =>
      cases h : pyInt s with
      | none => exact Or.inl ⟨0, by simp [normalize_strength, h]⟩
      | some n => exact Or.inl ⟨n, by simp [normalize_strength, h]⟩

theorem normalize_strength_stable (v : Json)
    (h : (∃ n, v = .num n) ∨ (∃ b, v = .bool b)) : normalize_strength v = v := by
  rcases h with ⟨n, rfl⟩ | ⟨b, rfl⟩ <;> rfl

theorem normalize_recharge_shape (j : Json) :
    (∃ n, normalize_recharge_amount j = .num n) ∨
    (∃ b, normalize_recharge_amount j = .bool b) := by
  match j with
  | .null => exact Or.inl ⟨0, rfl⟩
  | .bool b => exact Or.inr ⟨b, rfl⟩
  | .num n => exact Or.inl ⟨n, rfl⟩
  | .arr xs => exact Or.inl ⟨0, rfl⟩
  | .obj kvs => exact Or.inl ⟨0, rfl⟩
  | .str s =>
      by_cases hd : pyHasChar s 'd' = true
      · cases h : pyInt (pySplitHead s 'd') with
        | none => exact Or.inl ⟨1, by simp [normalize_recharge_amount, hd, h]⟩
        | some n => exact Or.inl ⟨n, by simp [normalize_recharge_amount, hd, h]⟩
      · cases h : pyInt s with
        | none => exact Or.inl ⟨1, by simp [normalize_recharge_amount, hd, h]⟩
        | some n => exact Or.inl ⟨n, by simp [normalize_recharge_amount, hd, h]⟩

theorem normalize_recharge_stable (v : Json)
    (h : (∃ n, v = .num n) ∨ (∃ b, v = .bool b)) : normalize_recharge_amount v = v := by
  rcases h with ⟨n, rfl⟩ | ⟨b, rfl⟩ <;> rfl

theorem normalize_charges_shape (j : Json) :
    (∃ n, normalize_charges j = .num n) ∨ (∃ b, normalize_charges j = .bool b) := by
  match j with
  | .null => exact Or.inl ⟨0, rfl⟩
  | .bool b => exact Or.inr ⟨b, rfl⟩
  | .num n => exact Or.inl ⟨n, rfl⟩
  | .arr xs => exact Or.inl ⟨0, rfl⟩
  | .obj kvs => exact Or.inl ⟨0, rfl⟩
  | .str s =>
      cases h : pyInt s with
      | none => exact Or.inl ⟨0, by simp [normalize_charges, h]⟩
      | some n => exact Or.inl ⟨n, by simp [normalize_charges, h]⟩

theorem normalize_charges_stable (v : Json)
    (h : (∃ n, v = .num n) ∨ (∃ b, v = .bool b)) : normalize_charges v = v := by
  rcases h with ⟨n, rfl⟩ | ⟨b, rfl⟩ <;> rfl

theorem pyStr_comp_str : pyStr ∘ Json.str = id :=
  funext fun _ => rfl

theorem normalize_focus_strs (ss : List String) :
    normalize_focus (.arr (strList ss)) = ss := by
  cases ss with
  | nil => rfl
  | cons s rest =>
      show ((strList (s :: rest)).toList).map pyStr = s :: rest
      rw [strList_toList, List.map_map, pyStr_comp_str, List.map_id]

theorem normalize_resist_strs (ss : List String) :
    normalize_resist (.arr (strList ss)) = ss := by
  cases ss with
  | nil => rfl
  | cons s rest =>
      show ((strList (s :: rest)).toList).filterMap (fun r =>
        match r with
        | Json.str s => some s
        | _ => none) = s :: rest
      rw [strList_toList, List.filterMap_map]
      rw [show ((fun r => match r with | Json.str s => some s | _ => none) ∘ Json.str)
            = some from funext fun _ => rfl]
      exact List.filterMap_some _

theorem normalize_attached_strs (ss : List String) :
    normalize_attached_spells (.arr (strList ss)) = ss := by
  cases ss with
  | nil => rfl
  | cons s rest =>
      show ((strList (s :: rest)).toList).map pyStr = s :: rest
      rw [strList_toList, List.map_map, pyStr_comp_str, List.map_id]

theorem mapM_float_nums : ∀ (ns : List Int),
    List.mapM normalize_float_field (ns.map Json.num) = some ns
  | [] => rfl
  | n :: rest => by
      rw [List.map_cons, List.mapM_cons, mapM_float_nums rest]
      rfl

theorem floatsOf_nums (ns : List Int) :
    floatsOf (.arr (JList.ofList (ns.map Json.num))) = some ns := by
  show List.mapM normalize_float_field ((JList.ofList (ns.map Json.num)).toList) = some ns
  rw [JList.toList_ofList]
  exact mapM_float_nums ns

theorem alwaysSet_inv (item c c' : JObj) (key : String) (f : Json → Option Json)
    (h : alwaysSet item c key f = some c') :
    ∃ v, f (jget item key) = some v ∧ c' = c.set key v := by
  unfold alwaysSet at h
  rcases Option.bind_eq_some.mp h with ⟨v, hv, h2⟩
  simp only [Option.pure_def, Option.some.injEq] at h2
  exact ⟨v, hv, h2.symm⟩

theorem alwaysSet_frame (item c c' : JObj) (key : String) (f : Json → Option Json)
    (h : alwaysSet item c key f = some c') (k : String) (hk : k ≠ key) :
    c'.lookup k = c.lookup k := by
  rcases alwaysSet_inv item c c' key f h with ⟨v, _, rfl⟩
  exact JObj.lookup_set_ne c key k v hk

theorem alwaysSet_id (y : JObj) (key : String) (f : Json → Option Json) (v : Json)
    (hv : y.lookup key = some v) (hf : f v = some v) :
    alwaysSet y y key f = some y := by
  unfold alwaysSet
  simp [jget, hv, hf, JObj.set_self y key v hv]

theorem condSet_inv (item c c' : JObj) (key : String) (f : Json → Option Json)
    (h : condSet item c key f = some c') :
    (item.hasKey key = false ∧ c' = c) ∨
    (item.hasKey key = true ∧ ∃ v, f (jget item key) = some v ∧ c' = c.set key v) := by
  unfold condSet at h
  by_cases hk : item.hasKey key = true
  · rw [if_pos hk] at h
    exact Or.inr ⟨hk, alwaysSet_inv item c c' key f h⟩
  · simp only [Bool.not_eq_true] at hk
    rw [if_neg (by simp [hk])] at h
    simp only [Option.pure_def, Option.some.injEq] at h
    exact Or.inl ⟨hk, h.symm⟩

theorem condSet_frame (item c c' : JObj) (key : String) (f : Json → Option Json)
    (h : condSet item c key f = some c') (k : String) (hk : k ≠ key) :
    c'.lookup k = c.lookup k := by
  rcases condSet_inv item c c' key f h with ⟨_, rfl⟩ | ⟨_, v, _, rfl⟩
  · rfl
  · exact JObj.lookup_set_ne c key k v hk

theorem condSet_id (y : JObj) (key : String) (f : Json → Option Json)
    (hf : ∀ v, y.lookup key = some v → f v = some v) :
    condSet y y key f = some y := by
  unfold condSet
  by_cases hk : y.hasKey key = true
  · rw [if_pos hk]
    rcases Option.isSome_iff_exists.mp hk with ⟨v, hv⟩
    exact alwaysSet_id y key f v hv (hf v hv)
  · simp only [Bool.not_eq_true] at hk
    rw [if_neg (by simp [hk])]
    rfl

theorem stepProperty_inv (item c c' : JObj) (h : stepProperty item c = some c') :
    ∃ pn, normalize_property (jget item "property") = some pn ∧
      c' = (if pn.2 ≠ JObj.nil then
              (c.set "property" (.arr (JList.ofList pn.1))).set "property_notes" (.obj pn.2)
            else c.set "property" (.arr (JList.ofList pn.1))) := by
  unfold stepProperty at h
  rcases Option.bind_eq_some.mp h with ⟨pn, hpn, h2⟩
  simp only [Option.pure_def, Option.some.injEq] at h2
  exact ⟨pn, hpn, h2.symm⟩

theorem stepProperty_frame (item c c' : JObj) (h : stepProperty item c = some c')
    (k : String) (hk1 : k ≠ "property") (hk2 : k ≠ "property_notes") :
    c'.lookup k = c.lookup k := by
  rcases stepProperty_inv item c c' h with ⟨pn, _, rfl⟩
  by_cases hn : pn.2 ≠ JObj.nil
  · rw [if_pos hn, JObj.lookup_set_ne _ _ _ _ hk2, JObj.lookup_set_ne _ _ _ _ hk1]
  · rw [if_neg hn, JObj.lookup_set_ne _ _ _ _ hk1]

theorem stepProperty_prop (item c c' : JObj) (h : stepProperty item c = some c')
    (hu : ∀ xs, jget item "property" = .arr xs → ∀ d, Json.obj d ∈ xs.toList →
      ∃ u, jgetD d "uid" (.str "") = .str u) :
    ∃ ps, c'.lookup "property" = some (.arr (strList ps)) := by
  rcases stepProperty_inv item c c' h with ⟨pn, hpn, rfl⟩
  have hstr : ∀ e ∈ pn.1, ∃ s, e = .str s :=
    normalize_property_str_out _ pn hpn hu
  rcases all_str_exists_map pn.1 hstr with ⟨ss, hss⟩
  have harr : Json.arr (JList.ofList pn.1) = .arr (strList ss) := by
    rw [hss]
    rfl
  refine ⟨ss, ?_⟩
  by_cases hn : pn.2 ≠ JObj.nil
  · rw [if_pos hn, JObj.lookup_set_ne _ _ _ _ (by decide), JObj.lookup_set_eq, harr]
  · rw [if_neg hn, JObj.lookup_set_eq, harr]

theorem stepProperty_id (y : JObj) (ps : List String)
    (h : y.lookup "property" = some (.arr (strList ps))) :
    stepProperty y y = some y := by
  unfold stepProperty
  have hn : normalize_property (jget y "property") = some (ps.map Json.str, JObj.nil) := by
    rw [jget, h]
    exact normalize_property_strs ps
  rw [hn]
  simp only [Option.bind_eq_bind, Option.some_bind, Option.pure_def, ne_eq,
    not_true_eq_false, if_neg]
  rw [show JList.ofList (ps.map Json.str) = strList ps from rfl]
  simp [JObj.set_self y "property" _ h]

theorem stepRarity_inv (item c c' : JObj) (h : stepRarity item c = some c') :
    c' = (if ¬ c.hasKey "rarity" ∨ ¬ jTruthy (jget c "rarity") then
            c.set "rarity" (.str "none") else c) := by
  unfold stepRarity at h
  simp only [Option.pure_def, Option.some.injEq] at h
  exact h.symm

theorem stepRarity_frame (item c c' : JObj) (h : stepRarity item c = some c')
    (k : String) (hk : k ≠ "rarity") : c'.lookup k = c.lookup k := by
  rw [stepRarity_inv item c c' h]
  by_cases hc : ¬ c.hasKey "rarity" ∨ ¬ jTruthy (jget c "rarity")
  · rw [if_pos hc, JObj.lookup_set_ne _ _ _ _ hk]
  · rw [if_neg hc]

theorem stepRarity_rar (item c c' : JObj) (h : stepRarity item c = some c') :
    ∃ r, c'.lookup "rarity" = some r ∧ jTruthy r = true := by
  rw [stepRarity_inv item c c' h]
  by_cases hc : ¬ c.hasKey "rarity" ∨ ¬ jTruthy (jget c "rarity")
  · rw [if_pos hc]
    exact ⟨.str "none", JObj.lookup_set_eq c "rarity" _, rfl⟩
  · rw [if_neg hc]
    push_neg at hc
    rcases Option.isSome_iff_exists.mp hc.1 with ⟨r, hr⟩
    refine ⟨r, hr, ?_⟩
    have := hc.2
    rwa [jget, hr] at this

theorem stepRarity_id (y : JObj) (r : Json)
    (h1 : y.lookup "rarity" = some r) (h2 : jTruthy r = true) :
    stepRarity y y = some y := by
  unfold stepRarity
  have hc : ¬ (¬ y.hasKey "rarity" = true ∨ ¬ jTruthy (jget y "rarity") = true) := by
    push_neg
    exact ⟨by simp [JObj.hasKey, h1], by rwa [jget, h1]⟩
  rw [if_neg hc]
  rfl

theorem stepType_inv (item c c' : JObj) (h : stepType item c = some c') :
    c' = (match c.lookup "type" with
          | some (.str s) =>
              if pyHasChar s '|' then c.set "type" (.str (pySplitHead s '|')) else c
          | _ => c) := by
  unfold stepType at h
  simp only [Option.pure_def, Option.some.injEq] at h
  exact h.symm

theorem stepType_frame (item c c' : JObj) (h : stepType item c = some c')
    (k : String) (hk : k ≠ "type") : c'.lookup k = c.lookup k := by
  rw [stepType_inv item c c' h]
  match hl : c.lookup "type" with
  | none => simp only [hl]
  | some (.str s) =>
      simp only [hl]
      by_cases hp : pyHasChar s '|' = true
      · rw [if_pos hp, JObj.lookup_set_ne _ _ _ _ hk]
      · rw [if_neg hp]
  | some .null => simp only [hl]
  | some (.bool b) => simp only [hl]
  | some (.num n) => simp only [hl]
  | some (.arr xs) => simp only [hl]
  | some (.obj kvs) => simp only [hl]

theorem stepType_fact (item c c' : JObj) (h : stepType item c = some c') :
    ∀ s', c'.lookup "type" = some (.str s') → pyHasChar s' '|' = false := by
  rw [stepType_inv item c c' h]
  match hl : c.lookup "type" with
  | none => intro s' hs'; rw [hl] at hs'; cases hs'
  | some (.str s) =>
      simp only [hl]
      by_cases hp : pyHasChar s '|' = true
      · rw [if_pos hp]
        intro s' hs'
        rw [JObj.lookup_set_eq] at hs'
        simp only [Option.some.injEq, Json.str.injEq] at hs'
        rw [← hs']
        exact pySplitHead_no_sep s '|'
      · rw [if_neg hp]
        intro s' hs'
        rw [hl] at hs'
        simp only [Option.some.injEq, Json.str.injEq] at hs'
        rw [← hs']
        simpa using hp
  | some .null => intro s' hs'; rw [hl] at hs'; exact Json.noConfusion (Option.some.inj hs')
  | some (.bool b) => intro s' hs'; rw [hl] at hs'; exact Json.noConfusion (Option.some.inj hs')
  | some (.num n) => intro s' hs'; rw [hl] at hs'; exact Json.noConfusion (Option.some.inj hs')
  | some (.arr xs) => intro s' hs'; rw [hl] at hs'; exact Json.noConfusion (Option.some.inj hs')
  | some (.obj kvs) => intro s' hs'; rw [hl] at hs'; exact Json.noConfusion (Option.some.inj hs')

theorem stepType_id (y : JObj)
    (h : ∀ s, y.lookup "type" = some (.str s) → pyHasChar s '|' = false) :
    stepType y y = some y := by
  unfold stepType
  match hl : y.lookup "type" with
  | none => simp only [hl]; rfl
  | some (.str s) =>
      simp only [hl]
      rw [if_neg (by simp [h s hl])]
      rfl
  | some .null => simp only [hl]; rfl
  | some (.bool b) => simp only [hl]; rfl
  | some (.num n) => simp only [hl]; rfl
  | some (.arr xs) => simp only [hl]; rfl
  | some (.obj kvs) => simp only [hl]; rfl

theorem stepAmmoType_inv (item c c' : JObj) (h : stepAmmoType item c = some c') :
    c' = (match c.lookup "ammoType" with
          | some (.str s) =>
              if pyHasChar s '|' then c.set "ammoType" (.str (pySplitHead s '|')) else c
          | _ => c) := by
  unfold stepAmmoType at h
  simp only [Option.pure_def, Option.some.injEq] at h
  exact h.symm

theorem stepAmmoType_frame (item c c' : JObj) (h : stepAmmoType item c = some c')
    (k : String) (hk : k ≠ "ammoType") : c'.lookup k = c.lookup k := by
  rw [stepAmmoType_inv item c c' h]
  match hl : c.lookup "ammoType" with
  | none => simp only [hl]
  | some (.str s) =>
      simp only [hl]
      by_cases hp : pyHasChar s '|' = true
      · rw [if_pos hp, JObj.lookup_set_ne _ _ _ _ hk]
      · rw [if_neg hp]
  | some .null => simp only [hl]
  | some (.bool b) => simp only [hl]
  | some (.num n) => simp only [hl]
  | some (.arr xs) => simp only [hl]
  | some (.obj kvs) => simp only [hl]

theorem stepAmmoType_fact (item c c' : JObj) (h : stepAmmoType item c = some c') :
    ∀ s', c'.lookup "ammoType" = some (.str s') → pyHasChar s' '|' = false := by
  rw [stepAmmoType_inv item c c' h]
  match hl : c.lookup "ammoType" with
  | none => intro s' hs'; rw [hl] at hs'; cases hs'
  | some (.str s) =>
      simp only [hl]
      by_cases hp : pyHasChar s '|' = true
      · rw [if_pos hp]
        intro s' hs'
        rw [JObj.lookup_set_eq] at hs'
        simp only [Option.some.injEq, Json.str.injEq] at hs'
        rw [← hs']
        exact pySplitHead_no_sep s '|'
      · rw [if_neg hp]
        intro s' hs'
        rw [hl] at hs'
        simp only [Option.some.injEq, Json.str.injEq] at hs'
        rw [← hs']
        simpa using hp
  | some .null => intro s' hs'; rw [hl] at hs'; exact Json.noConfusion (Option.some.inj hs')
  | some (.bool b) => intro s' hs'; rw [hl] at hs'; exact Json.noConfusion (Option.some.inj hs')
  | some (.num n) => intro s' hs'; rw [hl] at hs'; exact Json.noConfusion (Option.some.inj hs')
  | some (.arr xs) => intro s' hs'; rw [hl] at hs'; exact Json.noConfusion (Option.some.inj hs')
  | some (.obj kvs) => intro s' hs'; rw [hl] at hs'; exact Json.noConfusion (Option.some.inj hs')

theorem stepAmmoType_id (y : JObj)
    (h : ∀ s, y.lookup "ammoType" = some (.str s) → pyHasChar s '|' = false) :
    stepAmmoType y y = some y := by
  unfold stepAmmoType
  match hl : y.lookup "ammoType" with
  | none => simp only [hl]; rfl
  | some (.str s) =>
      simp only [hl]
      rw [if_neg (by simp [h s hl])]
      rfl
  | some .null => simp only [hl]; rfl
  | some (.bool b) => simp only [hl]; rfl
  | some (.num n) => simp only [hl]; rfl
  | some (.arr xs) => simp only [hl]; rfl
  | some (.obj kvs) => simp only [hl]; rfl

theorem stepDelCopy_inv (item c c' : JObj) (h : stepDelCopy item c = some c') :
    c' = (if c.hasKey "_copy" then c.del "_copy" else c) := by
  unfold stepDelCopy at h
  simp only [Option.pure_def, Option.some.injEq] at h
  exact h.symm

theorem stepDelCopy_frame (item c c' : JObj) (h : stepDelCopy item c = some c')
    (k : String) (hk : k ≠ "_copy") : c'.lookup k = c.lookup k := by
  rw [stepDelCopy_inv item c c' h]
  by_cases hc : c.hasKey "_copy" = true
  · rw [if_pos hc, JObj.lookup_del_ne _ _ _ hk]
  · rw [if_neg (by simp [hc])]

theorem stepDelCopy_id (y : JObj) (h : y.hasKey "_copy" = false) :
    stepDelCopy y y = some y := by
  unfold stepDelCopy
  rw [if_neg (by simp [h])]
  rfl

theorem capEntryNorm_inv (src tgt tgt' : JObj) (key : String)
    (h : capEntryNorm src tgt key = some tgt') :
    (src.hasKey key = false ∧ tgt' = tgt) ∨
    (∃ wl, floatsOf (jget src key) = some wl ∧
      tgt' = tgt.set key (.arr (JList.ofList (wl.map Json.num)))) := by
  unfold capEntryNorm at h
  by_cases hk : src.hasKey key = true
  · rw [if_pos hk] at h
    rcases Option.bind_eq_some.mp h with ⟨wl, hwl, e⟩
    simp only [Option.pure_def, Option.some.injEq] at e
    exact Or.inr ⟨wl, hwl, e.symm⟩
  · simp only [Bool.not_eq_true] at hk
    rw [if_neg (by simp [hk])] at h
    exact Or.inl ⟨hk, (Option.some.inj h).symm⟩

theorem capEntryNorm_id (src tgt : JObj) (key : String)
    (h : ∀ w, src.hasKey key = true → src.lookup key = some w →
      ∃ ns : List Int, w = .arr (JList.ofList (ns.map Json.num)))
    (heq : src.hasKey key = true → tgt.set key (jget src key) = tgt) :
    capEntryNorm src tgt key = some tgt := by
  unfold capEntryNorm
  by_cases hk : src.hasKey key = true
  · rw [if_pos hk]
    rcases Option.isSome_iff_exists.mp hk with ⟨w, hw⟩
    rcases h w hk hw with ⟨ns, hns⟩
    have hkey : jget src key = .arr (JList.ofList (ns.map Json.num)) := by
      rw [jget, hw, hns]
      rfl
    rw [hkey, floatsOf_nums]
    simp only [Option.bind_eq_bind, Option.some_bind, Option.pure_def, Option.some.injEq]
    have := heq hk
    rw [hkey] at this
    exact this
  · simp only [Bool.not_eq_true] at hk
    rw [if_neg (by simp [hk])]
    rfl

theorem stepContainerCap_inv (item c c' : JObj) (h : stepContainerCap item c = some c') :
    (item.hasKey "containerCapacity" = false ∧ c' = c) ∨
    (item.hasKey "containerCapacity" = true ∧
      (∀ kvs, jget item "containerCapacity" ≠ .obj kvs) ∧ c' = c) ∨
    (∃ cap cap2, jget item "containerCapacity" = .obj cap ∧
      c' = c.set "containerCapacity" (.obj cap2) ∧
      (∀ w, cap2.lookup "weight" = some w →
        ∃ ns : List Int, w = .arr (JList.ofList (ns.map Json.num))) ∧
      (∀ w, cap2.lookup "volume" = some w →
        ∃ ns : List Int, w = .arr (JList.ofList (ns.map Json.num)))) := by
  unfold stepContainerCap at h
  by_cases hk : item.hasKey "containerCapacity" = true
  · rw [if_pos hk] at h
    match hv : jget item "containerCapacity" with
    | .obj cap =>
        rw [hv] at h
        right; right
        rcases Option.bind_eq_some.mp h with ⟨cap1, h1, h2⟩
        rcases Option.bind_eq_some.mp h2 with ⟨cap2, h3, h4⟩
        simp only [Option.pure_def, Option.some.injEq] at h4
        have hwfacts :
            (∀ w, cap1.lookup "weight" = some w →
              ∃ ns : List Int, w = .arr (JList.ofList (ns.map Json.num))) ∧
            cap1.lookup "volume" = cap.lookup "volume" := by
          rcases capEntryNorm_inv cap cap cap1 "weight" h1 with ⟨hnw, he1⟩ | ⟨wl, hwl, he1⟩
          · constructor
            · intro w hw
              rw [he1, (JObj.hasKey_eq_false_iff cap "weight").mp hnw] at hw
              cases hw
            · rw [he1]
          · constructor
            · intro w hw
              rw [he1, JObj.lookup_set_eq] at hw
              exact ⟨wl, (Option.some.inj hw).symm⟩
            · rw [he1, JObj.lookup_set_ne _ _ _ _ (by decide)]
        refine ⟨cap, cap2, rfl, h4.symm, ?_, ?_⟩
        · intro w hw
          rcases capEntryNorm_inv cap cap1 cap2 "volume" h3 with ⟨hnv, he2⟩ | ⟨vl, hvl, he2⟩
          · rw [he2] at hw
            exact hwfacts.1 w hw
          · rw [he2, JObj.lookup_set_ne _ _ _ _ (by decide)] at hw
            exact hwfacts.1 w hw
        · intro w hw
          rcases capEntryNorm_inv cap cap1 cap2 "volume" h3 with ⟨hnv, he2⟩ | ⟨vl, hvl, he2⟩
          · rw [he2, hwfacts.2, (JObj.hasKey_eq_false_iff cap "volume").mp hnv] at hw
            cases hw
          · rw [he2, JObj.lookup_set_eq] at hw
            exact ⟨vl, (Option.some.inj hw).symm⟩
    | .null => rw [hv] at h
               exact Or.inr (Or.inl ⟨hk, by simp [hv], (Option.some.inj h).symm⟩)
    | .bool b => rw [hv] at h
                 exact Or.inr (Or.inl ⟨hk, by simp [hv], (Option.some.inj h).symm⟩)
    | .num n => rw [hv] at h
                exact Or.inr (Or.inl ⟨hk, by simp [hv], (Option.some.inj h).symm⟩)
    | .str s => rw [hv] at h
                exact Or.inr (Or.inl ⟨hk, by simp [hv], (Option.some.inj h).symm⟩)
    | .arr xs => rw [hv] at h
                 exact Or.inr (Or.inl ⟨hk, by simp [hv], (Option.some.inj h).symm⟩)
  · simp only [Bool.not_eq_true] at hk
    rw [if_neg (by simp [hk])] at h
    exact Or.inl ⟨hk, (Option.some.inj h).symm⟩

theorem stepContainerCap_frame (item c c' : JObj) (h : stepContainerCap item c = some c')
    (k : String) (hk : k ≠ "containerCapacity") : c'.lookup k = c.lookup k := by
  rcases stepContainerCap_inv item c c' h with ⟨_, he⟩ | ⟨_, _, he⟩ | ⟨cap, cap2, _, he, _, _⟩
  · rw [he]
  · rw [he]
  · rw [he]
    exact JObj.lookup_set_ne c _ k _ hk

theorem stepContainerCap_id (y : JObj)
    (h : ∀ cap, y.lookup "containerCapacity" = some (.obj cap) →
      (∀ w, cap.lookup "weight" = some w →
        ∃ ns : List Int, w = .arr (JList.ofList (ns.map Json.num))) ∧
      (∀ w, cap.lookup "volume" = some w →
        ∃ ns : List Int, w = .arr (JList.ofList (ns.map Json.num)))) :
    stepContainerCap y y = some y := by
  unfold stepContainerCap
  by_cases hk : y.hasKey "containerCapacity" = true
  · rw [if_pos hk]
    rcases Option.isSome_iff_exists.mp hk with ⟨v, hv⟩
    have hjget : jget y "containerCapacity" = v := by
      rw [jget, hv]
      rfl
    match v, hv, hjget with
    | .obj cap, hv, hjget =>
        simp only [hjget]
        have hcap := h cap hv
        have hw : capEntryNorm cap cap "weight" = some cap :=
          capEntryNorm_id cap cap "weight" (fun w _ hw => hcap.1 w hw)
            (fun hkw => by
              rcases Option.isSome_iff_exists.mp hkw with ⟨w, hww⟩
              rw [jget, hww]
              exact JObj.set_self cap "weight" w hww)
        have hvol : capEntryNorm cap cap "volume" = some cap :=
          capEntryNorm_id cap cap "volume" (fun w _ hw => hcap.2 w hw)
            (fun hkw => by
              rcases Option.isSome_iff_exists.mp hkw with ⟨w, hww⟩
              rw [jget, hww]
              exact JObj.set_self cap "volume" w hww)
        rw [hw]
        simp only [Option.bind_eq_bind, Option.some_bind]
        rw [hvol]
        simp only [Option.some_bind, Option.pure_def, Option.some.injEq]
        exact JObj.set_self y "containerCapacity" (.obj cap) hv
    | .null, hv, hjget => rw [hjget]; rfl
    | .bool b, hv, hjget => rw [hjget]; rfl
    | .num n, hv, hjget => rw [hjget]; rfl
    | .str s, hv, hjget => rw [hjget]; rfl
    | .arr xs, hv, hjget => rw [hjget]; rfl
  · simp only [Bool.not_eq_true] at hk
    rw [if_neg (by simp [hk])]
    rfl

theorem stepBarDim_inv (item c c' : JObj) (h : stepBarDim item c = some c') :
    (item.hasKey "barDimensions" = false ∧ c' = c) ∨
    (item.hasKey "barDimensions" = true ∧
      (∀ kvs, jget item "barDimensions" ≠ .obj kvs) ∧ c' = c) ∨
    (∃ bd, jget item "barDimensions" = .obj bd ∧ bd.hasKey "h" = false ∧ c' = c) ∨
    (∃ bd n, jget item "barDimensions" = .obj bd ∧
      c' = c.set "barDimensions" (.obj (bd.set "h" (.num n)))) := by
  unfold stepBarDim at h
  by_cases hk : item.hasKey "barDimensions" = true
  · rw [if_pos hk] at h
    match hv : jget item "barDimensions" with
    | .obj bd =>
        simp only [hv] at h
        by_cases hbh : bd.hasKey "h" = true
        · rw [if_pos hbh] at h
          rcases Option.bind_eq_some.mp h with ⟨n, hn, e⟩
          simp only [Option.pure_def, Option.some.injEq] at e
          exact Or.inr (Or.inr (Or.inr ⟨bd, n, rfl, e.symm⟩))
        · simp only [Bool.not_eq_true] at hbh
          rw [if_neg (by simp [hbh])] at h
          exact Or.inr (Or.inr (Or.inl ⟨bd, rfl, hbh, (Option.some.inj h).symm⟩))
    | .null => rw [hv] at h
               exact Or.inr (Or.inl ⟨hk, by simp [hv], (Option.some.inj h).symm⟩)
    | .bool b => rw [hv] at h
                 exact Or.inr (Or.inl ⟨hk, by simp [hv], (Option.some.inj h).symm⟩)
    | .num n => rw [hv] at h
                exact Or.inr (Or.inl ⟨hk, by simp [hv], (Option.some.inj h).symm⟩)
    | .str s => rw [hv] at h
                exact Or.inr (Or.inl ⟨hk, by simp [hv], (Option.some.inj h).symm⟩)
    | .arr xs => rw [hv] at h
                 exact Or.inr (Or.inl ⟨hk, by simp [hv], (Option.some.inj h).symm⟩)
  · simp only [Bool.not_eq_true] at hk
    rw [if_neg (by simp [hk])] at h
    exact Or.inl ⟨hk, (Option.some.inj h).symm⟩

theorem stepBarDim_frame (item c c' : JObj) (h : stepBarDim item c = some c')
    (k : String) (hk : k ≠ "barDimensions") : c'.lookup k = c.lookup k := by
  rcases stepBarDim_inv item c c' h with ⟨_, he⟩ | ⟨_, _, he⟩ | ⟨bd, _, _, he⟩ | ⟨bd, n, _, he⟩
  · rw [he]
  · rw [he]
  · rw [he]
  · rw [he]
    exact JObj.lookup_set_ne c _ k _ hk

theorem stepBarDim_id (y : JObj)
    (h : ∀ bd, y.lookup "barDimensions" = some (.obj bd) →
      ∀ hv, bd.lookup "h" = some hv → ∃ n, hv = .num n) :
    stepBarDim y y = some y := by
  unfold stepBarDim
  by_cases hk : y.hasKey "barDimensions" = true
  · rw [if_pos hk]
    rcases Option.isSome_iff_exists.mp hk with ⟨v, hv⟩
    have hjget : jget y "barDimensions" = v := by
      rw [jget, hv]
      rfl
    match v, hv, hjget with
    | .obj bd, hv, hjget =>
        simp only [hjget]
        by_cases hbh : bd.hasKey "h" = true
        · rw [if_pos hbh]
          rcases Option.isSome_iff_exists.mp hbh with ⟨w, hw⟩
          rcases h bd hv w hw with ⟨n, hn⟩
          have hjb : jget bd "h" = .num n := by
            rw [jget, hw, hn]
            rfl
          rw [hjb]
          simp only [normalize_float_field, Option.bind_eq_bind, Option.some_bind,
            Option.pure_def, Option.some.injEq]
          rw [show bd.set "h" (.num n) = bd from JObj.set_self bd "h" (.num n) (hn ▸ hw)]
          exact JObj.set_self y "barDimensions" (.obj bd) hv
        · simp only [Bool.not_eq_true] at hbh
          rw [if_neg (by simp [hbh])]
          rfl
    | .null, hv, hjget => rw [hjget]; rfl
    | .bool b, hv, hjget => rw [hjget]; rfl
    | .num n, hv, hjget => rw [hjget]; rfl
    | .str s, hv, hjget => rw [hjget]; rfl
    | .arr xs, hv, hjget => rw [hjget]; rfl
  · simp only [Bool.not_eq_true] at hk
    rw [if_neg (by simp [hk])]
    rfl

theorem stepValue_frame (item c c' : JObj) (h : stepValue item c = some c')
    (k : String) (hk : k ≠ "value") : c'.lookup k = c.lookup k :=
  alwaysSet_frame item c c' "value" (fun j => (normalize_value j).map Json.num) h k hk

theorem stepValue_invW (item c c' : JObj) (h : stepValue item c = some c') :
    ∃ v, (fun j => (normalize_value j).map Json.num) (jget item "value") = some v ∧ c' = c.set "value" v :=
  alwaysSet_inv item c c' "value" (fun j => (normalize_value j).map Json.num) h

theorem stepWeight_frame (item c c' : JObj) (h : stepWeight item c = some c')
    (k : String) (hk : k ≠ "weight") : c'.lookup k = c.lookup k :=
  alwaysSet_frame item c c' "weight" (fun j => (normalize_weight j).map Json.num) h k hk

theorem stepWeight_invW (item c c' : JObj) (h : stepWeight item c = some c') :
    ∃ v, (fun j => (normalize_weight j).map Json.num) (jget item "weight") = some v ∧ c' = c.set "weight" v :=
  alwaysSet_inv item c c' "weight" (fun j => (normalize_weight j).map Json.num) h

theorem stepRange_frame (item c c' : JObj) (h : stepRange item c = some c')
    (k : String) (hk : k ≠ "range") : c'.lookup k = c.lookup k :=
  condSet_frame item c c' "range" (fun j => (normalize_range j).map rangeObj) h k hk

theorem stepRange_cases (item c c' : JObj) (h : stepRange item c = some c') :
    (item.hasKey "range" = false ∧ c' = c) ∨
    (item.hasKey "range" = true ∧
      ∃ v, (fun j => (normalize_range j).map rangeObj) (jget item "range") = some v ∧ c' = c.set "range" v) :=
  condSet_inv item c c' "range" (fun j => (normalize_range j).map rangeObj) h

theorem stepMastery_frame (item c c' : JObj) (h : stepMastery item c = some c')
    (k : String) (hk : k ≠ "mastery") : c'.lookup k = c.lookup k :=
  condSet_frame item c c' "mastery" (fun j => (normalize_mastery j).map (fun ms : List Json => Json.arr (strList (ms.map masteryRender)))) h k hk

theorem stepMastery_cases (item c c' : JObj) (h : stepMastery item c = some c') :
    (item.hasKey "mastery" = false ∧ c' = c) ∨
    (item.hasKey "mastery" = true ∧
      ∃ v, (fun j => (normalize_mastery j).map (fun ms : List Json => Json.arr (strList (ms.map masteryRender)))) (jget item "mastery") = some v ∧ c' = c.set "mastery" v) :=
  condSet_inv item c c' "mastery" (fun j => (normalize_mastery j).map (fun ms : List Json => Json.arr (strList (ms.map masteryRender)))) h

theorem stepReprinted_frame (item c c' : JObj) (h : stepReprinted item c = some c')
    (k : String) (hk : k ≠ "reprintedAs") : c'.lookup k = c.lookup k :=
  condSet_frame item c c' "reprintedAs" (fun j => (normalize_reprinted_as j).map (fun rs => Json.arr (JList.ofList rs))) h k hk

theorem stepReprinted_cases (item c c' : JObj) (h : stepReprinted item c = some c') :
    (item.hasKey "reprintedAs" = false ∧ c' = c) ∨
    (item.hasKey "reprintedAs" = true ∧
      ∃ v, (fun j => (normalize_reprinted_as j).map (fun rs => Json.arr (JList.ofList rs))) (jget item "reprintedAs") = some v ∧ c' = c.set "reprintedAs" v) :=
  condSet_inv item c c' "reprintedAs" (fun j => (normalize_reprinted_as j).map (fun rs => Json.arr (JList.ofList rs))) h

theorem stepSrd_frame (item c c' : JObj) (h : stepSrd item c = some c')
    (k : String) (hk : k ≠ "srd") : c'.lookup k = c.lookup k :=
  condSet_frame item c c' "srd" (fun j => some (Json.bool (normalize_srd_field j))) h k hk

theorem stepSrd_cases (item c c' : JObj) (h : stepSrd item c = some c') :
    (item.hasKey "srd" = false ∧ c' = c) ∨
    (item.hasKey "srd" = true ∧
      ∃ v, (fun j => some (Json.bool (normalize_srd_field j))) (jget item "srd") = some v ∧ c' = c.set "srd" v) :=
  condSet_inv item c c' "srd" (fun j => some (Json.bool (normalize_srd_field j))) h

theorem stepSrd52_frame (item c c' : JObj) (h : stepSrd52 item c = some c')
    (k : String) (hk : k ≠ "srd52") : c'.lookup k = c.lookup k :=
  condSet_frame item c c' "srd52" (fun j => some (Json.bool (normalize_srd_field j))) h k hk

theorem stepSrd52_cases (item c c' : JObj) (h : stepSrd52 item c = some c') :
    (item.hasKey "srd52" = false ∧ c' = c) ∨
    (item.hasKey "srd52" = true ∧
      ∃ v, (fun j => some (Json.bool (normalize_srd_field j))) (jget item "srd52") = some v ∧ c' = c.set "srd52" v) :=
  condSet_inv item c c' "srd52" (fun j => some (Json.bool (normalize_srd_field j))) h

theorem stepEntries_frame (item c c' : JObj) (h : stepEntries item c = some c')
    (k : String) (hk : k ≠ "entries") : c'.lookup k = c.lookup k :=
  condSet_frame item c c' "entries" (fun j => (normalize_entries j).map (fun es => Json.arr (strList es))) h k hk

theorem stepEntries_cases (item c c' : JObj) (h : stepEntries item c = some c') :
    (item.hasKey "entries" = false ∧ c' = c) ∨
    (item.hasKey "entries" = true ∧
      ∃ v, (fun j => (normalize_entries j).map (fun es => Json.arr (strList es))) (jget item "entries") = some v ∧ c' = c.set "entries" v) :=
  condSet_inv item c c' "entries" (fun j => (normalize_entries j).map (fun es => Json.arr (strList es))) h

theorem stepPack_frame (item c c' : JObj) (h : stepPack item c = some c')
    (k : String) (hk : k ≠ "packContents") : c'.lookup k = c.lookup k :=
  condSet_frame item c c' "packContents" (fun j => (normalize_pack_contents j).map (fun pc => Json.arr (JList.ofList pc))) h k hk

theorem stepPack_cases (item c c' : JObj) (h : stepPack item c = some c') :
    (item.hasKey "packContents" = false ∧ c' = c) ∨
    (item.hasKey "packContents" = true ∧
      ∃ v, (fun j => (normalize_pack_contents j).map (fun pc => Json.arr (JList.ofList pc))) (jget item "packContents") = some v ∧ c' = c.set "packContents" v) :=
  condSet_inv item c c' "packContents" (fun j => (normalize_pack_contents j).map (fun pc => Json.arr (JList.ofList pc))) h

theorem stepStrength_frame (item c c' : JObj) (h : stepStrength item c = some c')
    (k : String) (hk : k ≠ "strength") : c'.lookup k = c.lookup k :=
  condSet_frame item c c' "strength" (fun j => some (normalize_strength j)) h k hk

theorem stepStrength_cases (item c c' : JObj) (h : stepStrength item c = some c') :
    (item.hasKey "strength" = false ∧ c' = c) ∨
    (item.hasKey "strength" = true ∧
      ∃ v, (fun j => some (normalize_strength j)) (jget item "strength") = some v ∧ c' = c.set "strength" v) :=
  condSet_inv item c c' "strength" (fun j => some (normalize_strength j)) h

theorem stepReqAttune_frame (item c c' : JObj) (h : stepReqAttune item c = some c')
    (k : String) (hk : k ≠ "reqAttune") : c'.lookup k = c.lookup k :=
  condSet_frame item c c' "reqAttune" (fun j => some (normalize_attunement j)) h k hk

theorem stepReqAttune_cases (item c c' : JObj) (h : stepReqAttune item c = some c') :
    (item.hasKey "reqAttune" = false ∧ c' = c) ∨
    (item.hasKey "reqAttune" = true ∧
      ∃ v, (fun j => some (normalize_attunement j)) (jget item "reqAttune") = some v ∧ c' = c.set "reqAttune" v) :=
  condSet_inv item c c' "reqAttune" (fun j => some (normalize_attunement j)) h

theorem stepFocus_frame (item c c' : JObj) (h : stepFocus item c = some c')
    (k : String) (hk : k ≠ "focus") : c'.lookup k = c.lookup k :=
  condSet_frame item c c' "focus" (fun j => some (Json.arr (strList (normalize_focus j)))) h k hk

theorem stepFocus_cases (item c c' : JObj) (h : stepFocus item c = some c') :
    (item.hasKey "focus" = false ∧ c' = c) ∨
    (item.hasKey "focus" = true ∧
      ∃ v, (fun j => some (Json.arr (strList (normalize_focus j)))) (jget item "focus") = some v ∧ c' = c.set "focus" v) :=
  condSet_inv item c c' "focus" (fun j => some (Json.arr (strList (normalize_focus j)))) h

theorem stepResist_frame (item c c' : JObj) (h : stepResist item c = some c')
    (k : String) (hk : k ≠ "resist") : c'.lookup k = c.lookup k :=
  condSet_frame item c c' "resist" (fun j => some (Json.arr (strList (normalize_resist j)))) h k hk

theorem stepResist_cases (item c c' : JObj) (h : stepResist item c = some c') :
    (item.hasKey "resist" = false ∧ c' = c) ∨
    (item.hasKey "resist" = true ∧
      ∃ v, (fun j => some (Json.arr (strList (normalize_resist j)))) (jget item "resist") = some v ∧ c' = c.set "resist" v) :=
  condSet_inv item c c' "resist" (fun j => some (Json.arr (strList (normalize_resist j)))) h

theorem stepRecharge_frame (item c c' : JObj) (h : stepRecharge item c = some c')
    (k : String) (hk : k ≠ "rechargeAmount") : c'.lookup k = c.lookup k :=
  condSet_frame item c c' "rechargeAmount" (fun j => some (normalize_recharge_amount j)) h k hk

theorem stepRecharge_cases (item c c' : JObj) (h : stepRecharge item c = some c') :
    (item.hasKey "rechargeAmount" = false ∧ c' = c) ∨
    (item.hasKey "rechargeAmount" = true ∧
      ∃ v, (fun j => some (normalize_recharge_amount j)) (jget item "rechargeAmount") = some v ∧ c' = c.set "rechargeAmount" v) :=
  condSet_inv item c c' "rechargeAmount" (fun j => some (normalize_recharge_amount j)) h

theorem stepCharges_frame (item c c' : JObj) (h : stepCharges item c = some c')
    (k : String) (hk : k ≠ "charges") : c'.lookup k = c.lookup k :=
  condSet_frame item c c' "charges" (fun j => some (normalize_charges j)) h k hk

theorem stepCharges_cases (item c c' : JObj) (h : stepCharges item c = some c') :
    (item.hasKey "charges" = false ∧ c' = c) ∨
    (item.hasKey "charges" = true ∧
      ∃ v, (fun j => some (normalize_charges j)) (jget item "charges") = some v ∧ c' = c.set "charges" v) :=
  condSet_inv item c c' "charges" (fun j => some (normalize_charges j)) h

theorem stepAttached_frame (item c c' : JObj) (h : stepAttached item c = some c')
    (k : String) (hk : k ≠ "attachedSpells") : c'.lookup k = c.lookup k :=
  condSet_frame item c c' "attachedSpells" (fun j => some (Json.arr (strList (normalize_attached_spells j)))) h k hk

theorem stepAttached_cases (item c c' : JObj) (h : stepAttached item c = some c') :
    (item.hasKey "attachedSpells" = false ∧ c' = c) ∨
    (item.hasKey "attachedSpells" = true ∧
      ∃ v, (fun j => some (Json.arr (strList (normalize_attached_spells j)))) (jget item "attachedSpells") = some v ∧ c' = c.set "attachedSpells" v) :=
  condSet_inv item c c' "attachedSpells" (fun j => some (Json.arr (strList (normalize_attached_spells j)))) h

theorem stepVehSpeed_frame (item c c' : JObj) (h : stepVehSpeed item c = some c')
    (k : String) (hk : k ≠ "vehSpeed") : c'.lookup k = c.lookup k :=
  condSet_frame item c c' "vehSpeed" (fun j => (normalize_float_field j).map Json.num) h k hk

theorem stepVehSpeed_cases (item c c' : JObj) (h : stepVehSpeed item c = some c') :
    (item.hasKey "vehSpeed" = false ∧ c' = c) ∨
    (item.hasKey "vehSpeed" = true ∧
      ∃ v, (fun j => (normalize_float_field j).map Json.num) (jget item "vehSpeed") = some v ∧ c' = c.set "vehSpeed" v) :=
  condSet_inv item c c' "vehSpeed" (fun j => (normalize_float_field j).map Json.num) h

theorem stepCapCargo_frame (item c c' : JObj) (h : stepCapCargo item c = some c')
    (k : String) (hk : k ≠ "capCargo") : c'.lookup k = c.lookup k :=
  condSet_frame item c c' "capCargo" (fun j => (normalize_float_field j).map Json.num) h k hk

theorem stepCapCargo_cases (item c c' : JObj) (h : stepCapCargo item c = some c') :
    (item.hasKey "capCargo" = false ∧ c' = c) ∨
    (item.hasKey "capCargo" = true ∧
      ∃ v, (fun j => (normalize_float_field j).map Json.num) (jget item "capCargo") = some v ∧ c' = c.set "capCargo" v) :=
  condSet_inv item c c' "capCargo" (fun j => (normalize_float_field j).map Json.num) h

theorem stepAddEntries_frame (item c c' : JObj) (h : stepAddEntries item c = some c')
    (k : String) (hk : k ≠ "additionalEntries") : c'.lookup k = c.lookup k :=
  condSet_frame item c c' "additionalEntries" (fun j => (normalize_entries j).map (fun es => Json.arr (strList es))) h k hk

theorem stepAddEntries_cases (item c c' : JObj) (h : stepAddEntries item c = some c') :
    (item.hasKey "additionalEntries" = false ∧ c' = c) ∨
    (item.hasKey "additionalEntries" = true ∧
      ∃ v, (fun j => (normalize_entries j).map (fun es => Json.arr (strList es))) (jget item "additionalEntries") = some v ∧ c' = c.set "additionalEntries" v) :=
  condSet_inv item c c' "additionalEntries" (fun j => (normalize_entries j).map (fun es => Json.arr (strList es))) h

theorem condSet_skip (item c c' : JObj) (key : String) (f : Json → Option Json)
    (hk : item.hasKey key = false) (h : condSet item c key f = some c') : c' = c := by
  rcases condSet_inv item c c' key f h with ⟨_, he⟩ | ⟨hk', _⟩
  · exact he
  · rw [hk] at hk'
    cases hk'

theorem JObj.hasKey_set_ne (m : JObj) (k k' : String) (v : Json) (h : k' ≠ k) :
    (m.set k v).hasKey k' = m.hasKey k' := by
  unfold JObj.hasKey
  rw [JObj.lookup_set_ne m k k' v h]

theorem JObj.del_set_comm : ∀ (m : JObj) (k c : String) (v : Json), k ≠ c →
    (m.set k v).del c = (m.del c).set k v
  | .nil, k, c, v, hkc => by
      show (JObj.cons k v .nil).del c = JObj.set .nil k v
      simp [JObj.del, JObj.set, hkc]
  | .cons k0 w0 t, k, c, v, hkc => by
      by_cases h1 : k0 = k
      · subst h1
        simp [JObj.set, JObj.del, hkc]
      · by_cases h2 : k0 = c
        · subst h2
          simp [JObj.set, JObj.del, h1]
        · simp [JObj.set, JObj.del, h1, h2, JObj.del_set_comm t k c v hkc]

theorem delCopy_set (m : JObj) (k : String) (v : Json) (hk : k ≠ "_copy")
    (h : ((m.del "_copy").hasKey "_copy") = false) :
    (((m.set k v).del "_copy").hasKey "_copy") = false := by
  rw [JObj.del_set_comm m k "_copy" v hk,
    JObj.hasKey_set_ne (m.del "_copy") k "_copy" v (Ne.symm hk)]
  exact h

theorem alwaysSet_delCopy (item c c' : JObj) (key : String) (f : Json → Option Json)
    (h : alwaysSet item c key f = some c') (hk : key ≠ "_copy")
    (hp : ((c.del "_copy").hasKey "_copy") = false) :
    ((c'.del "_copy").hasKey "_copy") = false := by
  rcases alwaysSet_inv item c c' key f h with ⟨v, _, rfl⟩
  exact delCopy_set c key v hk hp

theorem condSet_delCopy (item c c' : JObj) (key : String) (f : Json → Option Json)
    (h : condSet item c key f = some c') (hk : key ≠ "_copy")
    (hp : ((c.del "_copy").hasKey "_copy") = false) :
    ((c'.del "_copy").hasKey "_copy") = false := by
  rcases condSet_inv item c c' key f h with ⟨_, rfl⟩ | ⟨_, v, _, rfl⟩
  · exact hp
  · exact delCopy_set c key v hk hp

theorem stepValue_delCopy (item c c' : JObj) (h : stepValue item c = some c')
    (hp : ((c.del "_copy").hasKey "_copy") = false) :
    ((c'.del "_copy").hasKey "_copy") = false :=
  alwaysSet_delCopy item c c' "value" (fun j => (normalize_value j).map Json.num) h
    (by decide) hp

theorem stepWeight_delCopy (item c c' : JObj) (h : stepWeight item c = some c')
    (hp : ((c.del "_copy").hasKey "_copy") = false) :
    ((c'.del "_copy").hasKey "_copy") = false :=
  alwaysSet_delCopy item c c' "weight" (fun j => (normalize_weight j).map Json.num) h
    (by decide) hp

theorem stepProperty_delCopy (item c c' : JObj) (h : stepProperty item c = some c')
    (hp : ((c.del "_copy").hasKey "_copy") = false) :
    ((c'.del "_copy").hasKey "_copy") = false := by
  rcases stepProperty_inv item c c' h with ⟨pn, _, rfl⟩
  by_cases hn : pn.2 ≠ JObj.nil
  · rw [if_pos hn]
    exact delCopy_set _ _ _ (by decide) (delCopy_set c _ _ (by decide) hp)
  · rw [if_neg hn]
    exact delCopy_set c _ _ (by decide) hp

theorem stepRarity_delCopy (item c c' : JObj) (h : stepRarity item c = some c')
    (hp : ((c.del "_copy").hasKey "_copy") = false) :
    ((c'.del "_copy").hasKey "_copy") = false := by
  rw [stepRarity_inv item c c' h]
  by_cases hc : ¬ c.hasKey "rarity" ∨ ¬ jTruthy (jget c "rarity")
  · rw [if_pos hc]
    exact delCopy_set c _ _ (by decide) hp
  · rw [if_neg hc]
    exact hp

theorem stepType_delCopy (item c c' : JObj) (h : stepType item c = some c')
    (hp : ((c.del "_copy").hasKey "_copy") = false) :
    ((c'.del "_copy").hasKey "_copy") = false := by
  rw [stepType_inv item c c' h]
  match hl : c.lookup "type" with
  | none => simp only [hl]; exact hp
  | some (.str s) =>
      simp only [hl]
      by_cases hp2 : pyHasChar s '|' = true
      · rw [if_pos hp2]
        exact delCopy_set c _ _ (by decide) hp
      · rw [if_neg hp2]
        exact hp
  | some .null => simp only [hl]; exact hp
  | some (.bool b) => simp only [hl]; exact hp
  | some (.num n) => simp only [hl]; exact hp
  | some (.arr xs) => simp only [hl]; exact hp
  | some (.obj kvs) => simp only [hl]; exact hp

theorem stepAmmoType_delCopy (item c c' : JObj) (h : stepAmmoType item c = some c')
    (hp : ((c.del "_copy").hasKey "_copy") = false) :
    ((c'.del "_copy").hasKey "_copy") = false := by
  rw [stepAmmoType_inv item c c' h]
  match hl : c.lookup "ammoType" with
  | none => simp only [hl]; exact hp
  | some (.str s) =>
      simp only [hl]
      by_cases hp2 : pyHasChar s '|' = true
      · rw [if_pos hp2]
        exact delCopy_set c _ _ (by decide) hp
      · rw [if_neg hp2]
        exact hp
  | some .null => simp only [hl]; exact hp
  | some (.bool b) => simp only [hl]; exact hp
  | some (.num n) => simp only [hl]; exact hp
  | some (.arr xs) => simp only [hl]; exact hp
  | some (.obj kvs) => simp only [hl]; exact hp

theorem stepRange_delCopy (item c c' : JObj) (h : stepRange item c = some c')
    (hp : ((c.del "_copy").hasKey "_copy") = false) :
    ((c'.del "_copy").hasKey "_copy") = false :=
  condSet_delCopy item c c' "range" (fun j => (normalize_range j).map rangeObj) h
    (by decide) hp

theorem stepMastery_delCopy (item c c' : JObj) (h : stepMastery item c = some c')
    (hp : ((c.del "_copy").hasKey "_copy") = false) :
    ((c'.del "_copy").hasKey "_copy") = false :=
  condSet_delCopy item c c' "mastery"
    (fun j => (normalize_mastery j).map (fun ms : List Json => Json.arr (strList (ms.map masteryRender)))) h
    (by decide) hp

theorem stepReprinted_delCopy (item c c' : JObj) (h : stepReprinted item c = some c')
    (hp : ((c.del "_copy").hasKey "_copy") = false) :
    ((c'.del "_copy").hasKey "_copy") = false :=
  condSet_delCopy item c c' "reprintedAs"
    (fun j => (normalize_reprinted_as j).map (fun rs => Json.arr (JList.ofList rs))) h
    (by decide) hp

theorem stepSrd_delCopy (item c c' : JObj) (h : stepSrd item c = some c')
    (hp : ((c.del "_copy").hasKey "_copy") = false) :
    ((c'.del "_copy").hasKey "_copy") = false :=
  condSet_delCopy item c c' "srd" (fun j => some (.bool (normalize_srd_field j))) h
    (by decide) hp

theorem stepSrd52_delCopy (item c c' : JObj) (h : stepSrd52 item c = some c')
    (hp : ((c.del "_copy").hasKey "_copy") = false) :
    ((c'.del "_copy").hasKey "_copy") = false :=
  condSet_delCopy item c c' "srd52" (fun j => some (.bool (normalize_srd_field j))) h
    (by decide) hp

theorem stepEntries_delCopy (item c c' : JObj) (h : stepEntries item c = some c')
    (hp : ((c.del "_copy").hasKey "_copy") = false) :
    ((c'.del "_copy").hasKey "_copy") = false :=
  condSet_delCopy item c c' "entries"
    (fun j => (normalize_entries j).map (fun es => Json.arr (strList es))) h (by decide) hp

theorem stepPack_delCopy (item c c' : JObj) (h : stepPack item c = some c')
    (hp : ((c.del "_copy").hasKey "_copy") = false) :
    ((c'.del "_copy").hasKey "_copy") = false :=
  condSet_delCopy item c c' "packContents"
    (fun j => (normalize_pack_contents j).map (fun pc => Json.arr (JList.ofList pc))) h
    (by decide) hp

theorem stepStrength_delCopy (item c c' : JObj) (h : stepStrength item c = some c')
    (hp : ((c.del "_copy").hasKey "_copy") = false) :
    ((c'.del "_copy").hasKey "_copy") = false :=
  condSet_delCopy item c c' "strength" (fun j => some (normalize_strength j)) h
    (by decide) hp

theorem stepReqAttune_delCopy (item c c' : JObj) (h : stepReqAttune item c = some c')
    (hp : ((c.del "_copy").hasKey "_copy") = false) :
    ((c'.del "_copy").hasKey "_copy") = false :=
  condSet_delCopy item c c' "reqAttune" (fun j => some (normalize_attunement j)) h
    (by decide) hp

theorem stepFocus_delCopy (item c c' : JObj) (h : stepFocus item c = some c')
    (hp : ((c.del "_copy").hasKey "_copy") = false) :
    ((c'.del "_copy").hasKey "_copy") = false :=
  condSet_delCopy item c c' "focus" (fun j => some (.arr (strList (normalize_focus j)))) h
    (by decide) hp

theorem stepResist_delCopy (item c c' : JObj) (h : stepResist item c = some c')
    (hp : ((c.del "_copy").hasKey "_copy") = false) :
    ((c'.del "_copy").hasKey "_copy") = false :=
  condSet_delCopy item c c' "resist" (fun j => some (.arr (strList (normalize_resist j)))) h
    (by decide) hp

theorem stepRecharge_delCopy (item c c' : JObj) (h : stepRecharge item c = some c')
    (hp : ((c.del "_copy").hasKey "_copy") = false) :
    ((c'.del "_copy").hasKey "_copy") = false :=
  condSet_delCopy item c c' "rechargeAmount" (fun j => some (normalize_recharge_amount j)) h
    (by decide) hp

theorem stepCharges_delCopy (item c c' : JObj) (h : stepCharges item c = some c')
    (hp : ((c.del "_copy").hasKey "_copy") = false) :
    ((c'.del "_copy").hasKey "_copy") = false :=
  condSet_delCopy item c c' "charges" (fun j => some (normalize_charges j)) h
    (by decide) hp

theorem stepAttached_delCopy (item c c' : JObj) (h : stepAttached item c = some c')
    (hp : ((c.del "_copy").hasKey "_copy") = false) :
    ((c'.del "_copy").hasKey "_copy") = false :=
  condSet_delCopy item c c' "attachedSpells"
    (fun j => some (.arr (strList (normalize_attached_spells j)))) h (by decide) hp

theorem stepVehSpeed_delCopy (item c c' : JObj) (h : stepVehSpeed item c = some c')
    (hp : ((c.del "_copy").hasKey "_copy") = false) :
    ((c'.del "_copy").hasKey "_copy") = false :=
  condSet_delCopy item c c' "vehSpeed" (fun j => (normalize_float_field j).map Json.num) h
    (by decide) hp

theorem stepCapCargo_delCopy (item c c' : JObj) (h : stepCapCargo item c = some c')
    (hp : ((c.del "_copy").hasKey "_copy") = false) :
    ((c'.del "_copy").hasKey "_copy") = false :=
  condSet_delCopy item c c' "capCargo" (fun j => (normalize_float_field j).map Json.num) h
    (by decide) hp

theorem stepAddEntries_delCopy (item c c' : JObj) (h : stepAddEntries item c = some c')
    (hp : ((c.del "_copy").hasKey "_copy") = false) :
    ((c'.del "_copy").hasKey "_copy") = false :=
  condSet_delCopy item c c' "additionalEntries"
    (fun j => (normalize_entries j).map (fun es => Json.arr (strList es))) h (by decide) hp

theorem stepContainerCap_delCopy (item c c' : JObj) (h : stepContainerCap item c = some c')
    (hp : ((c.del "_copy").hasKey "_copy") = false) :
    ((c'.del "_copy").hasKey "_copy") = false := by
  rcases stepContainerCap_inv item c c' h with ⟨_, rfl⟩ | ⟨_, _, rfl⟩ | ⟨cap, cap2, _, rfl, _, _⟩
  · exact hp
  · exact hp
  · exact delCopy_set c _ _ (by decide) hp

theorem stepBarDim_delCopy (item c c' : JObj) (h : stepBarDim item c = some c')
    (hp : ((c.del "_copy").hasKey "_copy") = false) :
    ((c'.del "_copy").hasKey "_copy") = false := by
  rcases stepBarDim_inv item c c' h with ⟨_, rfl⟩ | ⟨_, _, rfl⟩ | ⟨bd, _, _, rfl⟩ | ⟨bd, n, _, rfl⟩
  · exact hp
  · exact hp
  · exact hp
  · exact delCopy_set c _ _ (by decide) hp

theorem lookup_of_jget_obj (m : JObj) (key : String) (kvs : JObj)
    (h : jget m key = .obj kvs) : m.lookup key = some (.obj kvs) := by
  unfold jget at h
  cases hl : m.lookup key with
  | none =>
      rw [hl] at h
      simp only [Option.getD_none] at h
      exact Json.noConfusion h
  | some w =>
      rw [hl] at h
      simp only [Option.getD_some] at h
      rw [h]

/-- Every record clean_item emits from a raw record satisfying the amended
idempotence hypotheses is canonical in the sense of CanonicalItem. -/
theorem clean_item_canonical (x y : JObj)
    (hx : clean_item x = some y)
    (hreq : x.hasKey "reqAttune" = false)
    (hrange : x.hasKey "range" = false)
    (hcopy : ((x.del "_copy").hasKey "_copy") = false)
    (hval : ∀ n, normalize_value (jget x "value") = some n → n = 0 ∨ 100 < n)
    (hrepr : ∀ l, normalize_reprinted_as (jget x "reprintedAs") = some l →
      ∀ j ∈ l, ∃ s, j = Json.str s)
    (hpru : ∀ xs, jget x "property" = .arr xs → ∀ d, Json.obj d ∈ xs.toList →
      ∃ u, jgetD d "uid" (.str "") = .str u)
    (hmaststr : ∀ xs, jget x "mastery" = .arr xs → ∀ e ∈ xs.toList, ∃ s, e = .str s) :
    CanonicalItem y := by
  rw [clean_item] at hx
  rcases Option.bind_eq_some.mp hx with ⟨c25, hx, h26⟩
  rcases Option.bind_eq_some.mp hx with ⟨c24, hx, h25⟩
  rcases Option.bind_eq_some.mp hx with ⟨c23, hx, h24⟩
  rcases Option.bind_eq_some.mp hx with ⟨c22, hx, h23⟩
  rcases Option.bind_eq_some.mp hx with ⟨c21, hx, h22⟩
  rcases Option.bind_eq_some.mp hx with ⟨c20, hx, h21⟩
  rcases Option.bind_eq_some.mp hx with ⟨c19, hx, h20⟩
  rcases Option.bind_eq_some.mp hx with ⟨c18, hx, h19⟩
  rcases Option.bind_eq_some.mp hx with ⟨c17, hx, h18⟩
  rcases Option.bind_eq_some.mp hx with ⟨c16, hx, h17⟩
  rcases Option.bind_eq_some.mp hx with ⟨c15, hx, h16⟩
  rcases Option.bind_eq_some.mp hx with ⟨c14, hx, h15⟩
  rcases Option.bind_eq_some.mp hx with ⟨c13, hx, h14⟩
  rcases Option.bind_eq_some.mp hx with ⟨c12, hx, h13⟩
  rcases Option.bind_eq_some.mp hx with ⟨c11, hx, h12⟩
  rcases Option.bind_eq_some.mp hx with ⟨c10, hx, h11⟩
  rcases Option.bind_eq_some.mp hx with ⟨c9, hx, h10⟩
  rcases Option.bind_eq_some.mp hx with ⟨c8, hx, h9⟩
  rcases Option.bind_eq_some.mp hx with ⟨c7, hx, h8⟩
  rcases Option.bind_eq_some.mp hx with ⟨c6, hx, h7⟩
  rcases Option.bind_eq_some.mp hx with ⟨c5, hx, h6⟩
  rcases Option.bind_eq_some.mp hx with ⟨c4, hx, h5⟩
  rcases Option.bind_eq_some.mp hx with ⟨c3, hx, h4⟩
  rcases Option.bind_eq_some.mp hx with ⟨c2, hx, h3⟩
  rcases Option.bind_eq_some.mp hx with ⟨c1, hx, h2⟩
  have h1 : stepValue x x = some c1 := hx
  have Fval : ∃ n, y.lookup "value" = some (.num n) ∧ (n = 0 ∨ 100 < n) := by
    rcases stepValue_invW x x c1 h1 with ⟨v, hv, he⟩
    rcases Option.map_eq_some'.mp hv with ⟨n, hn, hvn⟩
    have hy : y.lookup "value" = c1.lookup "value" := by
      rw [stepDelCopy_frame x c25 y h26 "value" (by decide),
      stepBarDim_frame x c24 c25 h25 "value" (by decide),
      stepContainerCap_frame x c23 c24 h24 "value" (by decide),
      stepAddEntries_frame x c22 c23 h23 "value" (by decide),
      stepCapCargo_frame x c21 c22 h22 "value" (by decide),
      stepVehSpeed_frame x c20 c21 h21 "value" (by decide),
      stepAttached_frame x c19 c20 h20 "value" (by decide),
      stepCharges_frame x c18 c19 h19 "value" (by decide),
      stepRecharge_frame x c17 c18 h18 "value" (by decide),
      stepResist_frame x c16 c17 h17 "value" (by decide),
      stepFocus_frame x c15 c16 h16 "value" (by decide),
      stepReqAttune_frame x c14 c15 h15 "value" (by decide),
      stepStrength_frame x c13 c14 h14 "value" (by decide),
      stepPack_frame x c12 c13 h13 "value" (by decide),
      stepEntries_frame x c11 c12 h12 "value" (by decide),
      stepSrd52_frame x c10 c11 h11 "value" (by decide),
      stepSrd_frame x c9 c10 h10 "value" (by decide),
      stepReprinted_frame x c8 c9 h9 "value" (by decide),
      stepAmmoType_frame x c7 c8 h8 "value" (by decide),
      stepType_frame x c6 c7 h7 "value" (by decide),
      stepMastery_frame x c5 c6 h6 "value" (by decide),
      stepRange_frame x c4 c5 h5 "value" (by decide),
      stepRarity_frame x c3 c4 h4 "value" (by decide),
      stepProperty_frame x c2 c3 h3 "value" (by decide) (by decide),
      stepWeight_frame x c1 c2 h2 "value" (by decide)]
    rw [hy, he, JObj.lookup_set_eq]
    exact ⟨n, by rw [← hvn], hval n hn⟩
  have Fwt : ∃ m, y.lookup "weight" = some (.num m) := by
    rcases stepWeight_invW x c1 c2 h2 with ⟨v, hv, he⟩
    rcases Option.map_eq_some'.mp hv with ⟨m, hm, hvm⟩
    have hy : y.lookup "weight" = c2.lookup "weight" := by
      rw [stepDelCopy_frame x c25 y h26 "weight" (by decide),
      stepBarDim_frame x c24 c25 h25 "weight" (by decide),
      stepContainerCap_frame x c23 c24 h24 "weight" (by decide),
      stepAddEntries_frame x c22 c23 h23 "weight" (by decide),
      stepCapCargo_frame x c21 c22 h22 "weight" (by decide),
      stepVehSpeed_frame x c20 c21 h21 "weight" (by decide),
      stepAttached_frame x c19 c20 h20 "weight" (by decide),
      stepCharges_frame x c18 c19 h19 "weight" (by decide),
      stepRecharge_frame x c17 c18 h18 "weight" (by decide),
      stepResist_frame x c16 c17 h17 "weight" (by decide),
      stepFocus_frame x c15 c16 h16 "weight" (by decide),
      stepReqAttune_frame x c14 c15 h15 "weight" (by decide),
      stepStrength_frame x c13 c14 h14 "weight" (by decide),
      stepPack_frame x c12 c13 h13 "weight" (by decide),
      stepEntries_frame x c11 c12 h12 "weight" (by decide),
      stepSrd52_frame x c10 c11 h11 "weight" (by decide),
      stepSrd_frame x c9 c10 h10 "weight" (by decide),
      stepReprinted_frame x c8 c9 h9 "weight" (by decide),
      stepAmmoType_frame x c7 c8 h8 "weight" (by decide),
      stepType_frame x c6 c7 h7 "weight" (by decide),
      stepMastery_frame x c5 c6 h6 "weight" (by decide),
      stepRange_frame x c4 c5 h5 "weight" (by decide),
      stepRarity_frame x c3 c4 h4 "weight" (by decide),
      stepProperty_frame x c2 c3 h3 "weight" (by decide) (by decide)]
    rw [hy, he, JObj.lookup_set_eq]
    exact ⟨m, by rw [← hvm]⟩
  have Fprop : ∃ ps, y.lookup "property" = some (.arr (strList ps)) := by
    rcases stepProperty_prop x c2 c3 h3 hpru with ⟨ps, hps⟩
    have hy : y.lookup "property" = c3.lookup "property" := by
      rw [stepDelCopy_frame x c25 y h26 "property" (by decide),
      stepBarDim_frame x c24 c25 h25 "property" (by decide),
      stepContainerCap_frame x c23 c24 h24 "property" (by decide),
      stepAddEntries_frame x c22 c23 h23 "property" (by decide),
      stepCapCargo_frame x c21 c22 h22 "property" (by decide),
      stepVehSpeed_frame x c20 c21 h21 "property" (by decide),
      stepAttached_frame x c19 c20 h20 "property" (by decide),
      stepCharges_frame x c18 c19 h19 "property" (by decide),
      stepRecharge_frame x c17 c18 h18 "property" (by decide),
      stepResist_frame x c16 c17 h17 "property" (by decide),
      stepFocus_frame x c15 c16 h16 "property" (by decide),
      stepReqAttune_frame x c14 c15 h15 "property" (by decide),
      stepStrength_frame x c13 c14 h14 "property" (by decide),
      stepPack_frame x c12 c13 h13 "property" (by decide),
      stepEntries_frame x c11 c12 h12 "property" (by decide),
      stepSrd52_frame x c10 c11 h11 "property" (by decide),
      stepSrd_frame x c9 c10 h10 "property" (by decide),
      stepReprinted_frame x c8 c9 h9 "property" (by decide),
      stepAmmoType_frame x c7 c8 h8 "property" (by decide),
      stepType_frame x c6 c7 h7 "property" (by decide),
      stepMastery_frame x c5 c6 h6 "property" (by decide),
      stepRange_frame x c4 c5 h5 "property" (by decide),
      stepRarity_frame x c3 c4 h4 "property" (by decide)]
    exact ⟨ps, by rw [hy, hps]⟩
  have Frar : ∃ r, y.lookup "rarity" = some r ∧ jTruthy r = true := by
    rcases stepRarity_rar x c3 c4 h4 with ⟨r, hr, htr⟩
    have hy : y.lookup "rarity" = c4.lookup "rarity" := by
      rw [stepDelCopy_frame x c25 y h26 "rarity" (by decide),
      stepBarDim_frame x c24 c25 h25 "rarity" (by decide),
      stepContainerCap_frame x c23 c24 h24 "rarity" (by decide),
      stepAddEntries_frame x c22 c23 h23 "rarity" (by decide),
      stepCapCargo_frame x c21 c22 h22 "rarity" (by decide),
      stepVehSpeed_frame x c20 c21 h21 "rarity" (by decide),
      stepAttached_frame x c19 c20 h20 "rarity" (by decide),
      stepCharges_frame x c18 c19 h19 "rarity" (by decide),
      stepRecharge_frame x c17 c18 h18 "rarity" (by decide),
      stepResist_frame x c16 c17 h17 "rarity" (by decide),
      stepFocus_frame x c15 c16 h16 "rarity" (by decide),
      stepReqAttune_frame x c14 c15 h15 "rarity" (by decide),
      stepStrength_frame x c13 c14 h14 "rarity" (by decide),
      stepPack_frame x c12 c13 h13 "rarity" (by decide),
      stepEntries_frame x c11 c12 h12 "rarity" (by decide),
      stepSrd52_frame x c10 c11 h11 "rarity" (by decide),
      stepSrd_frame x c9 c10 h10 "rarity" (by decide),
      stepReprinted_frame x c8 c9 h9 "rarity" (by decide),
      stepAmmoType_frame x c7 c8 h8 "rarity" (by decide),
      stepType_frame x c6 c7 h7 "rarity" (by decide),
      stepMastery_frame x c5 c6 h6 "rarity" (by decide),
      stepRange_frame x c4 c5 h5 "rarity" (by decide)]
    exact ⟨r, by rw [hy, hr], htr⟩
  have Freq : y.hasKey "reqAttune" = false := by
    have e15 : c15 = c14 := condSet_skip x c14 c15 "reqAttune" _ hreq h15
    rw [JObj.hasKey_eq_false_iff]
    rw [stepDelCopy_frame x c25 y h26 "reqAttune" (by decide),
      stepBarDim_frame x c24 c25 h25 "reqAttune" (by decide),
      stepContainerCap_frame x c23 c24 h24 "reqAttune" (by decide),
      stepAddEntries_frame x c22 c23 h23 "reqAttune" (by decide),
      stepCapCargo_frame x c21 c22 h22 "reqAttune" (by decide),
      stepVehSpeed_frame x c20 c21 h21 "reqAttune" (by decide),
      stepAttached_frame x c19 c20 h20 "reqAttune" (by decide),
      stepCharges_frame x c18 c19 h19 "reqAttune" (by decide),
      stepRecharge_frame x c17 c18 h18 "reqAttune" (by decide),
      stepResist_frame x c16 c17 h17 "reqAttune" (by decide),
      stepFocus_frame x c15 c16 h16 "reqAttune" (by decide)]
    rw [e15]
    rw [stepStrength_frame x c13 c14 h14 "reqAttune" (by decide),
      stepPack_frame x c12 c13 h13 "reqAttune" (by decide),
      stepEntries_frame x c11 c12 h12 "reqAttune" (by decide),
      stepSrd52_frame x c10 c11 h11 "reqAttune" (by decide),
      stepSrd_frame x c9 c10 h10 "reqAttune" (by decide),
      stepReprinted_frame x c8 c9 h9 "reqAttune" (by decide),
      stepAmmoType_frame x c7 c8 h8 "reqAttune" (by decide),
      stepType_frame x c6 c7 h7 "reqAttune" (by decide),
      stepMastery_frame x c5 c6 h6 "reqAttune" (by decide),
      stepRange_frame x c4 c5 h5 "reqAttune" (by decide),
      stepRarity_frame x c3 c4 h4 "reqAttune" (by decide),
      stepProperty_frame x c2 c3 h3 "reqAttune" (by decide) (by decide),
      stepWeight_frame x c1 c2 h2 "reqAttune" (by decide),
      stepValue_frame x x c1 h1 "reqAttune" (by decide)]
    exact (JObj.hasKey_eq_false_iff x "reqAttune").mp hreq
  have Frng : y.hasKey "range" = false := by
    have e5 : c5 = c4 := condSet_skip x c4 c5 "range" _ hrange h5
    rw [JObj.hasKey_eq_false_iff]
    rw [stepDelCopy_frame x c25 y h26 "range" (by decide),
      stepBarDim_frame x c24 c25 h25 "range" (by decide),
      stepContainerCap_frame x c23 c24 h24 "range" (by decide),
      stepAddEntries_frame x c22 c23 h23 "range" (by decide),
      stepCapCargo_frame x c21 c22 h22 "range" (by decide),
      stepVehSpeed_frame x c20 c21 h21 "range" (by decide),
      stepAttached_frame x c19 c20 h20 "range" (by decide),
      stepCharges_frame x c18 c19 h19 "range" (by decide),
      stepRecharge_frame x c17 c18 h18 "range" (by decide),
      stepResist_frame x c16 c17 h17 "range" (by decide),
      stepFocus_frame x c15 c16 h16 "range" (by decide),
      stepReqAttune_frame x c14 c15 h15 "range" (by decide),
      stepStrength_frame x c13 c14 h14 "range" (by decide),
      stepPack_frame x c12 c13 h13 "range" (by decide),
      stepEntries_frame x c11 c12 h12 "range" (by decide),
      stepSrd52_frame x c10 c11 h11 "range" (by decide),
      stepSrd_frame x c9 c10 h10 "range" (by decide),
      stepReprinted_frame x c8 c9 h9 "range" (by decide),
      stepAmmoType_frame x c7 c8 h8 "range" (by decide),
      stepType_frame x c6 c7 h7 "range" (by decide),
      stepMastery_frame x c5 c6 h6 "range" (by decide)]
    rw [e5]
    rw [stepRarity_frame x c3 c4 h4 "range" (by decide),
      stepProperty_frame x c2 c3 h3 "range" (by decide) (by decide),
      stepWeight_frame x c1 c2 h2 "range" (by decide),
      stepValue_frame x x c1 h1 "range" (by decide)]
    exact (JObj.hasKey_eq_false_iff x "range").mp hrange
  have Fcopy : y.hasKey "_copy" = false := by
    have p1 := stepValue_delCopy x x c1 h1 hcopy
    have p2 := stepWeight_delCopy x c1 c2 h2 p1
    have p3 := stepProperty_delCopy x c2 c3 h3 p2
    have p4 := stepRarity_delCopy x c3 c4 h4 p3
    have p5 := stepRange_delCopy x c4 c5 h5 p4
    have p6 := stepMastery_delCopy x c5 c6 h6 p5
    have p7 := stepType_delCopy x c6 c7 h7 p6
    have p8 := stepAmmoType_delCopy x c7 c8 h8 p7
    have p9 := stepReprinted_delCopy x c8 c9 h9 p8
    have p10 := stepSrd_delCopy x c9 c10 h10 p9
    have p11 := stepSrd52_delCopy x c10 c11 h11 p10
    have p12 := stepEntries_delCopy x c11 c12 h12 p11
    have p13 := stepPack_delCopy x c12 c13 h13 p12
    have p14 := stepStrength_delCopy x c13 c14 h14 p13
    have p15 := stepReqAttune_delCopy x c14 c15 h15 p14
    have p16 := stepFocus_delCopy x c15 c16 h16 p15
    have p17 := stepResist_delCopy x c16 c17 h17 p16
    have p18 := stepRecharge_delCopy x c17 c18 h18 p17
    have p19 := stepCharges_delCopy x c18 c19 h19 p18
    have p20 := stepAttached_delCopy x c19 c20 h20 p19
    have p21 := stepVehSpeed_delCopy x c20 c21 h21 p20
    have p22 := stepCapCargo_delCopy x c21 c22 h22 p21
    have p23 := stepAddEntries_delCopy x c22 c23 h23 p22
    have p24 := stepContainerCap_delCopy x c23 c24 h24 p23
    have p25 := stepBarDim_delCopy x c24 c25 h25 p24
    rw [stepDelCopy_inv x c25 y h26]
    by_cases hc : c25.hasKey "_copy" = true
    · rw [if_pos hc]
      exact p25
    · rw [if_neg (by simp [hc])]
      simpa using hc
  have Fmast : ∀ v, y.lookup "mastery" = some v →
      ∃ ms, v = .arr (strList ms) ∧ ∀ s ∈ ms, pyHasChar s '|' = false := by
    have hy : y.lookup "mastery" = c6.lookup "mastery" := by
      rw [stepDelCopy_frame x c25 y h26 "mastery" (by decide),
      stepBarDim_frame x c24 c25 h25 "mastery" (by decide),
      stepContainerCap_frame x c23 c24 h24 "mastery" (by decide),
      stepAddEntries_frame x c22 c23 h23 "mastery" (by decide),
      stepCapCargo_frame x c21 c22 h22 "mastery" (by decide),
      stepVehSpeed_frame x c20 c21 h21 "mastery" (by decide),
      stepAttached_frame x c19 c20 h20 "mastery" (by decide),
      stepCharges_frame x c18 c19 h19 "mastery" (by decide),
      stepRecharge_frame x c17 c18 h18 "mastery" (by decide),
      stepResist_frame x c16 c17 h17 "mastery" (by decide),
      stepFocus_frame x c15 c16 h16 "mastery" (by decide),
      stepReqAttune_frame x c14 c15 h15 "mastery" (by decide),
      stepStrength_frame x c13 c14 h14 "mastery" (by decide),
      stepPack_frame x c12 c13 h13 "mastery" (by decide),
      stepEntries_frame x c11 c12 h12 "mastery" (by decide),
      stepSrd52_frame x c10 c11 h11 "mastery" (by decide),
      stepSrd_frame x c9 c10 h10 "mastery" (by decide),
      stepReprinted_frame x c8 c9 h9 "mastery" (by decide),
      stepAmmoType_frame x c7 c8 h8 "mastery" (by decide),
      stepType_frame x c6 c7 h7 "mastery" (by decide)]
    rcases stepMastery_cases x c5 c6 h6 with ⟨hk0, he⟩ | ⟨hk0, v0, hv0, he⟩
    · have hx0 : c5.lookup "mastery" = x.lookup "mastery" := by
        rw [stepRange_frame x c4 c5 h5 "mastery" (by decide),
      stepRarity_frame x c3 c4 h4 "mastery" (by decide),
      stepProperty_frame x c2 c3 h3 "mastery" (by decide) (by decide),
      stepWeight_frame x c1 c2 h2 "mastery" (by decide),
      stepValue_frame x x c1 h1 "mastery" (by decide)]
      intro v hv
      rw [hy, he, hx0, (JObj.hasKey_eq_false_iff x "mastery").mp hk0] at hv
      cases hv
    · intro v hv
      rw [hy, he, JObj.lookup_set_eq] at hv
      have hveq := Option.some.inj hv
      rcases Option.map_eq_some'.mp hv0 with ⟨ms, hms, hv0e⟩
      rcases normalize_mastery_str_in _ ms hms hmaststr with ⟨ss, hss, hnp⟩
      refine ⟨ss, ?_, hnp⟩
      rw [← hveq, ← hv0e, hss, List.map_map, masteryRender_comp_str, List.map_id]
  have Ftyp : ∀ s, y.lookup "type" = some (.str s) → pyHasChar s '|' = false := by
    have hy : y.lookup "type" = c7.lookup "type" := by
      rw [stepDelCopy_frame x c25 y h26 "type" (by decide),
      stepBarDim_frame x c24 c25 h25 "type" (by decide),
      stepContainerCap_frame x c23 c24 h24 "type" (by decide),
      stepAddEntries_frame x c22 c23 h23 "type" (by decide),
      stepCapCargo_frame x c21 c22 h22 "type" (by decide),
      stepVehSpeed_frame x c20 c21 h21 "type" (by decide),
      stepAttached_frame x c19 c20 h20 "type" (by decide),
      stepCharges_frame x c18 c19 h19 "type" (by decide),
      stepRecharge_frame x c17 c18 h18 "type" (by decide),
      stepResist_frame x c16 c17 h17 "type" (by decide),
      stepFocus_frame x c15 c16 h16 "type" (by decide),
      stepReqAttune_frame x c14 c15 h15 "type" (by decide),
      stepStrength_frame x c13 c14 h14 "type" (by decide),
      stepPack_frame x c12 c13 h13 "type" (by decide),
      stepEntries_frame x c11 c12 h12 "type" (by decide),
      stepSrd52_frame x c10 c11 h11 "type" (by decide),
      stepSrd_frame x c9 c10 h10 "type" (by decide),
      stepReprinted_frame x c8 c9 h9 "type" (by decide),
      stepAmmoType_frame x c7 c8 h8 "type" (by decide)]
    intro s hs
    rw [hy] at hs
    exact stepType_fact x c6 c7 h7 s hs
  have Fammo : ∀ s, y.lookup "ammoType" = some (.str s) → pyHasChar s '|' = false := by
    have hy : y.lookup "ammoType" = c8.lookup "ammoType" := by
      rw [stepDelCopy_frame x c25 y h26 "ammoType" (by decide),
      stepBarDim_frame x c24 c25 h25 "ammoType" (by decide),
      stepContainerCap_frame x c23 c24 h24 "ammoType" (by decide),
      stepAddEntries_frame x c22 c23 h23 "ammoType" (by decide),
      stepCapCargo_frame x c21 c22 h22 "ammoType" (by decide),
      stepVehSpeed_frame x c20 c21 h21 "ammoType" (by decide),
      stepAttached_frame x c19 c20 h20 "ammoType" (by decide),
      stepCharges_frame x c18 c19 h19 "ammoType" (by decide),
      stepRecharge_frame x c17 c18 h18 "ammoType" (by decide),
      stepResist_frame x c16 c17 h17 "ammoType" (by decide),
      stepFocus_frame x c15 c16 h16 "ammoType" (by decide),
      stepReqAttune_frame x c14 c15 h15 "ammoType" (by decide),
      stepStrength_frame x c13 c14 h14 "ammoType" (by decide),
      stepPack_frame x c12 c13 h13 "ammoType" (by decide),
      stepEntries_frame x c11 c12 h12 "ammoType" (by decide),
      stepSrd52_frame x c10 c11 h11 "ammoType" (by decide),
      stepSrd_frame x c9 c10 h10 "ammoType" (by decide),
      stepReprinted_frame x c8 c9 h9 "ammoType" (by decide)]
    intro s hs
    rw [hy] at hs
    exact stepAmmoType_fact x c7 c8 h8 s hs
  have Frepr : ∀ v, y.lookup "reprintedAs" = some v → ∃ ss, v = .arr (strList ss) := by
    have hy : y.lookup "reprintedAs" = c9.lookup "reprintedAs" := by
      rw [stepDelCopy_frame x c25 y h26 "reprintedAs" (by decide),
      stepBarDim_frame x c24 c25 h25 "reprintedAs" (by decide),
      stepContainerCap_frame x c23 c24 h24 "reprintedAs" (by decide),
      stepAddEntries_frame x c22 c23 h23 "reprintedAs" (by decide),
      stepCapCargo_frame x c21 c22 h22 "reprintedAs" (by decide),
      stepVehSpeed_frame x c20 c21 h21 "reprintedAs" (by decide),
      stepAttached_frame x c19 c20 h20 "reprintedAs" (by decide),
      stepCharges_frame x c18 c19 h19 "reprintedAs" (by decide),
      stepRecharge_frame x c17 c18 h18 "reprintedAs" (by decide),
      stepResist_frame x c16 c17 h17 "reprintedAs" (by decide),
      stepFocus_frame x c15 c16 h16 "reprintedAs" (by decide),
      stepReqAttune_frame x c14 c15 h15 "reprintedAs" (by decide),
      stepStrength_frame x c13 c14 h14 "reprintedAs" (by decide),
      stepPack_frame x c12 c13 h13 "reprintedAs" (by decide),
      stepEntries_frame x c11 c12 h12 "reprintedAs" (by decide),
      stepSrd52_frame x c10 c11 h11 "reprintedAs" (by decide),
      stepSrd_frame x c9 c10 h10 "reprintedAs" (by decide)]
    rcases stepReprinted_cases x c8 c9 h9 with ⟨hk0, he⟩ | ⟨hk0, v0, hv0, he⟩
    · have hx0 : c8.lookup "reprintedAs" = x.lookup "reprintedAs" := by
        rw [stepAmmoType_frame x c7 c8 h8 "reprintedAs" (by decide),
      stepType_frame x c6 c7 h7 "reprintedAs" (by decide),
      stepMastery_frame x c5 c6 h6 "reprintedAs" (by decide),
      stepRange_frame x c4 c5 h5 "reprintedAs" (by decide),
      stepRarity_frame x c3 c4 h4 "reprintedAs" (by decide),
      stepProperty_frame x c2 c3 h3 "reprintedAs" (by decide) (by decide),
      stepWeight_frame x c1 c2 h2 "reprintedAs" (by decide),
      stepValue_frame x x c1 h1 "reprintedAs" (by decide)]
      intro v hv
      rw [hy, he, hx0, (JObj.hasKey_eq_false_iff x "reprintedAs").mp hk0] at hv
      cases hv
    · intro v hv
      rw [hy, he, JObj.lookup_set_eq] at hv
      have hveq := Option.some.inj hv
      rcases Option.map_eq_some'.mp hv0 with ⟨rs, hrs, hv0e⟩
      rcases all_str_exists_map rs (hrepr rs hrs) with ⟨ss, hss⟩
      refine ⟨ss, ?_⟩
      rw [← hveq, ← hv0e, hss]
      rfl
  have Fsrd : ∀ v, y.lookup "srd" = some v → ∃ b, v = .bool b := by
    have hy : y.lookup "srd" = c10.lookup "srd" := by
      rw [stepDelCopy_frame x c25 y h26 "srd" (by decide),
      stepBarDim_frame x c24 c25 h25 "srd" (by decide),
      stepContainerCap_frame x c23 c24 h24 "srd" (by decide),
      stepAddEntries_frame x c22 c23 h23 "srd" (by decide),
      stepCapCargo_frame x c21 c22 h22 "srd" (by decide),
      stepVehSpeed_frame x c20 c21 h21 "srd" (by decide),
      stepAttached_frame x c19 c20 h20 "srd" (by decide),
      stepCharges_frame x c18 c19 h19 "srd" (by decide),
      stepRecharge_frame x c17 c18 h18 "srd" (by decide),
      stepResist_frame x c16 c17 h17 "srd" (by decide),
      stepFocus_frame x c15 c16 h16 "srd" (by decide),
      stepReqAttune_frame x c14 c15 h15 "srd" (by decide),
      stepStrength_frame x c13 c14 h14 "srd" (by decide),
      stepPack_frame x c12 c13 h13 "srd" (by decide),
      stepEntries_frame x c11 c12 h12 "srd" (by decide),
      stepSrd52_frame x c10 c11 h11 "srd" (by decide)]
    rcases stepSrd_cases x c9 c10 h10 with ⟨hk0, he⟩ | ⟨hk0, v0, hv0, he⟩
    · have hx0 : c9.lookup "srd" = x.lookup "srd" := by
        rw [stepReprinted_frame x c8 c9 h9 "srd" (by decide),
      stepAmmoType_frame x c7 c8 h8 "srd" (by decide),
      stepType_frame x c6 c7 h7 "srd" (by decide),
      stepMastery_frame x c5 c6 h6 "srd" (by decide),
      stepRange_frame x c4 c5 h5 "srd" (by decide),
      stepRarity_frame x c3 c4 h4 "srd" (by decide),
      stepProperty_frame x c2 c3 h3 "srd" (by decide) (by decide),
      stepWeight_frame x c1 c2 h2 "srd" (by decide),
      stepValue_frame x x c1 h1 "srd" (by decide)]
      intro v hv
      rw [hy, he, hx0, (JObj.hasKey_eq_false_iff x "srd").mp hk0] at hv
      cases hv
    · intro v hv
      rw [hy, he, JObj.lookup_set_eq] at hv
      have hveq := Option.some.inj hv
      have hb := Option.some.inj hv0
      exact ⟨_, by rw [← hveq, ← hb]⟩
  have Fsrd52 : ∀ v, y.lookup "srd52" = some v → ∃ b, v = .bool b := by
    have hy : y.lookup "srd52" = c11.lookup "srd52" := by
      rw [stepDelCopy_frame x c25 y h26 "srd52" (by decide),
      stepBarDim_frame x c24 c25 h25 "srd52" (by decide),
      stepContainerCap_frame x c23 c24 h24 "srd52" (by decide),
      stepAddEntries_frame x c22 c23 h23 "srd52" (by decide),
      stepCapCargo_frame x c21 c22 h22 "srd52" (by decide),
      stepVehSpeed_frame x c20 c21 h21 "srd52" (by decide),
      stepAttached_frame x c19 c20 h20 "srd52" (by decide),
      stepCharges_frame x c18 c19 h19 "srd52" (by decide),
      stepRecharge_frame x c17 c18 h18 "srd52" (by decide),
      stepResist_frame x c16 c17 h17 "srd52" (by decide),
      stepFocus_frame x c15 c16 h16 "srd52" (by decide),
      stepReqAttune_frame x c14 c15 h15 "srd52" (by decide),
      stepStrength_frame x c13 c14 h14 "srd52" (by decide),
      stepPack_frame x c12 c13 h13 "srd52" (by decide),
      stepEntries_frame x c11 c12 h12 "srd52" (by decide)]
    rcases stepSrd52_cases x c10 c11 h11 with ⟨hk0, he⟩ | ⟨hk0, v0, hv0, he⟩
    · have hx0 : c10.lookup "srd52" = x.lookup "srd52" := by
        rw [stepSrd_frame x c9 c10 h10 "srd52" (by decide),
      stepReprinted_frame x c8 c9 h9 "srd52" (by decide),
      stepAmmoType_frame x c7 c8 h8 "srd52" (by decide),
      stepType_frame x c6 c7 h7 "srd52" (by decide),
      stepMastery_frame x c5 c6 h6 "srd52" (by decide),
      stepRange_frame x c4 c5 h5 "srd52" (by decide),
      stepRarity_frame x c3 c4 h4 "srd52" (by decide),
      stepProperty_frame x c2 c3 h3 "srd52" (by decide) (by decide),
      stepWeight_frame x c1 c2 h2 "srd52" (by decide),
      stepValue_frame x x c1 h1 "srd52" (by decide)]
      intro v hv
      rw [hy, he, hx0, (JObj.hasKey_eq_false_iff x "srd52").mp hk0] at hv
      cases hv
    · intro v hv
      rw [hy, he, JObj.lookup_set_eq] at hv
      have hveq := Option.some.inj hv
      have hb := Option.some.inj hv0
      exact ⟨_, by rw [← hveq, ← hb]⟩
  have Fent : ∀ v, y.lookup "entries" = some v → ∃ es, v = .arr (strList es) := by
    have hy : y.lookup "entries" = c12.lookup "entries" := by
      rw [stepDelCopy_frame x c25 y h26 "entries" (by decide),
      stepBarDim_frame x c24 c25 h25 "entries" (by decide),
      stepContainerCap_frame x c23 c24 h24 "entries" (by decide),
      stepAddEntries_frame x c22 c23 h23 "entries" (by decide),
      stepCapCargo_frame x c21 c22 h22 "entries" (by decide),
      stepVehSpeed_frame x c20 c21 h21 "entries" (by decide),
      stepAttached_frame x c19 c20 h20 "entries" (by decide),
      stepCharges_frame x c18 c19 h19 "entries" (by decide),
      stepRecharge_frame x c17 c18 h18 "entries" (by decide),
      stepResist_frame x c16 c17 h17 "entries" (by decide),
      stepFocus_frame x c15 c16 h16 "entries" (by decide),
      stepReqAttune_frame x c14 c15 h15 "entries" (by decide),
      stepStrength_frame x c13 c14 h14 "entries" (by decide),
      stepPack_frame x c12 c13 h13 "entries" (by decide)]
    rcases stepEntries_cases x c11 c12 h12 with ⟨hk0, he⟩ | ⟨hk0, v0, hv0, he⟩
    · have hx0 : c11.lookup "entries" = x.lookup "entries" := by
        rw [stepSrd52_frame x c10 c11 h11 "entries" (by decide),
      stepSrd_frame x c9 c10 h10 "entries" (by decide),
      stepReprinted_frame x c8 c9 h9 "entries" (by decide),
      stepAmmoType_frame x c7 c8 h8 "entries" (by decide),
      stepType_frame x c6 c7 h7 "entries" (by decide),
      stepMastery_frame x c5 c6 h6 "entries" (by decide),
      stepRange_frame x c4 c5 h5 "entries" (by decide),
      stepRarity_frame x c3 c4 h4 "entries" (by decide),
      stepProperty_frame x c2 c3 h3 "entries" (by decide) (by decide),
      stepWeight_frame x c1 c2 h2 "entries" (by decide),
      stepValue_frame x x c1 h1 "entries" (by decide)]
      intro v hv
      rw [hy, he, hx0, (JObj.hasKey_eq_false_iff x "entries").mp hk0] at hv
      cases hv
    · intro v hv
      rw [hy, he, JObj.lookup_set_eq] at hv
      have hveq := Option.some.inj hv
      rcases Option.map_eq_some'.mp hv0 with ⟨es, hes, hv0e⟩
      exact ⟨es, by rw [← hveq, ← hv0e]⟩
  have Faddent : ∀ v, y.lookup "additionalEntries" = some v → ∃ es, v = .arr (strList es) := by
    have hy : y.lookup "additionalEntries" = c23.lookup "additionalEntries" := by
      rw [stepDelCopy_frame x c25 y h26 "additionalEntries" (by decide),
      stepBarDim_frame x c24 c25 h25 "additionalEntries" (by decide),
      stepContainerCap_frame x c23 c24 h24 "additionalEntries" (by decide)]
    rcases stepAddEntries_cases x c22 c23 h23 with ⟨hk0, he⟩ | ⟨hk0, v0, hv0, he⟩
    · have hx0 : c22.lookup "additionalEntries" = x.lookup "additionalEntries" := by
        rw [stepCapCargo_frame x c21 c22 h22 "additionalEntries" (by decide),
      stepVehSpeed_frame x c20 c21 h21 "additionalEntries" (by decide),
      stepAttached_frame x c19 c20 h20 "additionalEntries" (by decide),
      stepCharges_frame x c18 c19 h19 "additionalEntries" (by decide),
      stepRecharge_frame x c17 c18 h18 "additionalEntries" (by decide),
      stepResist_frame x c16 c17 h17 "additionalEntries" (by decide),
      stepFocus_frame x c15 c16 h16 "additionalEntries" (by decide),
      stepReqAttune_frame x c14 c15 h15 "additionalEntries" (by decide),
      stepStrength_frame x c13 c14 h14 "additionalEntries" (by decide),
      stepPack_frame x c12 c13 h13 "additionalEntries" (by decide),
      stepEntries_frame x c11 c12 h12 "additionalEntries" (by decide),
      stepSrd52_frame x c10 c11 h11 "additionalEntries" (by decide),
      stepSrd_frame x c9 c10 h10 "additionalEntries" (by decide),
      stepReprinted_frame x c8 c9 h9 "additionalEntries" (by decide),
      stepAmmoType_frame x c7 c8 h8 "additionalEntries" (by decide),
      stepType_frame x c6 c7 h7 "additionalEntries" (by decide),
      stepMastery_frame x c5 c6 h6 "additionalEntries" (by decide),
      stepRange_frame x c4 c5 h5 "additionalEntries" (by decide),
      stepRarity_frame x c3 c4 h4 "additionalEntries" (by decide),
      stepProperty_frame x c2 c3 h3 "additionalEntries" (by decide) (by decide),
      stepWeight_frame x c1 c2 h2 "additionalEntries" (by decide),
      stepValue_frame x x c1 h1 "additionalEntries" (by decide)]
      intro v hv
      rw [hy, he, hx0, (JObj.hasKey_eq_false_iff x "additionalEntries").mp hk0] at hv
      cases hv
    · intro v hv
      rw [hy, he, JObj.lookup_set_eq] at hv
      have hveq := Option.some.inj hv
      rcases Option.map_eq_some'.mp hv0 with ⟨es, hes, hv0e⟩
      exact ⟨es, by rw [← hveq, ← hv0e]⟩
  have Fpack : ∀ v, y.lookup "packContents" = some v →
      ∃ l, v = .arr (JList.ofList l) ∧
        ∀ j ∈ l, ∃ iv qv, j = .obj (.cons "item" iv (.cons "quantity" qv .nil)) := by
    have hy : y.lookup "packContents" = c13.lookup "packContents" := by
      rw [stepDelCopy_frame x c25 y h26 "packContents" (by decide),
      stepBarDim_frame x c24 c25 h25 "packContents" (by decide),
      stepContainerCap_frame x c23 c24 h24 "packContents" (by decide),
      stepAddEntries_frame x c22 c23 h23 "packContents" (by decide),
      stepCapCargo_frame x c21 c22 h22 "packContents" (by decide),
      stepVehSpeed_frame x c20 c21 h21 "packContents" (by decide),
      stepAttached_frame x c19 c20 h20 "packContents" (by decide),
      stepCharges_frame x c18 c19 h19 "packContents" (by decide),
      stepRecharge_frame x c17 c18 h18 "packContents" (by decide),
      stepResist_frame x c16 c17 h17 "packContents" (by decide),
      stepFocus_frame x c15 c16 h16 "packContents" (by decide),
      stepReqAttune_frame x c14 c15 h15 "packContents" (by decide),
      stepStrength_frame x c13 c14 h14 "packContents" (by decide)]
    rcases stepPack_cases x c12 c13 h13 with ⟨hk0, he⟩ | ⟨hk0, v0, hv0, he⟩
    · have hx0 : c12.lookup "packContents" = x.lookup "packContents" := by
        rw [stepEntries_frame x c11 c12 h12 "packContents" (by decide),
      stepSrd52_frame x c10 c11 h11 "packContents" (by decide),
      stepSrd_frame x c9 c10 h10 "packContents" (by decide),
      stepReprinted_frame x c8 c9 h9 "packContents" (by decide),
      stepAmmoType_frame x c7 c8 h8 "packContents" (by decide),
      stepType_frame x c6 c7 h7 "packContents" (by decide),
      stepMastery_frame x c5 c6 h6 "packContents" (by decide),
      stepRange_frame x c4 c5 h5 "packContents" (by decide),
      stepRarity_frame x c3 c4 h4 "packContents" (by decide),
      stepProperty_frame x c2 c3 h3 "packContents" (by decide) (by decide),
      stepWeight_frame x c1 c2 h2 "packContents" (by decide),
      stepValue_frame x x c1 h1 "packContents" (by decide)]
      intro v hv
      rw [hy, he, hx0, (JObj.hasKey_eq_false_iff x "packContents").mp hk0] at hv
      cases hv
    · intro v hv
      rw [hy, he, JObj.lookup_set_eq] at hv
      have hveq := Option.some.inj hv
      rcases Option.map_eq_some'.mp hv0 with ⟨pc, hpc, hv0e⟩
      exact ⟨pc, by rw [← hveq, ← hv0e], normalize_pack_shape _ pc hpc⟩
  have Fstrg : ∀ v, y.lookup "strength" = some v → (∃ n, v = .num n) ∨ (∃ b, v = .bool b) := by
    have hy : y.lookup "strength" = c14.lookup "strength" := by
      rw [stepDelCopy_frame x c25 y h26 "strength" (by decide),
      stepBarDim_frame x c24 c25 h25 "strength" (by decide),
      stepContainerCap_frame x c23 c24 h24 "strength" (by decide),
      stepAddEntries_frame x c22 c23 h23 "strength" (by decide),
      stepCapCargo_frame x c21 c22 h22 "strength" (by decide),
      stepVehSpeed_frame x c20 c21 h21 "strength" (by decide),
      stepAttached_frame x c19 c20 h20 "strength" (by decide),
      stepCharges_frame x c18 c19 h19 "strength" (by decide),
      stepRecharge_frame x c17 c18 h18 "strength" (by decide),
      stepResist_frame x c16 c17 h17 "strength" (by decide),
      stepFocus_frame x c15 c16 h16 "strength" (by decide),
      stepReqAttune_frame x c14 c15 h15 "strength" (by decide)]
    rcases stepStrength_cases x c13 c14 h14 with ⟨hk0, he⟩ | ⟨hk0, v0, hv0, he⟩
    · have hx0 : c13.lookup "strength" = x.lookup "strength" := by
        rw [stepPack_frame x c12 c13 h13 "strength" (by decide),
      stepEntries_frame x c11 c12 h12 "strength" (by decide),
      stepSrd52_frame x c10 c11 h11 "strength" (by decide),
      stepSrd_frame x c9 c10 h10 "strength" (by decide),
      stepReprinted_frame x c8 c9 h9 "strength" (by decide),
      stepAmmoType_frame x c7 c8 h8 "strength" (by decide),
      stepType_frame x c6 c7 h7 "strength" (by decide),
      stepMastery_frame x c5 c6 h6 "strength" (by decide),
      stepRange_frame x c4 c5 h5 "strength" (by decide),
      stepRarity_frame x c3 c4 h4 "strength" (by decide),
      stepProperty_frame x c2 c3 h3 "strength" (by decide) (by decide),
      stepWeight_frame x c1 c2 h2 "strength" (by decide),
      stepValue_frame x x c1 h1 "strength" (by decide)]
      intro v hv
      rw [hy, he, hx0, (JObj.hasKey_eq_false_iff x "strength").mp hk0] at hv
      cases hv
    · intro v hv
      rw [hy, he, JObj.lookup_set_eq] at hv
      have hveq := Option.some.inj hv
      have hb := Option.some.inj hv0
      rcases normalize_strength_shape (jget x _) with ⟨n, hn⟩ | ⟨b, hb2⟩
      · exact Or.inl ⟨n, by rw [← hveq, ← hb, hn]⟩
      · exact Or.inr ⟨b, by rw [← hveq, ← hb, hb2]⟩
  have Frech : ∀ v, y.lookup "rechargeAmount" = some v → (∃ n, v = .num n) ∨ (∃ b, v = .bool b) := by
    have hy : y.lookup "rechargeAmount" = c18.lookup "rechargeAmount" := by
      rw [stepDelCopy_frame x c25 y h26 "rechargeAmount" (by decide),
      stepBarDim_frame x c24 c25 h25 "rechargeAmount" (by decide),
      stepContainerCap_frame x c23 c24 h24 "rechargeAmount" (by decide),
      stepAddEntries_frame x c22 c23 h23 "rechargeAmount" (by decide),
      stepCapCargo_frame x c21 c22 h22 "rechargeAmount" (by decide),
      stepVehSpeed_frame x c20 c21 h21 "rechargeAmount" (by decide),
      stepAttached_frame x c19 c20 h20 "rechargeAmount" (by decide),
      stepCharges_frame x c18 c19 h19 "rechargeAmount" (by decide)]
    rcases stepRecharge_cases x c17 c18 h18 with ⟨hk0, he⟩ | ⟨hk0, v0, hv0, he⟩
    · have hx0 : c17.lookup "rechargeAmount" = x.lookup "rechargeAmount" := by
        rw [stepResist_frame x c16 c17 h17 "rechargeAmount" (by decide),
      stepFocus_frame x c15 c16 h16 "rechargeAmount" (by decide),
      stepReqAttune_frame x c14 c15 h15 "rechargeAmount" (by decide),
      stepStrength_frame x c13 c14 h14 "rechargeAmount" (by decide),
      stepPack_frame x c12 c13 h13 "rechargeAmount" (by decide),
      stepEntries_frame x c11 c12 h12 "rechargeAmount" (by decide),
      stepSrd52_frame x c10 c11 h11 "rechargeAmount" (by decide),
      stepSrd_frame x c9 c10 h10 "rechargeAmount" (by decide),
      stepReprinted_frame x c8 c9 h9 "rechargeAmount" (by decide),
      stepAmmoType_frame x c7 c8 h8 "rechargeAmount" (by decide),
      stepType_frame x c6 c7 h7 "rechargeAmount" (by decide),
      stepMastery_frame x c5 c6 h6 "rechargeAmount" (by decide),
      stepRange_frame x c4 c5 h5 "rechargeAmount" (by decide),
      stepRarity_frame x c3 c4 h4 "rechargeAmount" (by decide),
      stepProperty_frame x c2 c3 h3 "rechargeAmount" (by decide) (by decide),
      stepWeight_frame x c1 c2 h2 "rechargeAmount" (by decide),
      stepValue_frame x x c1 h1 "rechargeAmount" (by decide)]
      intro v hv
      rw [hy, he, hx0, (JObj.hasKey_eq_false_iff x "rechargeAmount").mp hk0] at hv
      cases hv
    · intro v hv
      rw [hy, he, JObj.lookup_set_eq] at hv
      have hveq := Option.some.inj hv
      have hb := Option.some.inj hv0
      rcases normalize_recharge_shape (jget x _) with ⟨n, hn⟩ | ⟨b, hb2⟩
      · exact Or.inl ⟨n, by rw [← hveq, ← hb, hn]⟩
      · exact Or.inr ⟨b, by rw [← hveq, ← hb, hb2]⟩
  have Fchg : ∀ v, y.lookup "charges" = some v → (∃ n, v = .num n) ∨ (∃ b, v = .bool b) := by
    have hy : y.lookup "charges" = c19.lookup "charges" := by
      rw [stepDelCopy_frame x c25 y h26 "charges" (by decide),
      stepBarDim_frame x c24 c25 h25 "charges" (by decide),
      stepContainerCap_frame x c23 c24 h24 "charges" (by decide),
      stepAddEntries_frame x c22 c23 h23 "charges" (by decide),
      stepCapCargo_frame x c21 c22 h22 "charges" (by decide),
      stepVehSpeed_frame x c20 c21 h21 "charges" (by decide),
      stepAttached_frame x c19 c20 h20 "charges" (by decide)]
    rcases stepCharges_cases x c18 c19 h19 with ⟨hk0, he⟩ | ⟨hk0, v0, hv0, he⟩
    · have hx0 : c18.lookup "charges" = x.lookup "charges" := by
        rw [stepRecharge_frame x c17 c18 h18 "charges" (by decide),
      stepResist_frame x c16 c17 h17 "charges" (by decide),
      stepFocus_frame x c15 c16 h16 "charges" (by decide),
      stepReqAttune_frame x c14 c15 h15 "charges" (by decide),
      stepStrength_frame x c13 c14 h14 "charges" (by decide),
      stepPack_frame x c12 c13 h13 "charges" (by decide),
      stepEntries_frame x c11 c12 h12 "charges" (by decide),
      stepSrd52_frame x c10 c11 h11 "charges" (by decide),
      stepSrd_frame x c9 c10 h10 "charges" (by decide),
      stepReprinted_frame x c8 c9 h9 "charges" (by decide),
      stepAmmoType_frame x c7 c8 h8 "charges" (by decide),
      stepType_frame x c6 c7 h7 "charges" (by decide),
      stepMastery_frame x c5 c6 h6 "charges" (by decide),
      stepRange_frame x c4 c5 h5 "charges" (by decide),
      stepRarity_frame x c3 c4 h4 "charges" (by decide),
      stepProperty_frame x c2 c3 h3 "charges" (by decide) (by decide),
      stepWeight_frame x c1 c2 h2 "charges" (by decide),
      stepValue_frame x x c1 h1 "charges" (by decide)]
      intro v hv
      rw [hy, he, hx0, (JObj.hasKey_eq_false_iff x "charges").mp hk0] at hv
      cases hv
    · intro v hv
      rw [hy, he, JObj.lookup_set_eq] at hv
      have hveq := Option.some.inj hv
      have hb := Option.some.inj hv0
      rcases normalize_charges_shape (jget x _) with ⟨n, hn⟩ | ⟨b, hb2⟩
      · exact Or.inl ⟨n, by rw [← hveq, ← hb, hn]⟩
      · exact Or.inr ⟨b, by rw [← hveq, ← hb, hb2]⟩
  have Ffoc : ∀ v, y.lookup "focus" = some v → ∃ ss, v = .arr (strList ss) := by
    have hy : y.lookup "focus" = c16.lookup "focus" := by
      rw [stepDelCopy_frame x c25 y h26 "focus" (by decide),
      stepBarDim_frame x c24 c25 h25 "focus" (by decide),
      stepContainerCap_frame x c23 c24 h24 "focus" (by decide),
      stepAddEntries_frame x c22 c23 h23 "focus" (by decide),
      stepCapCargo_frame x c21 c22 h22 "focus" (by decide),
      stepVehSpeed_frame x c20 c21 h21 "focus" (by decide),
      stepAttached_frame x c19 c20 h20 "focus" (by decide),
      stepCharges_frame x c18 c19 h19 "focus" (by decide),
      stepRecharge_frame x c17 c18 h18 "focus" (by decide),
      stepResist_frame x c16 c17 h17 "focus" (by decide)]
    rcases stepFocus_cases x c15 c16 h16 with ⟨hk0, he⟩ | ⟨hk0, v0, hv0, he⟩
    · have hx0 : c15.lookup "focus" = x.lookup "focus" := by
        rw [stepReqAttune_frame x c14 c15 h15 "focus" (by decide),
      stepStrength_frame x c13 c14 h14 "focus" (by decide),
      stepPack_frame x c12 c13 h13 "focus" (by decide),
      stepEntries_frame x c11 c12 h12 "focus" (by decide),
      stepSrd52_frame x c10 c11 h11 "focus" (by decide),
      stepSrd_frame x c9 c10 h10 "focus" (by decide),
      stepReprinted_frame x c8 c9 h9 "focus" (by decide),
      stepAmmoType_frame x c7 c8 h8 "focus" (by decide),
      stepType_frame x c6 c7 h7 "focus" (by decide),
      stepMastery_frame x c5 c6 h6 "focus" (by decide),
      stepRange_frame x c4 c5 h5 "focus" (by decide),
      stepRarity_frame x c3 c4 h4 "focus" (by decide),
      stepProperty_frame x c2 c3 h3 "focus" (by decide) (by decide),
      stepWeight_frame x c1 c2 h2 "focus" (by decide),
      stepValue_frame x x c1 h1 "focus" (by decide)]
      intro v hv
      rw [hy, he, hx0, (JObj.hasKey_eq_false_iff x "focus").mp hk0] at hv
      cases hv
    · intro v hv
      rw [hy, he, JObj.lookup_set_eq] at hv
      have hveq := Option.some.inj hv
      have hb := Option.some.inj hv0
      exact ⟨_, by rw [← hveq, ← hb]⟩
  have Fres : ∀ v, y.lookup "resist" = some v → ∃ ss, v = .arr (strList ss) := by
    have hy : y.lookup "resist" = c17.lookup "resist" := by
      rw [stepDelCopy_frame x c25 y h26 "resist" (by decide),
      stepBarDim_frame x c24 c25 h25 "resist" (by decide),
      stepContainerCap_frame x c23 c24 h24 "resist" (by decide),
      stepAddEntries_frame x c22 c23 h23 "resist" (by decide),
      stepCapCargo_frame x c21 c22 h22 "resist" (by decide),
      stepVehSpeed_frame x c20 c21 h21 "resist" (by decide),
      stepAttached_frame x c19 c20 h20 "resist" (by decide),
      stepCharges_frame x c18 c19 h19 "resist" (by decide),
      stepRecharge_frame x c17 c18 h18 "resist" (by decide)]
    rcases stepResist_cases x c16 c17 h17 with ⟨hk0, he⟩ | ⟨hk0, v0, hv0, he⟩
    · have hx0 : c16.lookup "resist" = x.lookup "resist" := by
        rw [stepFocus_frame x c15 c16 h16 "resist" (by decide),
      stepReqAttune_frame x c14 c15 h15 "resist" (by decide),
      stepStrength_frame x c13 c14 h14 "resist" (by decide),
      stepPack_frame x c12 c13 h13 "resist" (by decide),
      stepEntries_frame x c11 c12 h12 "resist" (by decide),
      stepSrd52_frame x c10 c11 h11 "resist" (by decide),
      stepSrd_frame x c9 c10 h10 "resist" (by decide),
      stepReprinted_frame x c8 c9 h9 "resist" (by decide),
      stepAmmoType_frame x c7 c8 h8 "resist" (by decide),
      stepType_frame x c6 c7 h7 "resist" (by decide),
      stepMastery_frame x c5 c6 h6 "resist" (by decide),
      stepRange_frame x c4 c5 h5 "resist" (by decide),
      stepRarity_frame x c3 c4 h4 "resist" (by decide),
      stepProperty_frame x c2 c3 h3 "resist" (by decide) (by decide),
      stepWeight_frame x c1 c2 h2 "resist" (by decide),
      stepValue_frame x x c1 h1 "resist" (by decide)]
      intro v hv
      rw [hy, he, hx0, (JObj.hasKey_eq_false_iff x "resist").mp hk0] at hv
      cases hv
    · intro v hv
      rw [hy, he, JObj.lookup_set_eq] at hv
      have hveq := Option.some.inj hv
      have hb := Option.some.inj hv0
      exact ⟨_, by rw [← hveq, ← hb]⟩
  have Fatt : ∀ v, y.lookup "attachedSpells" = some v → ∃ ss, v = .arr (strList ss) := by
    have hy : y.lookup "attachedSpells" = c20.lookup "attachedSpells" := by
      rw [stepDelCopy_frame x c25 y h26 "attachedSpells" (by decide),
      stepBarDim_frame x c24 c25 h25 "attachedSpells" (by decide),
      stepContainerCap_frame x c23 c24 h24 "attachedSpells" (by decide),
      stepAddEntries_frame x c22 c23 h23 "attachedSpells" (by decide),
      stepCapCargo_frame x c21 c22 h22 "attachedSpells" (by decide),
      stepVehSpeed_frame x c20 c21 h21 "attachedSpells" (by decide)]
    rcases stepAttached_cases x c19 c20 h20 with ⟨hk0, he⟩ | ⟨hk0, v0, hv0, he⟩
    · have hx0 : c19.lookup "attachedSpells" = x.lookup "attachedSpells" := by
        rw [stepCharges_frame x c18 c19 h19 "attachedSpells" (by decide),
      stepRecharge_frame x c17 c18 h18 "attachedSpells" (by decide),
      stepResist_frame x c16 c17 h17 "attachedSpells" (by decide),
      stepFocus_frame x c15 c16 h16 "attachedSpells" (by decide),
      stepReqAttune_frame x c14 c15 h15 "attachedSpells" (by decide),
      stepStrength_frame x c13 c14 h14 "attachedSpells" (by decide),
      stepPack_frame x c12 c13 h13 "attachedSpells" (by decide),
      stepEntries_frame x c11 c12 h12 "attachedSpells" (by decide),
      stepSrd52_frame x c10 c11 h11 "attachedSpells" (by decide),
      stepSrd_frame x c9 c10 h10 "attachedSpells" (by decide),
      stepReprinted_frame x c8 c9 h9 "attachedSpells" (by decide),
      stepAmmoType_frame x c7 c8 h8 "attachedSpells" (by decide),
      stepType_frame x c6 c7 h7 "attachedSpells" (by decide),
      stepMastery_frame x c5 c6 h6 "attachedSpells" (by decide),
      stepRange_frame x c4 c5 h5 "attachedSpells" (by decide),
      stepRarity_frame x c3 c4 h4 "attachedSpells" (by decide),
      stepProperty_frame x c2 c3 h3 "attachedSpells" (by decide) (by decide),
      stepWeight_frame x c1 c2 h2 "attachedSpells" (by decide),
      stepValue_frame x x c1 h1 "attachedSpells" (by decide)]
      intro v hv
      rw [hy, he, hx0, (JObj.hasKey_eq_false_iff x "attachedSpells").mp hk0] at hv
      cases hv
    · intro v hv
      rw [hy, he, JObj.lookup_set_eq] at hv
      have hveq := Option.some.inj hv
      have hb := Option.some.inj hv0
      exact ⟨_, by rw [← hveq, ← hb]⟩
  have Fveh : ∀ v, y.lookup "vehSpeed" = some v → ∃ n, v = .num n := by
    have hy : y.lookup "vehSpeed" = c21.lookup "vehSpeed" := by
      rw [stepDelCopy_frame x c25 y h26 "vehSpeed" (by decide),
      stepBarDim_frame x c24 c25 h25 "vehSpeed" (by decide),
      stepContainerCap_frame x c23 c24 h24 "vehSpeed" (by decide),
      stepAddEntries_frame x c22 c23 h23 "vehSpeed" (by decide),
      stepCapCargo_frame x c21 c22 h22 "vehSpeed" (by decide)]
    rcases stepVehSpeed_cases x c20 c21 h21 with ⟨hk0, he⟩ | ⟨hk0, v0, hv0, he⟩
    · have hx0 : c20.lookup "vehSpeed" = x.lookup "vehSpeed" := by
        rw [stepAttached_frame x c19 c20 h20 "vehSpeed" (by decide),
      stepCharges_frame x c18 c19 h19 "vehSpeed" (by decide),
      stepRecharge_frame x c17 c18 h18 "vehSpeed" (by decide),
      stepResist_frame x c16 c17 h17 "vehSpeed" (by decide),
      stepFocus_frame x c15 c16 h16 "vehSpeed" (by decide),
      stepReqAttune_frame x c14 c15 h15 "vehSpeed" (by decide),
      stepStrength_frame x c13 c14 h14 "vehSpeed" (by decide),
      stepPack_frame x c12 c13 h13 "vehSpeed" (by decide),
      stepEntries_frame x c11 c12 h12 "vehSpeed" (by decide),
      stepSrd52_frame x c10 c11 h11 "vehSpeed" (by decide),
      stepSrd_frame x c9 c10 h10 "vehSpeed" (by decide),
      stepReprinted_frame x c8 c9 h9 "vehSpeed" (by decide),
      stepAmmoType_frame x c7 c8 h8 "vehSpeed" (by decide),
      stepType_frame x c6 c7 h7 "vehSpeed" (by decide),
      stepMastery_frame x c5 c6 h6 "vehSpeed" (by decide),
      stepRange_frame x c4 c5 h5 "vehSpeed" (by decide),
      stepRarity_frame x c3 c4 h4 "vehSpeed" (by decide),
      stepProperty_frame x c2 c3 h3 "vehSpeed" (by decide) (by decide),
      stepWeight_frame x c1 c2 h2 "vehSpeed" (by decide),
      stepValue_frame x x c1 h1 "vehSpeed" (by decide)]
      intro v hv
      rw [hy, he, hx0, (JObj.hasKey_eq_false_iff x "vehSpeed").mp hk0] at hv
      cases hv
    · intro v hv
      rw [hy, he, JObj.lookup_set_eq] at hv
      have hveq := Option.some.inj hv
      rcases Option.map_eq_some'.mp hv0 with ⟨n, hn, hv0e⟩
      exact ⟨n, by rw [← hveq, ← hv0e]⟩
  have Fcargo : ∀ v, y.lookup "capCargo" = some v → ∃ n, v = .num n := by
    have hy : y.lookup "capCargo" = c22.lookup "capCargo" := by
      rw [stepDelCopy_frame x c25 y h26 "capCargo" (by decide),
      stepBarDim_frame x c24 c25 h25 "capCargo" (by decide),
      stepContainerCap_frame x c23 c24 h24 "capCargo" (by decide),
      stepAddEntries_frame x c22 c23 h23 "capCargo" (by decide)]
    rcases stepCapCargo_cases x c21 c22 h22 with ⟨hk0, he⟩ | ⟨hk0, v0, hv0, he⟩
    · have hx0 : c21.lookup "capCargo" = x.lookup "capCargo" := by
        rw [stepVehSpeed_frame x c20 c21 h21 "capCargo" (by decide),
      stepAttached_frame x c19 c20 h20 "capCargo" (by decide),
      stepCharges_frame x c18 c19 h19 "capCargo" (by decide),
      stepRecharge_frame x c17 c18 h18 "capCargo" (by decide),
      stepResist_frame x c16 c17 h17 "capCargo" (by decide),
      stepFocus_frame x c15 c16 h16 "capCargo" (by decide),
      stepReqAttune_frame x c14 c15 h15 "capCargo" (by decide),
      stepStrength_frame x c13 c14 h14 "capCargo" (by decide),
      stepPack_frame x c12 c13 h13 "capCargo" (by decide),
      stepEntries_frame x c11 c12 h12 "capCargo" (by decide),
      stepSrd52_frame x c10 c11 h11 "capCargo" (by decide),
      stepSrd_frame x c9 c10 h10 "capCargo" (by decide),
      stepReprinted_frame x c8 c9 h9 "capCargo" (by decide),
      stepAmmoType_frame x c7 c8 h8 "capCargo" (by decide),
      stepType_frame x c6 c7 h7 "capCargo" (by decide),
      stepMastery_frame x c5 c6 h6 "capCargo" (by decide),
      stepRange_frame x c4 c5 h5 "capCargo" (by decide),
      stepRarity_frame x c3 c4 h4 "capCargo" (by decide),
      stepProperty_frame x c2 c3 h3 "capCargo" (by decide) (by decide),
      stepWeight_frame x c1 c2 h2 "capCargo" (by decide),
      stepValue_frame x x c1 h1 "capCargo" (by decide)]
      intro v hv
      rw [hy, he, hx0, (JObj.hasKey_eq_false_iff x "capCargo").mp hk0] at hv
      cases hv
    · intro v hv
      rw [hy, he, JObj.lookup_set_eq] at hv
      have hveq := Option.some.inj hv
      rcases Option.map_eq_some'.mp hv0 with ⟨n, hn, hv0e⟩
      exact ⟨n, by rw [← hveq, ← hv0e]⟩
  have Fccap : ∀ cap, y.lookup "containerCapacity" = some (.obj cap) →
      (∀ w, cap.lookup "weight" = some w →
        ∃ ns : List Int, w = .arr (JList.ofList (ns.map Json.num))) ∧
      (∀ w, cap.lookup "volume" = some w →
        ∃ ns : List Int, w = .arr (JList.ofList (ns.map Json.num))) := by
    have hy : y.lookup "containerCapacity" = c24.lookup "containerCapacity" := by
      rw [stepDelCopy_frame x c25 y h26 "containerCapacity" (by decide),
      stepBarDim_frame x c24 c25 h25 "containerCapacity" (by decide)]
    rcases stepContainerCap_inv x c23 c24 h24 with ⟨hk0, he⟩ | ⟨hk0, hno, he⟩ | ⟨cap0, cap2, hj, he, hwf, hvf⟩
    · have hx0 : c23.lookup "containerCapacity" = x.lookup "containerCapacity" := by
        rw [stepAddEntries_frame x c22 c23 h23 "containerCapacity" (by decide),
      stepCapCargo_frame x c21 c22 h22 "containerCapacity" (by decide),
      stepVehSpeed_frame x c20 c21 h21 "containerCapacity" (by decide),
      stepAttached_frame x c19 c20 h20 "containerCapacity" (by decide),
      stepCharges_frame x c18 c19 h19 "containerCapacity" (by decide),
      stepRecharge_frame x c17 c18 h18 "containerCapacity" (by decide),
      stepResist_frame x c16 c17 h17 "containerCapacity" (by decide),
      stepFocus_frame x c15 c16 h16 "containerCapacity" (by decide),
      stepReqAttune_frame x c14 c15 h15 "containerCapacity" (by decide),
      stepStrength_frame x c13 c14 h14 "containerCapacity" (by decide),
      stepPack_frame x c12 c13 h13 "containerCapacity" (by decide),
      stepEntries_frame x c11 c12 h12 "containerCapacity" (by decide),
      stepSrd52_frame x c10 c11 h11 "containerCapacity" (by decide),
      stepSrd_frame x c9 c10 h10 "containerCapacity" (by decide),
      stepReprinted_frame x c8 c9 h9 "containerCapacity" (by decide),
      stepAmmoType_frame x c7 c8 h8 "containerCapacity" (by decide),
      stepType_frame x c6 c7 h7 "containerCapacity" (by decide),
      stepMastery_frame x c5 c6 h6 "containerCapacity" (by decide),
      stepRange_frame x c4 c5 h5 "containerCapacity" (by decide),
      stepRarity_frame x c3 c4 h4 "containerCapacity" (by decide),
      stepProperty_frame x c2 c3 h3 "containerCapacity" (by decide) (by decide),
      stepWeight_frame x c1 c2 h2 "containerCapacity" (by decide),
      stepValue_frame x x c1 h1 "containerCapacity" (by decide)]
      intro cap hcap
      rw [hy, he, hx0, (JObj.hasKey_eq_false_iff x "containerCapacity").mp hk0] at hcap
      cases hcap
    · have hx0 : c23.lookup "containerCapacity" = x.lookup "containerCapacity" := by
        rw [stepAddEntries_frame x c22 c23 h23 "containerCapacity" (by decide),
      stepCapCargo_frame x c21 c22 h22 "containerCapacity" (by decide),
      stepVehSpeed_frame x c20 c21 h21 "containerCapacity" (by decide),
      stepAttached_frame x c19 c20 h20 "containerCapacity" (by decide),
      stepCharges_frame x c18 c19 h19 "containerCapacity" (by decide),
      stepRecharge_frame x c17 c18 h18 "containerCapacity" (by decide),
      stepResist_frame x c16 c17 h17 "containerCapacity" (by decide),
      stepFocus_frame x c15 c16 h16 "containerCapacity" (by decide),
      stepReqAttune_frame x c14 c15 h15 "containerCapacity" (by decide),
      stepStrength_frame x c13 c14 h14 "containerCapacity" (by decide),
      stepPack_frame x c12 c13 h13 "containerCapacity" (by decide),
      stepEntries_frame x c11 c12 h12 "containerCapacity" (by decide),
      stepSrd52_frame x c10 c11 h11 "containerCapacity" (by decide),
      stepSrd_frame x c9 c10 h10 "containerCapacity" (by decide),
      stepReprinted_frame x c8 c9 h9 "containerCapacity" (by decide),
      stepAmmoType_frame x c7 c8 h8 "containerCapacity" (by decide),
      stepType_frame x c6 c7 h7 "containerCapacity" (by decide),
      stepMastery_frame x c5 c6 h6 "containerCapacity" (by decide),
      stepRange_frame x c4 c5 h5 "containerCapacity" (by decide),
      stepRarity_frame x c3 c4 h4 "containerCapacity" (by decide),
      stepProperty_frame x c2 c3 h3 "containerCapacity" (by decide) (by decide),
      stepWeight_frame x c1 c2 h2 "containerCapacity" (by decide),
      stepValue_frame x x c1 h1 "containerCapacity" (by decide)]
      intro cap hcap
      rw [hy, he, hx0] at hcap
      have hj2 : jget x "containerCapacity" = .obj cap := by
        rw [jget, hcap]
        rfl
      exact absurd hj2 (hno cap)
    · intro cap hcap
      rw [hy, he, JObj.lookup_set_eq] at hcap
      have hc : cap2 = cap := Json.obj.inj (Option.some.inj hcap)
      rw [← hc]
      exact ⟨hwf, hvf⟩
  have Fbar : ∀ bd, y.lookup "barDimensions" = some (.obj bd) →
      ∀ hv, bd.lookup "h" = some hv → ∃ n, hv = .num n := by
    have hy : y.lookup "barDimensions" = c25.lookup "barDimensions" := by
      rw [stepDelCopy_frame x c25 y h26 "barDimensions" (by decide)]
    rcases stepBarDim_inv x c24 c25 h25 with ⟨hk0, he⟩ | ⟨hk0, hno, he⟩ | ⟨bd0, hj, hnbh, he⟩ | ⟨bd0, n, hj, he⟩
    · have hx0 : c24.lookup "barDimensions" = x.lookup "barDimensions" := by
        rw [stepContainerCap_frame x c23 c24 h24 "barDimensions" (by decide),
      stepAddEntries_frame x c22 c23 h23 "barDimensions" (by decide),
      stepCapCargo_frame x c21 c22 h22 "barDimensions" (by decide),
      stepVehSpeed_frame x c20 c21 h21 "barDimensions" (by decide),
      stepAttached_frame x c19 c20 h20 "barDimensions" (by decide),
      stepCharges_frame x c18 c19 h19 "barDimensions" (by decide),
      stepRecharge_frame x c17 c18 h18 "barDimensions" (by decide),
      stepResist_frame x c16 c17 h17 "barDimensions" (by decide),
      stepFocus_frame x c15 c16 h16 "barDimensions" (by decide),
      stepReqAttune_frame x c14 c15 h15 "barDimensions" (by decide),
      stepStrength_frame x c13 c14 h14 "barDimensions" (by decide),
      stepPack_frame x c12 c13 h13 "barDimensions" (by decide),
      stepEntries_frame x c11 c12 h12 "barDimensions" (by decide),
      stepSrd52_frame x c10 c11 h11 "barDimensions" (by decide),
      stepSrd_frame x c9 c10 h10 "barDimensions" (by decide),
      stepReprinted_frame x c8 c9 h9 "barDimensions" (by decide),
      stepAmmoType_frame x c7 c8 h8 "barDimensions" (by decide),
      stepType_frame x c6 c7 h7 "barDimensions" (by decide),
      stepMastery_frame x c5 c6 h6 "barDimensions" (by decide),
      stepRange_frame x c4 c5 h5 "barDimensions" (by decide),
      stepRarity_frame x c3 c4 h4 "barDimensions" (by decide),
      stepProperty_frame x c2 c3 h3 "barDimensions" (by decide) (by decide),
      stepWeight_frame x c1 c2 h2 "barDimensions" (by decide),
      stepValue_frame x x c1 h1 "barDimensions" (by decide)]
      intro bd hbd
      rw [hy, he, hx0, (JObj.hasKey_eq_false_iff x "barDimensions").mp hk0] at hbd
      cases hbd
    · have hx0 : c24.lookup "barDimensions" = x.lookup "barDimensions" := by
        rw [stepContainerCap_frame x c23 c24 h24 "barDimensions" (by decide),
      stepAddEntries_frame x c22 c23 h23 "barDimensions" (by decide),
      stepCapCargo_frame x c21 c22 h22 "barDimensions" (by decide),
      stepVehSpeed_frame x c20 c21 h21 "barDimensions" (by decide),
      stepAttached_frame x c19 c20 h20 "barDimensions" (by decide),
      stepCharges_frame x c18 c19 h19 "barDimensions" (by decide),
      stepRecharge_frame x c17 c18 h18 "barDimensions" (by decide),
      stepResist_frame x c16 c17 h17 "barDimensions" (by decide),
      stepFocus_frame x c15 c16 h16 "barDimensions" (by decide),
      stepReqAttune_frame x c14 c15 h15 "barDimensions" (by decide),
      stepStrength_frame x c13 c14 h14 "barDimensions" (by decide),
      stepPack_frame x c12 c13 h13 "barDimensions" (by decide),
      stepEntries_frame x c11 c12 h12 "barDimensions" (by decide),
      stepSrd52_frame x c10 c11 h11 "barDimensions" (by decide),
      stepSrd_frame x c9 c10 h10 "barDimensions" (by decide),
      stepReprinted_frame x c8 c9 h9 "barDimensions" (by decide),
      stepAmmoType_frame x c7 c8 h8 "barDimensions" (by decide),
      stepType_frame x c6 c7 h7 "barDimensions" (by decide),
      stepMastery_frame x c5 c6 h6 "barDimensions" (by decide),
      stepRange_frame x c4 c5 h5 "barDimensions" (by decide),
      stepRarity_frame x c3 c4 h4 "barDimensions" (by decide),
      stepProperty_frame x c2 c3 h3 "barDimensions" (by decide) (by decide),
      stepWeight_frame x c1 c2 h2 "barDimensions" (by decide),
      stepValue_frame x x c1 h1 "barDimensions" (by decide)]
      intro bd hbd
      rw [hy, he, hx0] at hbd
      have hj2 : jget x "barDimensions" = .obj bd := by
        rw [jget, hbd]
        rfl
      exact absurd hj2 (hno bd)
    · have hx0 : c24.lookup "barDimensions" = x.lookup "barDimensions" := by
        rw [stepContainerCap_frame x c23 c24 h24 "barDimensions" (by decide),
      stepAddEntries_frame x c22 c23 h23 "barDimensions" (by decide),
      stepCapCargo_frame x c21 c22 h22 "barDimensions" (by decide),
      stepVehSpeed_frame x c20 c21 h21 "barDimensions" (by decide),
      stepAttached_frame x c19 c20 h20 "barDimensions" (by decide),
      stepCharges_frame x c18 c19 h19 "barDimensions" (by decide),
      stepRecharge_frame x c17 c18 h18 "barDimensions" (by decide),
      stepResist_frame x c16 c17 h17 "barDimensions" (by decide),
      stepFocus_frame x c15 c16 h16 "barDimensions" (by decide),
      stepReqAttune_frame x c14 c15 h15 "barDimensions" (by decide),
      stepStrength_frame x c13 c14 h14 "barDimensions" (by decide),
      stepPack_frame x c12 c13 h13 "barDimensions" (by decide),
      stepEntries_frame x c11 c12 h12 "barDimensions" (by decide),
      stepSrd52_frame x c10 c11 h11 "barDimensions" (by decide),
      stepSrd_frame x c9 c10 h10 "barDimensions" (by decide),
      stepReprinted_frame x c8 c9 h9 "barDimensions" (by decide),
      stepAmmoType_frame x c7 c8 h8 "barDimensions" (by decide),
      stepType_frame x c6 c7 h7 "barDimensions" (by decide),
      stepMastery_frame x c5 c6 h6 "barDimensions" (by decide),
      stepRange_frame x c4 c5 h5 "barDimensions" (by decide),
      stepRarity_frame x c3 c4 h4 "barDimensions" (by decide),
      stepProperty_frame x c2 c3 h3 "barDimensions" (by decide) (by decide),
      stepWeight_frame x c1 c2 h2 "barDimensions" (by decide),
      stepValue_frame x x c1 h1 "barDimensions" (by decide)]
      have hlx := lookup_of_jget_obj x "barDimensions" bd0 hj
      intro bd hbd
      rw [hy, he, hx0, hlx] at hbd
      have hc : bd0 = bd := Json.obj.inj (Option.some.inj hbd)
      intro hv hvh
      rw [← hc, (JObj.hasKey_eq_false_iff bd0 "h").mp hnbh] at hvh
      cases hvh
    · intro bd hbd
      rw [hy, he, JObj.lookup_set_eq] at hbd
      have hc : bd0.set "h" (.num n) = bd := Json.obj.inj (Option.some.inj hbd)
      intro hv hvh
      rw [← hc, JObj.lookup_set_eq] at hvh
      exact ⟨n, (Option.some.inj hvh).symm⟩
  exact ⟨Fval, Fwt, Fprop, Frar, Freq, Frng, Fcopy, Fmast, Ftyp, Fammo, Frepr,
    Fsrd, Fsrd52, Fent, Faddent, Fpack, Fstrg, Frech, Fchg, Ffoc, Fres, Fatt,
    Fveh, Fcargo, Fccap, Fbar⟩

/-- A canonical record is a fixed point of clean_item: the second pass
rewrites every field to the value it already has. -/
theorem canonical_clean_item_id (y : JObj) (hc : CanonicalItem y) :
    clean_item y = some y := by
  obtain ⟨⟨n, hval, hfix⟩, ⟨m, hwt⟩, ⟨ps, hprop⟩, ⟨r, hrar, htr⟩, hreq, hrng, hcopy,
    hmast, htyp, hammo, hrepr, hsrd, hsrd52, hent, haddent, hpack, hstrg, hrech,
    hchg, hfoc, hres, hatt, hveh, hcargo, hccap, hbar⟩ := hc
  have s1 : stepValue y y = some y :=
    alwaysSet_id y "value" _ (.num n) hval (by
      show (normalize_value (.num n)).map Json.num = some (.num n)
      rw [normalize_value_num_fix n hfix]
      rfl)
  have s2 : stepWeight y y = some y :=
    alwaysSet_id y "weight" _ (.num m) hwt rfl
  have s3 : stepProperty y y = some y := stepProperty_id y ps hprop
  have s4 : stepRarity y y = some y := stepRarity_id y r hrar htr
  have s5 : stepRange y y = some y :=
    condSet_id y "range" _ (by
      intro v hv
      rw [(JObj.hasKey_eq_false_iff y "range").mp hrng] at hv
      cases hv)
  have s6 : stepMastery y y = some y :=
    condSet_id y "mastery" _ (by
      intro v hv
      rcases hmast v hv with ⟨ms, rfl, hnp⟩
      show (normalize_mastery (.arr (strList ms))).map _ = _
      rw [normalize_mastery_strs ms hnp]
      simp only [Option.map_some', List.map_map, masteryRender_comp_str, List.map_id])
  have s7 : stepType y y = some y := stepType_id y htyp
  have s8 : stepAmmoType y y = some y := stepAmmoType_id y hammo
  have s9 : stepReprinted y y = some y :=
    condSet_id y "reprintedAs" _ (by
      intro v hv
      rcases hrepr v hv with ⟨ss, rfl⟩
      show (normalize_reprinted_as (.arr (strList ss))).map _ = _
      rw [normalize_reprinted_strs ss]
      rfl)
  have s10 : stepSrd y y = some y :=
    condSet_id y "srd" _ (by
      intro v hv
      rcases hsrd v hv with ⟨b, rfl⟩
      rfl)
  have s11 : stepSrd52 y y = some y :=
    condSet_id y "srd52" _ (by
      intro v hv
      rcases hsrd52 v hv with ⟨b, rfl⟩
      rfl)
  have s12 : stepEntries y y = some y :=
    condSet_id y "entries" _ (by
      intro v hv
      rcases hent v hv with ⟨es, rfl⟩
      show (normalize_entries (.arr (strList es))).map _ = _
      rw [normalize_entries_strs es]
      rfl)
  have s13 : stepPack y y = some y :=
    condSet_id y "packContents" _ (by
      intro v hv
      rcases hpack v hv with ⟨l, rfl, hshape⟩
      show (normalize_pack_contents (.arr (JList.ofList l))).map _ = _
      rw [normalize_pack_objs l hshape]
      rfl)
  have s14 : stepStrength y y = some y :=
    condSet_id y "strength" _ (by
      intro v hv
      exact congrArg some (normalize_strength_stable v (hstrg v hv)))
  have s15 : stepReqAttune y y = some y :=
    condSet_id y "reqAttune" _ (by
      intro v hv
      rw [(JObj.hasKey_eq_false_iff y "reqAttune").mp hreq] at hv
      cases hv)
  have s16 : stepFocus y y = some y :=
    condSet_id y "focus" _ (by
      intro v hv
      rcases hfoc v hv with ⟨ss, rfl⟩
      show some (Json.arr (strList (normalize_focus (.arr (strList ss))))) = _
      rw [normalize_focus_strs ss])
  have s17 : stepResist y y = some y :=
    condSet_id y "resist" _ (by
      intro v hv
      rcases hres v hv with ⟨ss, rfl⟩
      show some (Json.arr (strList (normalize_resist (.arr (strList ss))))) = _
      rw [normalize_resist_strs ss])
  have s18 : stepRecharge y y = some y :=
    condSet_id y "rechargeAmount" _ (by
      intro v hv
      exact congrArg some (normalize_recharge_stable v (hrech v hv)))
  have s19 : stepCharges y y = some y :=
    condSet_id y "charges" _ (by
      intro v hv
      exact congrArg some (normalize_charges_stable v (hchg v hv)))
  have s20 : stepAttached y y = some y :=
    condSet_id y "attachedSpells" _ (by
      intro v hv
      rcases hatt v hv with ⟨ss, rfl⟩
      show some (Json.arr (strList (normalize_attached_spells (.arr (strList ss))))) = _
      rw [normalize_attached_strs ss])
  have s21 : stepVehSpeed y y = some y :=
    condSet_id y "vehSpeed" _ (by
      intro v hv
      rcases hveh v hv with ⟨k, rfl⟩
      rfl)
  have s22 : stepCapCargo y y = some y :=
    condSet_id y "capCargo" _ (by
      intro v hv
      rcases hcargo v hv with ⟨k, rfl⟩
      rfl)
  have s23 : stepAddEntries y y = some y :=
    condSet_id y "additionalEntries" _ (by
      intro v hv
      rcases haddent v hv with ⟨es, rfl⟩
      show (normalize_entries (.arr (strList es))).map _ = _
      rw [normalize_entries_strs es]
      rfl)
  have s24 : stepContainerCap y y = some y := stepContainerCap_id y hccap
  have s25 : stepBarDim y y = some y := stepBarDim_id y hbar
  have s26 : stepDelCopy y y = some y := stepDelCopy_id y hcopy
  rw [clean_item]
  simp only [s1, s2, s3, s4, s5, s6, s7, s8, s9, s10, s11, s12, s13, s14, s15,
    s16, s17, s18, s19, s20, s21, s22, s23, s24, s25, s26,
    Option.bind_eq_bind, Option.some_bind]

set_option maxHeartbeats 2000000 in
/-- C1: the idempotence claim fails on the code: re-cleaning the cleaned
form of a record carrying reqAttune = true flips required to false, because
normalize_attunement maps its own dict output to the unrecognised-shape
default. The record differs in a field value, not merely in ordering. -/
theorem C1_canonicalization_not_idempotent :
    (clean_item reqAttuneItem >>= clean_item) ≠ clean_item reqAttuneItem ∧
    (clean_item reqAttuneItem).map (fun y => jget y "reqAttune") =
      some (.obj (.cons "required" (.bool true) (.cons "description" (.str "") .nil))) ∧
    (clean_item reqAttuneItem >>= clean_item).map (fun y => jget y "reqAttune") =
      some (.obj (.cons "required" (.bool false) (.cons "description" (.str "") .nil))) := by
  decide

/-- C1 amended: clean_item is idempotent on every raw record that succeeds
and carries no reqAttune and no range field, holds at most one _copy entry,
whose value canonicalizes to 0 or to more than 100, whose reprintedAs
entries all normalize to strings, whose property dict entries carry a string
(or absent) uid, and whose mastery entries are plain strings; the excluded
regions are exactly where a second pass re-applies a shape heuristic to an
already-canonical value (reqAttune, range, small values) or where a raw
list or dict survives into the cleaned field and the second pass drops or
re-renders it (non-string property uids, non-string mastery entries). -/
theorem C1_clean_item_idempotent_amended (x y : JObj)
    (hx : clean_item x = some y)
    (hreq : x.hasKey "reqAttune" = false)
    (hrange : x.hasKey "range" = false)
    (hcopy : ((x.del "_copy").hasKey "_copy") = false)
    (hval : ∀ n, normalize_value (jget x "value") = some n → n = 0 ∨ 100 < n)
    (hrepr : ∀ l, normalize_reprinted_as (jget x "reprintedAs") = some l →
      ∀ j ∈ l, ∃ s, j = Json.str s)
    (hpru : ∀ xs, jget x "property" = .arr xs → ∀ d, Json.obj d ∈ xs.toList →
      ∃ u, jgetD d "uid" (.str "") = .str u)
    (hmaststr : ∀ xs, jget x "mastery" = .arr xs → ∀ e ∈ xs.toList, ∃ s, e = .str s) :
    clean_item y = some y :=
  canonical_clean_item_id y
    (clean_item_canonical x y hx hreq hrange hcopy hval hrepr hpru hmaststr)

set_option maxHeartbeats 2000000 in
/-- Witness for the amended C1 theorem at the specification's end-to-end
example item. -/
theorem C1_clean_item_idempotent_amended_witness :
    clean_item daggerItem = some daggerCleaned ∧
    clean_item daggerCleaned = some daggerCleaned := by
  refine ⟨by decide, ?_⟩
  refine C1_clean_item_idempotent_amended daggerItem daggerCleaned (by decide)
    (by decide) (by decide) (by decide) ?_ ?_ ?_ ?_
  · intro n hn
    rw [show normalize_value (jget daggerItem "value") = some 500 from by decide] at hn
    have h5 := Option.some.inj hn
    right
    rw [← h5]
    decide
  · intro l hl j hj
    rw [show normalize_reprinted_as (jget daggerItem "reprintedAs") = some [] from by decide] at hl
    have h0 := Option.some.inj hl
    rw [← h0] at hj
    cases hj
  · intro xs hxs d hd
    rw [show jget daggerItem "property" = Json.arr (JList.cons (Json.str "F")
        (JList.cons (Json.obj (JObj.cons "uid" (Json.str "T|XPHB")
          (JObj.cons "note" (Json.str "thrown") JObj.nil))) JList.nil)) from by decide] at hxs
    injection hxs with hxs
    subst hxs
    simp only [JList.toList, List.mem_cons, List.not_mem_nil, or_false] at hd
    rcases hd with hd | hd
    · exact Json.noConfusion hd
    · injection hd with hd
      subst hd
      exact ⟨"T|XPHB", by decide⟩
  · intro xs hxs
    rw [show jget daggerItem "mastery" = Json.null from by decide] at hxs
    exact Json.noConfusion hxs

/-- C2: monetary canonicalization: the mapping \x7b"gp": 5\x7d gives 500, bare 5
gives 500, bare 150 stays 150; every bare integer above 100 is kept and every
other bare integer is multiplied by 100; every mapping with integer coin
entries sums to cp + 10 sp + 100 gp + 1000 pp; null gives 0. -/
theorem C2_money_canonicalization :
    normalize_value (.obj (.cons "gp" (.num 5) .nil)) = some 500 ∧
    normalize_value (.num 5) = some 500 ∧
    normalize_value (.num 150) = some 150 ∧
    (∀ n : Int, normalize_value (.num n) = some (if 100 < n then n else n * 100)) ∧
    (∀ kvs : JObj,
      (∀ c ∈ ["cp", "sp", "gp", "pp"],
        kvs.lookup c = none ∨ ∃ k : Int, kvs.lookup c = some (.num k)) →
      normalize_value (.obj kvs) =
        some (specCoin kvs "cp" + 10 * specCoin kvs "sp" + 100 * specCoin kvs "gp" +
          1000 * specCoin kvs "pp")) ∧
    normalize_value Json.null = some 0 := by
  refine ⟨by decide, by decide, by decide, fun n => rfl, ?_, by decide⟩
  intro kvs h
  have hc : ∀ c, (kvs.lookup c = none ∨ ∃ k : Int, kvs.lookup c = some (.num k)) →
      jgetD kvs c (.num 0) = .num (specCoin kvs c) := by
    intro c hcase
    rcases hcase with hnone | ⟨k, hk⟩
    · simp [specCoin, jgetD, hnone]
    · simp [specCoin, jgetD, hk]
  show (Option.bind (pyMulJson (jgetD kvs "sp" (.num 0)) 10) _) = _
  rw [hc "cp" (h "cp" (by simp)), hc "sp" (h "sp" (by simp)),
    hc "gp" (h "gp" (by simp)), hc "pp" (h "pp" (by simp))]
  simp only [pyMulJson, pyAddJson, pyIntCast, Option.some_bind, Option.bind_eq_bind,
    Option.some.injEq]
  push_cast
  ring

/-- Witness for the mapping clause of C2 at \x7b"sp": 10, "cp": 5\x7d. -/
theorem C2_money_canonicalization_witness :
    normalize_value (.obj (.cons "sp" (.num 10) (.cons "cp" (.num 5) .nil))) = some 105 := by
  have h := C2_money_canonicalization.2.2.2.2.1
    (.cons "sp" (.num 10) (.cons "cp" (.num 5) .nil)) (by
      intro c hc
      simp only [List.mem_cons, List.not_mem_nil, or_false] at hc
      rcases hc with rfl | rfl | rfl | rfl
      · exact Or.inr ⟨5, by decide⟩
      · exact Or.inr ⟨10, by decide⟩
      · exact Or.inl (by decide)
      · exact Or.inl (by decide))
  rw [show specCoin (.cons "sp" (.num 10) (.cons "cp" (.num 5) .nil)) "cp" +
        10 * specCoin (.cons "sp" (.num 10) (.cons "cp" (.num 5) .nil)) "sp" +
        100 * specCoin (.cons "sp" (.num 10) (.cons "cp" (.num 5) .nil)) "gp" +
        1000 * specCoin (.cons "sp" (.num 10) (.cons "cp" (.num 5) .nil)) "pp" =
        (105 : Int) from by decide] at h
  exact h

set_option maxHeartbeats 2000000 in
/-- C3 counterexample: the emitted cleaned record for a carried range "30"
holds \x7bnormal: 30, long: 0\x7d, not \x7bnormal: 30, long: null\x7d as the claim states. -/
theorem C3_range_long_not_null :
    (clean_item rangeItem30).map (fun y => jget y "range") =
      some (.obj (.cons "normal" (.num 30) (.cons "long" (.num 0) .nil))) ∧
    (clean_item rangeItem30).map (fun y => jget y "range") ≠
      some (.obj (.cons "normal" (.num 30) (.cons "long" Json.null .nil))) := by
  decide

set_option maxHeartbeats 2000000 in
/-- C3 amended: "30/120" canonicalizes to \x7bnormal: 30, long: 120\x7d; "30"
canonicalizes to \x7bnormal: 30, long: 0\x7d in the emitted record: normalize_range
itself leaves long as null, and clean_item then forces a null long to 0. -/
theorem C3_range_canonicalization_amended :
    normalize_range (.str "30/120") = some (some 30, some 120) ∧
    normalize_range (.str "30") = some (some 30, none) ∧
    (clean_item rangeItem30120).map (fun y => jget y "range") =
      some (.obj (.cons "normal" (.num 30) (.cons "long" (.num 120) .nil))) ∧
    (clean_item rangeItem30).map (fun y => jget y "range") =
      some (.obj (.cons "normal" (.num 30) (.cons "long" (.num 0) .nil))) := by
  decide

/-- C4: the never-raise contract fails in the code: normalize_range raises
ValueError (none) on a slash-form range whose part is not an integer, because
the try/except guards only the slash-free branch, and normalize_weight raises
TypeError (none) on a list; the slash-free branch does degrade to the neutral
default, showing the intended failure semantics. -/
theorem C4_field_rules_raise :
    normalize_range (.str "30/x") = none ∧
    normalize_weight (.arr .nil) = none ∧
    normalize_range (.str "x") = some (none, none) := by
  decide

theorem one_lt_length_of_two_mem {α : Type} (l : List α) (a b : α)
    (ha : a ∈ l) (hb : b ∈ l) (hab : a ≠ b) : 1 < l.length := by
  match l with
  | [] => exact absurd ha (List.not_mem_nil a)
  | [x] =>
      simp only [List.mem_singleton] at ha hb
      exact absurd (ha.trans hb.symm) hab
  | x :: y :: rest =>
      simp only [List.length_cons]
      omega

theorem two_mem_of_one_lt_length {α : Type} (l : List α) (hnd : l.Nodup)
    (h : 1 < l.length) : ∃ a b, a ∈ l ∧ b ∈ l ∧ a ≠ b := by
  match l, h with
  | a :: b :: rest, _ =>
      refine ⟨a, b, by simp, by simp, ?_⟩
      intro hab
      exact (List.nodup_cons.mp hnd).1 (hab ▸ List.mem_cons_self b rest)

theorem mem_typesAt (obs : List (String × String)) (p t : String) :
    t ∈ typesAt obs p ↔ (p, t) ∈ obs := by
  simp only [typesAt, List.mem_dedup, List.mem_map, List.mem_filter,
    decide_eq_true_eq]
  constructor
  · rintro ⟨⟨p', t'⟩, ⟨ho, hp⟩, ht⟩
    simp only at hp ht
    rw [← hp, ← ht] at *
    exact ho
  · intro h
    exact ⟨(p, t), ⟨h, rfl⟩, rfl⟩

set_option maxHeartbeats 2000000 in
/-- C5 counterexample: the dataset whose single record holds ten ints and
one string under field a passes the check (is_valid = true), although the
full shape observations show both int and str at path a[]: the checker
samples only the first ten elements of a list. -/
theorem C5_type_check_incomplete :
    check_type_consistency_is_valid mixedListData = true ∧
    ("a[]", "int") ∈ specObsOf mixedListData ∧
    ("a[]", "str") ∈ specObsOf mixedListData := by
  decide

/-- C5 amended: is_valid is complete only for the observations the checker
records (every dict field path, plus the types of the first ten elements of
each list, with no descent inside list elements): it is true exactly when no
recorded path carries two distinct type names. -/
theorem C5_type_check_amended (data : List Json) :
    check_type_consistency_is_valid data = true ↔
    ∀ p t1 t2, (p, t1) ∈ obsOf data → (p, t2) ∈ obsOf data → t1 = t2 := by
  unfold check_type_consistency_is_valid polyPaths
  rw [List.isEmpty_iff, List.filter_eq_nil_iff]
  constructor
  · intro hall p t1 t2 h1 h2
    by_contra hne
    have hp : p ∈ (List.map Prod.fst (obsOf data)).dedup := by
      rw [List.mem_dedup]
      exact List.mem_map.mpr ⟨(p, t1), h1, rfl⟩
    have hnot := hall p hp
    simp only [decide_eq_true_eq] at hnot
    exact hnot (one_lt_length_of_two_mem _ t1 t2
      ((mem_typesAt _ _ _).mpr h1) ((mem_typesAt _ _ _).mpr h2) hne)
  · intro huniq p hp
    simp only [decide_eq_true_eq]
    intro hlen
    rcases two_mem_of_one_lt_length _ (List.nodup_dedup _) hlen with ⟨a, b, ha, hb, hab⟩
    exact hab (huniq p a b ((mem_typesAt _ _ _).mp ha) ((mem_typesAt _ _ _).mp hb))

theorem dropWhile_append_ne_nil {p : Char → Bool} :
    ∀ (v w : List Char), (∃ x ∈ v, p x = false) →
    (v ++ w).dropWhile p = v.dropWhile p ++ w ∧ v.dropWhile p ≠ []
  | [], _, h => by simp at h
  | c :: v', w, h => by
      by_cases hc : p c = true
      · have hx : ∃ x ∈ v', p x = false := by
          rcases h with ⟨x, hx, hpx⟩
          rcases List.mem_cons.mp hx with rfl | hx'
          · rw [hc] at hpx
            cases hpx
          · exact ⟨x, hx', hpx⟩
        have ih := dropWhile_append_ne_nil v' w hx
        refine ⟨?_, ?_⟩
        · rw [List.cons_append, List.dropWhile_cons, if_pos hc, List.dropWhile_cons,
            if_pos hc]
          exact ih.1
        · rw [List.dropWhile_cons, if_pos hc]
          exact ih.2
      · refine ⟨?_, ?_⟩
        · rw [List.cons_append, List.dropWhile_cons, if_neg hc, List.dropWhile_cons,
            if_neg hc]
          rfl
        · rw [List.dropWhile_cons, if_neg hc]
          simp

theorem dropWhile_id_of_head {p : Char → Bool} :
    ∀ (l : List Char), (∀ c, l.head? = some c → p c = false) → l.dropWhile p = l
  | [], _ => rfl
  | c :: rest, h => by
      rw [List.dropWhile_cons, if_neg (by simp [h c rfl])]

theorem pyStrip_id (l : List Char)
    (hh : ∀ c, l.head? = some c → pySpace c = false)
    (hl : ∀ c, l.getLast? = some c → pySpace c = false) :
    pyStrip (String.mk l) = String.mk l := by
  show String.mk (((l.dropWhile pySpace).reverse.dropWhile pySpace).reverse) = String.mk l
  rw [dropWhile_id_of_head l hh]
  rw [dropWhile_id_of_head l.reverse (by
    intro c hc
    rw [List.head?_reverse] at hc
    exact hl c hc)]
  rw [List.reverse_reverse]

theorem stripAux_no_brace : ∀ (l : List Char), '{' ∉ l → stripAux l .outside = l
  | [], _ => rfl
  | c :: rest, h => by
      have hc : ¬ c = '{' := fun he => h (he ▸ List.mem_cons_self c rest)
      have ih := stripAux_no_brace rest (fun hm => h (List.mem_cons_of_mem c hm))
      simp [stripAux, hc, ih]

theorem leadingBonus_none (l : List Char) (h : ∀ rest, l ≠ '+' :: rest) :
    leadingBonus l = none := by
  unfold leadingBonus
  split
  · rename_i rest
    exact absurd rfl (h rest)
  · rfl

theorem parenFind_split : ∀ (v u inner : List Char),
    '(' ∉ v →
    (∀ c, v.getLast? = some c → pySpace c = false) →
    inner ≠ [] →
    '\n' ∉ v →
    '\n' ∉ inner →
    parenFind u.reverse (v ++ ' ' :: '(' :: (inner ++ [')'])) = some (u ++ v, inner)
  | [], u, inner, _, _, hin, _, hni => by
      show parenFind u.reverse (' ' :: '(' :: (inner ++ [')'])) = some (u ++ [], inner)
      have htry : parenTry u.reverse (' ' :: '(' :: (inner ++ [')'])) = some (u, inner) := by
        unfold parenTry
        rw [show (' ' :: '(' :: (inner ++ [')'])).dropWhile pySpace
              = '(' :: (inner ++ [')']) from by
          rw [List.dropWhile_cons, if_pos (by decide), List.dropWhile_cons,
            if_neg (by decide)]]
        show (if 2 ≤ (if (inner ++ [')']).getLastD ' ' = '\n' then (inner ++ [')']).dropLast
                      else inner ++ [')']).length ∧
               (if (inner ++ [')']).getLastD ' ' = '\n' then (inner ++ [')']).dropLast
                      else inner ++ [')']).getLastD ' ' = ')' ∧
               '\n' ∉ (if (inner ++ [')']).getLastD ' ' = '\n' then (inner ++ [')']).dropLast
                      else inner ++ [')']).dropLast then
               some (u.reverse.reverse,
                 (if (inner ++ [')']).getLastD ' ' = '\n' then (inner ++ [')']).dropLast
                      else inner ++ [')']).dropLast)
             else none) = some (u, inner)
        have hE : (if (inner ++ [')']).getLastD ' ' = '\n' then (inner ++ [')']).dropLast
                      else inner ++ [')']) = inner ++ [')'] := by
          rw [List.getLastD_concat]
          exact if_neg (by decide)
        rw [hE]
        have hcond : 2 ≤ (inner ++ [')']).length ∧ (inner ++ [')']).getLastD ' ' = ')' ∧
            '\n' ∉ (inner ++ [')']).dropLast := by
          refine ⟨?_, List.getLastD_concat _ _ _, ?_⟩
          · rw [List.length_append]
            cases inner with
            | nil => exact absurd rfl hin
            | cons a l => simp
          · rw [List.dropLast_concat]
            exact hni
        rw [if_pos hcond, List.reverse_reverse, List.dropLast_concat]
      show (match parenTry u.reverse (' ' :: '(' :: (inner ++ [')'])) with
            | some r => some r
            | none => if ' ' = '\n' then none
                      else parenFind (' ' :: u.reverse) ('(' :: (inner ++ [')'])))
          = some (u ++ [], inner)
      rw [htry]
      simp
  | c :: v', u, inner, hp, hl, hin, hnl, hni => by
      have hex : ∃ x ∈ c :: v', pySpace x = false := by
        have hne : (c :: v') ≠ [] := by simp
        have hlast := List.getLast?_eq_getLast_of_ne_nil hne
        exact ⟨(c :: v').getLast hne, List.getLast_mem hne, hl _ hlast⟩
      have hdw := dropWhile_append_ne_nil (c :: v') (' ' :: '(' :: (inner ++ [')'])) hex
      have htry : parenTry u.reverse (c :: (v' ++ ' ' :: '(' :: (inner ++ [')']))) = none := by
        unfold parenTry
        rw [← List.cons_append, hdw.1]
        match hres : (c :: v').dropWhile pySpace with
        | [] => exact absurd hres hdw.2
        | d :: rest2 =>
            have hd : d ∈ c :: v' := by
              have hsub := List.dropWhile_sublist (l := c :: v') (p := pySpace)
              rw [hres] at hsub
              exact hsub.mem (List.mem_cons_self d rest2)
            have hdne : ¬ d = '(' := fun he => hp (he ▸ hd)
            simp only [hres, List.cons_append]
            split
            · rename_i inner2 heq
              injection heq with h1 _
              exact absurd h1 hdne
            · rfl
      show parenFind u.reverse (c :: (v' ++ ' ' :: '(' :: (inner ++ [')']))) = _
      rw [show parenFind u.reverse (c :: (v' ++ ' ' :: '(' :: (inner ++ [')'])))
            = (match parenTry u.reverse (c :: (v' ++ ' ' :: '(' :: (inner ++ [')']))) with
               | some r => some r
               | none => if c = '\n' then none
                         else parenFind (c :: u.reverse) (v' ++ ' ' :: '(' :: (inner ++ [')'])))
            from rfl]
      rw [htry]
      have hcn : ¬ c = '\n' := by
        intro he
        subst he
        exact hnl (List.mem_cons_self _ _)
      rw [if_neg hcn]
      have hl' : ∀ c', v'.getLast? = some c' → pySpace c' = false := by
        intro c' hc'
        cases v' with
        | nil => cases hc'
        | cons a l =>
            exact hl c' (by rw [List.getLast?_cons_cons]; exact hc')
      have hp' : '(' ∉ v' := fun hm => hp (List.mem_cons_of_mem c hm)
      have hnl' : '\n' ∉ v' := fun hm => hnl (List.mem_cons_of_mem c hm)
      have ih := parenFind_split v' (u ++ [c]) inner hp' hl' hin hnl' hni
      rw [show c :: u.reverse = (u ++ [c]).reverse from by simp] at *
      rw [ih]
      simp

/-- C6: parse_item_name decomposes item display names as specified. The three
documented examples hold: "Arrow (20)" gives base_name "Arrow" with
default_quantity 20, "Acid (vial)" gives base_name "Acid" with
container_type "vial", and "+1 Longsword" gives base_name "Longsword" with
bonus_display "+1". In general, for every cleaned name of the shape
base ++ " (" ++ inner ++ ")" whose base holds no tag, parenthesis or
newline, starts with a non-space character other than a plus sign and ends
with a non-space character, and whose nonempty inner content is free of
tags, newlines and surrounding whitespace (the regex dot matches neither
group across a newline), the single trailing parenthetical group is
classified in
priority order: all-digit content yields default_quantity, a plus-digits
pattern yields bonus_display, a container keyword yields container_type,
and anything else yields variant_name; base_name is the base and the unused
components stay null. The function is total by type: every input yields a
full decomposition. -/
theorem C6_name_decomposition :
    (parse_item_name "Arrow (20)" =
      { base_name := "Arrow", variant_name := none, container_type := none,
        default_quantity := some 20, bonus_display := none }) ∧
    (parse_item_name "Acid (vial)" =
      { base_name := "Acid", variant_name := none, container_type := some "vial",
        default_quantity := none, bonus_display := none }) ∧
    (parse_item_name "+1 Longsword" =
      { base_name := "Longsword", variant_name := none, container_type := none,
        default_quantity := none, bonus_display := some "+1" }) ∧
    (∀ (b : Char) (v inner : List Char),
      '(' ∉ b :: v → '{' ∉ b :: v → '{' ∉ inner →
      '\n' ∉ b :: v → '\n' ∉ inner →
      pySpace b = false → b ≠ '+' →
      (∀ c, (b :: v).getLast? = some c → pySpace c = false) →
      inner ≠ [] →
      (∀ c, inner.head? = some c → pySpace c = false) →
      (∀ c, inner.getLast? = some c → pySpace c = false) →
      parse_item_name (String.mk (b :: v ++ ' ' :: '(' :: (inner ++ [')']))) =
        (if pyIsDigit (String.mk inner) then
          { base_name := String.mk (b :: v), variant_name := none, container_type := none,
            default_quantity := some (digitsVal inner), bonus_display := none }
         else if isPlusDigits (String.mk inner) then
          { base_name := String.mk (b :: v), variant_name := none, container_type := none,
            default_quantity := none, bonus_display := some (String.mk inner) }
         else if containers.contains (pyLower (String.mk inner)) then
          { base_name := String.mk (b :: v), variant_name := none,
            container_type := some (pyLower (String.mk inner)),
            default_quantity := none, bonus_display := none }
         else
          { base_name := String.mk (b :: v), variant_name := some (String.mk inner),
            container_type := none, default_quantity := none,
            bonus_display := none })) := by
  refine ⟨by decide, by decide, by decide, ?_⟩
  intro b v inner h1 h2 h3 hn1 hn2 h4 h5 h6 h7 h8 h9
  have hdm : ∀ l : List Char, (String.mk l).data = l := fun _ => rfl
  have hnb : '{' ∉ b :: (v ++ ' ' :: '(' :: (inner ++ [')'])) := by
    intro hm
    rcases List.mem_cons.mp hm with rfl | hm'
    · exact h2 (List.mem_cons_self _ _)
    rcases List.mem_append.mp hm' with hv | hr
    · exact h2 (List.mem_cons_of_mem b hv)
    rcases List.mem_cons.mp hr with he | hr
    · exact absurd he (by decide)
    rcases List.mem_cons.mp hr with he | hr
    · exact absurd he (by decide)
    rcases List.mem_append.mp hr with hi | hr
    · exact h3 hi
    rcases List.mem_cons.mp hr with he | hr
    · exact absurd he (by decide)
    · cases hr
  have hlast : (b :: (v ++ ' ' :: '(' :: (inner ++ [')']))).getLast? = some ')' := by
    rw [show b :: (v ++ ' ' :: '(' :: (inner ++ [')']))
          = (b :: v ++ ' ' :: '(' :: inner) ++ [')'] from by simp]
    exact List.getLast?_concat _
  have hA : strip_markup (String.mk (b :: (v ++ ' ' :: '(' :: (inner ++ [')']))))
      = String.mk (b :: (v ++ ' ' :: '(' :: (inner ++ [')']))) := by
    show pyStrip (String.mk (stripAux (b :: (v ++ ' ' :: '(' :: (inner ++ [')']))) .outside))
        = _
    rw [stripAux_no_brace _ hnb]
    apply pyStrip_id
    · intro c hc
      rw [List.head?_cons] at hc
      injection hc with h
      subst h
      exact h4
    · intro c hc
      rw [hlast] at hc
      injection hc with h
      subst h
      decide
  have hB : leadingBonus (b :: (v ++ ' ' :: '(' :: (inner ++ [')']))) = none := by
    apply leadingBonus_none
    intro rest he
    injection he with hb _
    exact h5 hb
  have h1' : '(' ∉ v := fun hm => h1 (List.mem_cons_of_mem b hm)
  have h6' : ∀ c, v.getLast? = some c → pySpace c = false := by
    intro c hc
    cases v with
    | nil => simp at hc
    | cons a l =>
        exact h6 c (by rw [List.getLast?_cons_cons]; exact hc)
  have hbn : ¬ b = '\n' := by
    intro he
    subst he
    exact absurd h4 (by decide)
  have hnl' : '\n' ∉ v := fun hm => hn1 (List.mem_cons_of_mem b hm)
  have hPM : parenMatch (b :: (v ++ ' ' :: '(' :: (inner ++ [')'])))
      = some (b :: v, inner) := by
    show (if b = '\n' then none else parenFind [b] (v ++ ' ' :: '(' :: (inner ++ [')'])))
        = some (b :: v, inner)
    rw [if_neg hbn]
    exact parenFind_split v [b] inner h1' h6' h7 hnl' hn2
  have hbase : pyStrip (String.mk (b :: v)) = String.mk (b :: v) := by
    apply pyStrip_id
    · intro c hc
      rw [List.head?_cons] at hc
      injection hc with h
      subst h
      exact h4
    · exact h6
  have hinner : pyStrip (String.mk inner) = String.mk inner := pyStrip_id inner h8 h9
  simp only [parse_item_name, List.cons_append, hdm, hA, hB, Option.map_none',
    Option.getD_none, hPM, hbase, hinner]

/-- Witness for C6 at a concrete constructed name: "Dagger (silvered)" falls
through the quantity, bonus and container tests to the variant branch. -/
theorem C6_name_decomposition_witness :
    parse_item_name "Dagger (silvered)" =
      { base_name := "Dagger", variant_name := some "silvered",
        container_type := none, default_quantity := none,
        bonus_display := none } := by
  have h := C6_name_decomposition.2.2.2 'D' "agger".data "silvered".data
    (by decide) (by decide) (by decide) (by decide) (by decide) (by decide)
    (by decide) (by decide) (by decide) (by decide) (by decide)
  rw [if_neg (by decide), if_neg (by decide), if_neg (by decide)] at h
  exact h

/-- C7: condition polarity. Both spec examples hold: an "immune to ..."
context yields inflicts = false and a plain "becomes ..." context yields
inflicts = true. In general, for every text and every condition-tag
occurrence in it, the emitted record appears in the extractor output and its
polarity is the default inflicts = true unless one of the six fixed immunity
keywords occurs as a substring of the lowercased up-to-100-character stretch
immediately preceding the tag, in which case inflicts = false. -/
theorem C7_condition_polarity :
    ((extract_conditions_from_text
        "The target is immune to the \x7b@condition poisoned|XPHB\x7d condition").map
        (fun r => (r.condition, r.inflicts)) = [("poisoned", false)]) ∧
    ((extract_conditions_from_text
        "The target becomes \x7b@condition poisoned|XPHB\x7d").map
        (fun r => (r.condition, r.inflicts)) = [("poisoned", true)]) ∧
    (∀ (text : List Char) (m : CondMatch), m ∈ findCondTags text →
      condRecord text m ∈ extract_conditions_from_text (String.mk text) ∧
      ((condRecord text m).inflicts = false ↔
        ∃ kw ∈ immunity_keywords,
          containsSub kw.data
            (((text.drop (m.start - 100)).take (m.start - (m.start - 100))).map
              Char.toLower) = true)) := by
  refine ⟨by decide, by decide, ?_⟩
  intro text m hm
  constructor
  · show condRecord text m ∈ (findCondTags text).map (condRecord text)
    exact List.mem_map_of_mem _ hm
  · show (! is_immunity_or_resistance text m.start) = false ↔ _
    rw [Bool.not_eq_false']
    exact List.any_eq_true

/-- Witness for C7 at a concrete text: the tag of
"He is immune to (tag charmed)" sits at position 16, the record is emitted
with inflicts = false, and the keyword "immune to" certifies the reverse
direction of the polarity equivalence. -/
theorem C7_condition_polarity_witness :
    (condRecord "He is immune to \x7b@condition charmed\x7d".data
        { start := 16, stop := 36, name := "charmed", source := none }).inflicts = false := by
  have h := (C7_condition_polarity.2.2 "He is immune to \x7b@condition charmed\x7d".data
      { start := 16, stop := 36, name := "charmed", source := none } (by decide)).2
  exact h.mpr ⟨"immune to", by decide, by decide⟩

/-- The previous character at position 0 is the initial one. -/
theorem prevAt_zero (p0 : Option Char) (l : List Char) : prevAt p0 l 0 = p0 := rfl

/-- Stepping the scan shifts the previous-character function by one. -/
theorem prevAt_succ (p0 : Option Char) (c : Char) (rest : List Char) (j : Nat) :
    prevAt p0 (c :: rest) (j + 1) = prevAt (some c) rest j := by
  cases j with
  | zero => rfl
  | succ j' => rfl

/-- The tagged-DC scanner returns n exactly when the tagged pattern first
matches with value n. -/
theorem searchTaggedDC_some : ∀ (l : List Char) (n : Int),
    searchTaggedDC l = some n ↔ taggedDCFirst l n
  | [], n => by
      constructor
      · intro h
        exact Option.noConfusion h
      · rintro ⟨i, hi, -⟩
        rw [List.drop_nil] at hi
        exact Option.noConfusion hi
  | c :: rest, n => by
      cases h0 : dcTagAt (c :: rest) with
      | some m =>
          constructor
          · intro h
            have hms : searchTaggedDC (c :: rest) = some m := by
              simp [searchTaggedDC, h0]
            rw [hms] at h
            refine ⟨0, ?_, fun j hj => absurd hj (Nat.not_lt_zero j)⟩
            rw [List.drop_zero, h0, Option.some.inj h]
          · rintro ⟨i, hi, hmin⟩
            cases i with
            | zero =>
                rw [List.drop_zero, h0] at hi
                simp [searchTaggedDC, h0, Option.some.inj hi]
            | succ i' =>
                have hz := hmin 0 (Nat.succ_pos i')
                rw [List.drop_zero, h0] at hz
                exact Option.noConfusion hz
      | none =>
          have ih := searchTaggedDC_some rest n
          constructor
          · intro h
            have h' : searchTaggedDC rest = some n := by
              simpa [searchTaggedDC, h0] using h
            rcases ih.mp h' with ⟨i, hi, hmin⟩
            refine ⟨i + 1, ?_, ?_⟩
            · rw [List.drop_succ_cons]
              exact hi
            · intro j hj
              cases j with
              | zero =>
                  rw [List.drop_zero]
                  exact h0
              | succ j' =>
                  rw [List.drop_succ_cons]
                  exact hmin j' (Nat.lt_of_succ_lt_succ hj)
          · rintro ⟨i, hi, hmin⟩
            cases i with
            | zero =>
                rw [List.drop_zero, h0] at hi
                exact Option.noConfusion hi
            | succ i' =>
                rw [List.drop_succ_cons] at hi
                have h' : searchTaggedDC rest = some n := by
                  apply ih.mpr
                  refine ⟨i', hi, ?_⟩
                  intro j hj
                  have hj' := hmin (j + 1) (Nat.succ_lt_succ hj)
                  rw [List.drop_succ_cons] at hj'
                  exact hj'
                simp [searchTaggedDC, h0, h']

/-- The tagged-DC scanner returns none exactly when the tagged pattern
matches nowhere. -/
theorem searchTaggedDC_none : ∀ (l : List Char),
    searchTaggedDC l = none ↔ noTaggedDC l
  | [] => by
      constructor
      · intro _ i
        rw [List.drop_nil]
        rfl
      · intro _
        rfl
  | c :: rest => by
      cases h0 : dcTagAt (c :: rest) with
      | some m =>
          constructor
          · intro h
            exfalso
            simp [searchTaggedDC, h0] at h
          · intro h
            have hz := h 0
            rw [List.drop_zero, h0] at hz
            exact Option.noConfusion hz
      | none =>
          have ih := searchTaggedDC_none rest
          constructor
          · intro h i
            have h' : searchTaggedDC rest = none := by
              simpa [searchTaggedDC, h0] using h
            cases i with
            | zero =>
                rw [List.drop_zero]
                exact h0
            | succ i' =>
                rw [List.drop_succ_cons]
                exact (ih.mp h') i'
          · intro h
            have h' : searchTaggedDC rest = none := by
              apply ih.mpr
              intro i
              have hi := h (i + 1)
              rw [List.drop_succ_cons] at hi
              exact hi
            simp [searchTaggedDC, h0, h']

/-- The plain-DC scanner with initial previous character p0 returns n
exactly when the plain pattern first matches with value n under the
corresponding previous-character function. -/
theorem searchPlainDC_some : ∀ (p0 : Option Char) (l : List Char) (n : Int),
    searchPlainDC p0 l = some n ↔
      ∃ i, dcPlainAt (prevAt p0 l i) (l.drop i) = some n ∧
        ∀ j, j < i → dcPlainAt (prevAt p0 l j) (l.drop j) = none
  | p0, [], n => by
      constructor
      · intro h
        exact Option.noConfusion h
      · rintro ⟨i, hi, -⟩
        rw [List.drop_nil] at hi
        exact Option.noConfusion hi
  | p0, c :: rest, n => by
      cases h0 : dcPlainAt p0 (c :: rest) with
      | some m =>
          constructor
          · intro h
            have hms : searchPlainDC p0 (c :: rest) = some m := by
              simp [searchPlainDC, h0]
            rw [hms] at h
            refine ⟨0, ?_, fun j hj => absurd hj (Nat.not_lt_zero j)⟩
            rw [prevAt_zero, List.drop_zero, h0, Option.some.inj h]
          · rintro ⟨i, hi, hmin⟩
            cases i with
            | zero =>
                rw [prevAt_zero, List.drop_zero, h0] at hi
                simp [searchPlainDC, h0, Option.some.inj hi]
            | succ i' =>
                have hz := hmin 0 (Nat.succ_pos i')
                rw [prevAt_zero, List.drop_zero, h0] at hz
                exact Option.noConfusion hz
      | none =>
          have ih := searchPlainDC_some (some c) rest n
          constructor
          · intro h
            have h' : searchPlainDC (some c) rest = some n := by
              simpa [searchPlainDC, h0] using h
            rcases ih.mp h' with ⟨i, hi, hmin⟩
            refine ⟨i + 1, ?_, ?_⟩
            · rw [prevAt_succ, List.drop_succ_cons]
              exact hi
            · intro j hj
              cases j with
              | zero =>
                  rw [prevAt_zero, List.drop_zero]
                  exact h0
              | succ j' =>
                  rw [prevAt_succ, List.drop_succ_cons]
                  exact hmin j' (Nat.lt_of_succ_lt_succ hj)
          · rintro ⟨i, hi, hmin⟩
            cases i with
            | zero =>
                rw [prevAt_zero, List.drop_zero, h0] at hi
                exact Option.noConfusion hi
            | succ i' =>
                rw [prevAt_succ, List.drop_succ_cons] at hi
                have h' : searchPlainDC (some c) rest = some n := by
                  apply ih.mpr
                  refine ⟨i', hi, ?_⟩
                  intro j hj
                  have hj' := hmin (j + 1) (Nat.succ_lt_succ hj)
                  rw [prevAt_succ, List.drop_succ_cons] at hj'
                  exact hj'
                simp [searchPlainDC, h0, h']

/-- The plain-DC scanner returns none exactly when the plain pattern matches
nowhere under the corresponding previous-character function. -/
theorem searchPlainDC_none : ∀ (p0 : Option Char) (l : List Char),
    searchPlainDC p0 l = none ↔
      ∀ i, dcPlainAt (prevAt p0 l i) (l.drop i) = none
  | p0, [] => by
      constructor
      · intro _ i
        rw [List.drop_nil]
        rfl
      · intro _
        rfl
  | p0, c :: rest => by
      cases h0 : dcPlainAt p0 (c :: rest) with
      | some m =>
          constructor
          · intro h
            exfalso
            simp [searchPlainDC, h0] at h
          · intro h
            have hz := h 0
            rw [prevAt_zero, List.drop_zero, h0] at hz
            exact Option.noConfusion hz
      | none =>
          have ih := searchPlainDC_none (some c) rest
          constructor
          · intro h i
            have h' : searchPlainDC (some c) rest = none := by
              simpa [searchPlainDC, h0] using h
            cases i with
            | zero =>
                rw [prevAt_zero, List.drop_zero]
                exact h0
            | succ i' =>
                rw [prevAt_succ, List.drop_succ_cons]
                exact (ih.mp h') i'
          · intro h
            have h' : searchPlainDC (some c) rest = none := by
              apply ih.mpr
              intro i
              have hi := h (i + 1)
              rw [prevAt_succ, List.drop_succ_cons] at hi
              exact hi
            simp [searchPlainDC, h0, h']

/-- extract_dc returns n exactly when the tagged form first matches with
value n, or no tagged form occurs and the plain form first matches with
value n. -/
theorem extract_dc_some (l : List Char) (n : Int) :
    extract_dc l = some n ↔ taggedDCFirst l n ∨ (noTaggedDC l ∧ plainDCFirst l n) := by
  unfold extract_dc
  cases h0 : searchTaggedDC l with
  | some m =>
      constructor
      · intro h
        have h' : (some m : Option Int) = some n := h
        exact Or.inl ((searchTaggedDC_some l n).mp (h0.trans h'))
      · rintro (ht | ⟨hno, -⟩)
        · have hs := (searchTaggedDC_some l n).mpr ht
          rw [h0] at hs
          exact hs
        · have hs := (searchTaggedDC_none l).mpr hno
          rw [h0] at hs
          exact Option.noConfusion hs
  | none =>
      constructor
      · intro h
        have h' : searchPlainDC none l = some n := h
        exact Or.inr ⟨(searchTaggedDC_none l).mp h0, (searchPlainDC_some none l n).mp h'⟩
      · rintro (ht | ⟨-, hp⟩)
        · exfalso
          have hs := (searchTaggedDC_some l n).mpr ht
          rw [h0] at hs
          exact Option.noConfusion hs
        · exact (searchPlainDC_some none l n).mpr hp

/-- extract_dc returns none exactly when neither DC form occurs. -/
theorem extract_dc_none (l : List Char) :
    extract_dc l = none ↔ noTaggedDC l ∧ noPlainDC l := by
  unfold extract_dc
  cases h0 : searchTaggedDC l with
  | some m =>
      constructor
      · intro h
        exact Option.noConfusion (show (some m : Option Int) = none from h)
      · rintro ⟨hno, -⟩
        have hs := (searchTaggedDC_none l).mpr hno
        rw [h0] at hs
        exact Option.noConfusion hs
  | none =>
      constructor
      · intro h
        exact ⟨(searchTaggedDC_none l).mp h0, (searchPlainDC_none none l).mp h⟩
      · rintro ⟨-, hp⟩
        exact (searchPlainDC_none none l).mpr hp

/-- Absence of the tagged DC form follows from its absence at every position
of the text. -/
theorem noTaggedDC_of_bounded (l : List Char)
    (h : ∀ i, i < l.length → dcTagAt (l.drop i) = none) : noTaggedDC l := by
  intro i
  by_cases hi : i < l.length
  · exact h i hi
  · rw [List.drop_eq_nil_of_le (Nat.le_of_not_lt hi)]
    rfl

/-- C8: save-DC extraction. The DC stored in an emitted condition record is
exactly extract_dc applied to the context window of up to 200 characters
before the match start and 200 after the match end; extract_dc returns the
value of the first tagged DC form if one occurs, otherwise the value of the
first plain "DC n" form, and returns null exactly when neither form occurs;
and in the precedence example the tagged form wins over an earlier plain
form. -/
theorem C8_save_dc_extraction :
    (∀ (text : List Char) (m : CondMatch),
        (condRecord text m).save_dc = extract_dc (condWindow text m.start m.stop)) ∧
    (∀ (l : List Char) (n : Int),
        extract_dc l = some n ↔ taggedDCFirst l n ∨ (noTaggedDC l ∧ plainDCFirst l n)) ∧
    (∀ l : List Char, extract_dc l = none ↔ noTaggedDC l ∧ noPlainDC l) ∧
    extract_dc "The save is DC 13 unless \x7b@dc 15\x7d applies".data = some 15 := by
  have h1 : ∀ (text : List Char) (m : CondMatch),
      (condRecord text m).save_dc = extract_dc (condWindow text m.start m.stop) := by
    intro text m
    simp only [condRecord]
  have h4 : extract_dc "The save is DC 13 unless \x7b@dc 15\x7d applies".data = some 15 := by
    set_option maxRecDepth 8192 in decide
  exact ⟨h1, extract_dc_some, extract_dc_none, h4⟩

/-- Witness for C8 at a concrete text with no tagged form: the plain form
first matches at position 7 with value 12. -/
theorem C8_save_dc_extraction_witness :
    extract_dc "Make a DC 12 save".data = some 12 := by
  exact (C8_save_dc_extraction.2.1 "Make a DC 12 save".data 12).mpr
    (Or.inr ⟨noTaggedDC_of_bounded _ (by decide), 7, by decide, by decide⟩)

/-- Inversion of a successful Option-valued mapM: every element of the
output list comes from some element of the input list. -/
theorem mapM_mem_inv {α β : Type} (g : α → Option β) :
    ∀ (l : List α) (ls : List β), l.mapM g = some ls →
      ∀ li ∈ ls, ∃ x ∈ l, g x = some li
  | [], ls, h, li, hli => by
      rw [List.mapM_nil] at h
      have he : [] = ls := Option.some.inj h
      subst he
      exact absurd hli (List.not_mem_nil li)
  | x :: rest, ls, h, li, hli => by
      rw [List.mapM_cons] at h
      rcases Option.bind_eq_some.mp h with ⟨y, hy, h2⟩
      rcases Option.bind_eq_some.mp h2 with ⟨ys, hys, h3⟩
      have he : y :: ys = ls := Option.some.inj h3
      subst he
      rcases List.mem_cons.mp hli with rfl | hli'
      · exact ⟨x, List.mem_cons_self x rest, hy⟩
      · rcases mapM_mem_inv g rest ys hys li hli' with ⟨m, hm, hgm⟩
        exact ⟨m, List.mem_cons_of_mem x hm, hgm⟩

/-- Every fact an ability block yields carries the enclosing monster's name
and source. -/
theorem monsterAbilityFacts_subject (mname msrc : Json) (ct : String) (ab : Json)
    (fl : List MonsterFact) (h : monsterAbilityFacts mname msrc ct ab = some fl) :
    ∀ f ∈ fl, f.monster_name = mname ∧ f.source = msrc := by
  intro f hf
  cases ab with
  | obj abd =>
      simp only [monsterAbilityFacts] at h
      have he := Option.some.inj h
      subst he
      cases hent : abd.lookup "entries" with
      | none =>
          rw [hent] at hf
          exact absurd hf (List.not_mem_nil f)
      | some e =>
          rw [hent] at hf
          rw [List.mem_flatMap] at hf
          rcases hf with ⟨txt, -, hf⟩
          rw [List.mem_map] at hf
          rcases hf with ⟨cond, -, rfl⟩
          exact ⟨rfl, rfl⟩
  | null => exact Option.noConfusion h
  | bool b => exact Option.noConfusion h
  | num n => exact Option.noConfusion h
  | str s => exact Option.noConfusion h
  | arr xs => exact Option.noConfusion h

/-- Every fact one monster field yields carries the monster's name and
source. -/
theorem monsterFieldFacts_subject (m : JObj) (mname msrc : Json) (fn ct : String)
    (facts : List MonsterFact) (h : monsterFieldFacts m mname msrc fn ct = some facts) :
    ∀ f ∈ facts, f.monster_name = mname ∧ f.source = msrc := by
  intro f hf
  unfold monsterFieldFacts at h
  by_cases hk : m.hasKey fn = true
  · rw [if_pos hk] at h
    rcases Option.bind_eq_some.mp h with ⟨abilities, hab, h2⟩
    rcases Option.bind_eq_some.mp h2 with ⟨ls, hls, h3⟩
    have he := Option.some.inj h3
    subst he
    rw [List.mem_flatten] at hf
    rcases hf with ⟨li, hli, hfli⟩
    rcases mapM_mem_inv _ abilities ls hls li hli with ⟨ab, -, habf⟩
    exact monsterAbilityFacts_subject mname msrc ct ab li habf f hfli
  · rw [if_neg hk] at h
    have he : [] = facts := Option.some.inj h
    subst he
    exact absurd hf (List.not_mem_nil f)

/-- C9: no orphan facts. Every fact the item extractor emits names as its
subject the name and source of some item of the input corpus, and every fact
a successful monster extraction emits names as its subject the name and
source of some monster of the input corpus (in both cases with the "Unknown"
default of a missing field). -/
theorem C9_no_orphan_facts :
    (∀ (items : List JObj) (f : ItemFact), f ∈ extract_item_conditions items →
      ∃ item ∈ items, f.item_name = jgetD item "name" (.str "Unknown") ∧
        f.source = jgetD item "source" (.str "Unknown")) ∧
    (∀ (monsters : List JObj) (facts : List MonsterFact) (f : MonsterFact),
      extract_monster_conditions monsters = some facts → f ∈ facts →
      ∃ m ∈ monsters, f.monster_name = jgetD m "name" (.str "Unknown") ∧
        f.source = jgetD m "source" (.str "Unknown")) := by
  constructor
  · intro items f hf
    unfold extract_item_conditions at hf
    rw [List.mem_flatMap] at hf
    rcases hf with ⟨item, hitem, hf⟩
    refine ⟨item, hitem, ?_⟩
    cases he : item.lookup "entries" with
    | none =>
        rw [he] at hf
        exact absurd hf (List.not_mem_nil f)
    | some e =>
        rw [he] at hf
        rw [List.mem_flatMap] at hf
        rcases hf with ⟨txt, -, hf⟩
        rw [List.mem_map] at hf
        rcases hf with ⟨cond, -, rfl⟩
        exact ⟨rfl, rfl⟩
  · intro monsters facts f h hf
    unfold extract_monster_conditions at h
    rcases Option.bind_eq_some.mp h with ⟨ls, hls, h2⟩
    have he := Option.some.inj h2
    subst he
    rw [List.mem_flatten] at hf
    rcases hf with ⟨li, hli, hfli⟩
    rcases mapM_mem_inv _ monsters ls hls li hli with ⟨m, hm, hgm⟩
    refine ⟨m, hm, ?_⟩
    rcases Option.bind_eq_some.mp hgm with ⟨l1, hl1, hg2⟩
    rcases Option.bind_eq_some.mp hg2 with ⟨l2, hl2, hg3⟩
    rcases Option.bind_eq_some.mp hg3 with ⟨l3, hl3, hg4⟩
    rcases Option.bind_eq_some.mp hg4 with ⟨l4, hl4, hg5⟩
    rcases Option.bind_eq_some.mp hg5 with ⟨l5, hl5, hg6⟩
    have he := Option.some.inj hg6
    subst he
    simp only [List.mem_append] at hfli
    rcases hfli with ((((h1 | h2) | h3) | h4) | h5)
    · exact monsterFieldFacts_subject m _ _ _ _ _ hl1 f h1
    · exact monsterFieldFacts_subject m _ _ _ _ _ hl2 f h2
    · exact monsterFieldFacts_subject m _ _ _ _ _ hl3 f h3
    · exact monsterFieldFacts_subject m _ _ _ _ _ hl4 f h4
    · exact monsterFieldFacts_subject m _ _ _ _ _ hl5 f h5

/-- Witness for C9 at the one-item corpus: the emitted fact's subject is the
name and source of the Dagger of Venom record. -/
theorem C9_no_orphan_facts_witness :
    ∃ item ∈ sampleItems,
      sampleItemFact.item_name = jgetD item "name" (.str "Unknown") ∧
      sampleItemFact.source = jgetD item "source" (.str "Unknown") := by
  exact C9_no_orphan_facts.1 sampleItems sampleItemFact
    (by set_option maxRecDepth 8192 in decide)

/-- Scanning the body of an open tag: a close-brace-free body followed by a
close brace is consumed entirely (when body and accumulator are not both
empty, so the tag has content) and scanning resumes outside. -/
theorem stripAux_pending : ∀ (body t acc : List Char),
    '}' ∉ body → (acc = [] → body ≠ []) →
    stripAux (body ++ '}' :: t) (.pending acc) = stripAux t .outside
  | [], t, acc, _, hne => by
      have hacc : ¬ acc = [] := fun h => (hne h) rfl
      show stripAux ('}' :: t) (.pending acc) = _
      simp [stripAux, hacc]
  | c :: body', t, acc, hb, _ => by
      have hc : ¬ c = '}' := by
        intro he
        subst he
        exact hb (List.mem_cons_self _ _)
      have hb' : '}' ∉ body' := fun hm => hb (List.mem_cons_of_mem c hm)
      show stripAux (c :: (body' ++ '}' :: t)) (.pending acc) = _
      rw [show stripAux (c :: (body' ++ '}' :: t)) (.pending acc)
            = stripAux (body' ++ '}' :: t) (.pending (c :: acc)) from by
        simp [stripAux, hc]]
      exact stripAux_pending body' t (c :: acc) hb' (by simp)

/-- A whole tag at the head of the text — open brace, at sign, a nonempty
close-brace-free body, close brace — is deleted entirely by the stripping
scan: no character of the body survives. -/
theorem stripAux_head_tag (body t : List Char) (hb : '}' ∉ body) (hne : body ≠ []) :
    stripAux ('{' :: '@' :: (body ++ '}' :: t)) .outside = stripAux t .outside := by
  rw [show stripAux ('{' :: '@' :: (body ++ '}' :: t)) .outside
        = stripAux (body ++ '}' :: t) (.pending []) from by simp [stripAux]]
  exact stripAux_pending body t [] hb (fun _ => hne)

/-- C10: tag stripping deletes the referenced name, not just the tag syntax.
strip_markup of the tagged Aboleth Spawn display name keeps only "Spawn",
parse_monster_name decomposes it to base_name "Spawn" with no variant, and
in general stripping a text that begins with a whole tag (open brace, at
sign, a nonempty close-brace-free body, close brace) gives exactly the
stripped remainder: no character from inside the tag survives. -/
theorem C10_strip_markup_removes_tag :
    (strip_markup "\x7b@creature Aboleth|MM\x7d Spawn" = "Spawn") ∧
    (parse_monster_name "\x7b@creature Aboleth|MM\x7d Spawn" =
      { base_name := "Spawn", variant_name := none, variant_notes := none }) ∧
    (∀ (body t : List Char), '}' ∉ body → body ≠ [] →
      strip_markup (String.mk ('{' :: '@' :: (body ++ '}' :: t)))
        = strip_markup (String.mk t)) := by
  refine ⟨by decide, by decide, ?_⟩
  intro body t hb hne
  show pyStrip (String.mk (stripAux ('{' :: '@' :: (body ++ '}' :: t)) .outside)) = _
  rw [stripAux_head_tag body t hb hne]
  rfl

/-- Witness for C10 at the Aboleth Spawn tag body: stripping the tagged text
equals stripping the remainder " Spawn". -/
theorem C10_strip_markup_removes_tag_witness :
    strip_markup (String.mk
        ('{' :: '@' :: ("creature Aboleth|MM".data ++ '}' :: " Spawn".data)))
      = strip_markup (String.mk " Spawn".data) := by
  exact C10_strip_markup_removes_tag.2.2 "creature Aboleth|MM".data " Spawn".data
    (by decide) (by decide)
